import Mathlib

/-!
Scheduling options of the placement driver (server/option.go) and its hot-spot
cache (server/statistics/hot_cache.go).

A shallow embedding of `scheduleOption` and of the operations on its cells.
Every atomic cell is modelled by the value it currently holds: `load` reads
the field, `store` replaces it.  Go maps are modelled by their lookup
function (`none` for an absent key), Go slices by lists.  The one slice that
the code compares with `reflect.DeepEqual`, the argument list of a scheduler,
keeps the difference between the nil slice and an empty slice.
-/

namespace Server

/-! ## Data model -/

/-- Go `error` values. -/
abbrev Error := String

/-- Go `map[string]V`, by lookup. -/
abbrev GoMap (V : Type) := String → Option V

/-- Entry `SchedulerConfig{Type, Args, Disable}`.  `Args` is `none` for the nil
slice and `some xs` for a non-nil slice, so that equality of two values of this
type is exactly `reflect.DeepEqual`. -/
structure SchedulerConfig where
  Typ : String
  Args : Option (List String)
  Disable : Bool
deriving DecidableEq, Repr

/-- The fields of `ScheduleConfig` that option.go reads.  Durations are in
nanoseconds; the four float64 fields are only copied by this code and are kept
as their bit patterns. -/
structure ScheduleConfig where
  MaxSnapshotCount : Nat
  MaxPendingPeerCount : Nat
  MaxMergeRegionSize : Nat
  MaxMergeRegionKeys : Nat
  SplitMergeInterval : Int
  EnableOneWayMerge : Bool
  PatrolRegionInterval : Int
  MaxStoreDownTime : Int
  LeaderScheduleLimit : Nat
  RegionScheduleLimit : Nat
  ReplicaScheduleLimit : Nat
  MergeScheduleLimit : Nat
  HotRegionScheduleLimit : Nat
  HotRegionCacheHitsThreshold : Nat
  StoreBalanceRate : Nat
  TolerantSizeRatio : Nat
  LowSpaceRatio : Nat
  HighSpaceRatio : Nat
  SchedulerMaxWaitingOperator : Nat
  DisableLearner : Bool
  DisableRemoveDownReplica : Bool
  DisableReplaceOfflineReplica : Bool
  DisableMakeUpReplica : Bool
  DisableRemoveExtraReplica : Bool
  DisableLocationReplacement : Bool
  DisableNamespaceRelocation : Bool
  Schedulers : List SchedulerConfig
deriving DecidableEq, Repr

/-- Replication settings `ReplicationConfig`. -/
structure ReplicationConfig where
  MaxReplicas : Nat
  LocationLabels : List String
  StrictlyMatchLabel : Bool
deriving DecidableEq, Repr

/-- Per-namespace overrides `NamespaceConfig`. -/
structure NamespaceConfig where
  LeaderScheduleLimit : Nat
  RegionScheduleLimit : Nat
  ReplicaScheduleLimit : Nat
  MergeScheduleLimit : Nat
  HotRegionScheduleLimit : Nat
  MaxReplicas : Nat
deriving DecidableEq, Repr

/-- A store label `{Key, Value}` (both `StoreLabel` of the config and
`metapb.StoreLabel`, which carry the same two fields). -/
structure StoreLabel where
  Key : String
  Value : String
deriving DecidableEq, Repr

/-- Value of `semver.Version`. -/
structure Version where
  Major : Int
  Minor : Int
  Patch : Int
  PreRelease : String
  Metadata : String
deriving DecidableEq, Repr

/-- Settings `PDServerConfig`; option.go holds the value and never looks inside. -/
structure PDServerConfig where
  raw : List (String × String)
deriving DecidableEq, Repr

/-- Label property table `LabelPropertyConfig = map[string][]StoreLabel`. -/
abbrev LabelPropertyConfig := GoMap (List StoreLabel)

/-- The aggregate `Config` that is saved and loaded. -/
structure Config where
  Schedule : ScheduleConfig
  Replication : ReplicationConfig
  Namespace : GoMap NamespaceConfig
  LabelProperty : LabelPropertyConfig
  ClusterVersion : Version
  PDServerCfg : PDServerConfig

/-- State of `scheduleOption`: the value held by each cell. -/
structure scheduleOption where
  v : ScheduleConfig
  rep : ReplicationConfig
  ns : GoMap NamespaceConfig
  labelProperty : LabelPropertyConfig
  clusterVersion : Version
  pdServerConfig : PDServerConfig

/-- What `RemoveSchedulerCfg` asks of the temporary scheduler: `GetName()` and
`GetType()`. -/
structure Scheduler where
  GetName : String
  GetType : String
deriving DecidableEq, Repr

/-- Signature of `schedule.CreateScheduler(type, controller, args...)`. -/
abbrev Factory := String → Option (List String) → Except Error Scheduler

/-! ## Go maps -/

/-- Index expression `m[k]` on a map of slices: the nil slice for an absent key. -/
def GoMap.index {V : Type} (m : GoMap (List V)) (k : String) : List V :=
  (m k).getD []

/-- Assignment `m[k] = x`. -/
def GoMap.set {V : Type} (m : GoMap V) (k : String) (x : V) : GoMap V :=
  fun j => if j = k then some x else m j

/-- Builtin `delete(m, k)`. -/
def GoMap.delete {V : Type} (m : GoMap V) (k : String) : GoMap V :=
  fun j => if j = k then none else m j

/-- Storing every entry of `src` into `dst`, as the loop
`for name, c := range src { dst.Store(name, c) }` does. -/
def GoMap.storeAll {V : Type} (dst src : GoMap V) : GoMap V :=
  fun j => match src j with
    | some c => some c
    | none => dst j

/-! ## Cells -/

/-- Modelled from the spec: `ScheduleConfig.clone` (config.go) is not under src;
a mutation works on a deep copy of the snapshot, which is equal to it by value. -/
def ScheduleConfig.clone (c : ScheduleConfig) : ScheduleConfig := c

/-- Modelled from the spec: `LabelPropertyConfig.clone` (config.go) is not under
src; a deep copy, equal to the original by value. -/
def LabelPropertyConfig.clone (c : LabelPropertyConfig) : LabelPropertyConfig := c

/-- Field assignment `cfg.Schedulers = l` on a schedule config. -/
def ScheduleConfig.setSchedulers (c : ScheduleConfig) (l : List SchedulerConfig) :
    ScheduleConfig :=
  { c with Schedulers := l }

/-- Method `load`. -/
def scheduleOption.load (o : scheduleOption) : ScheduleConfig := o.v

/-- Method `store`. -/
def scheduleOption.store (o : scheduleOption) (cfg : ScheduleConfig) : scheduleOption :=
  { o with v := cfg }

/-- Method `GetSchedulers`. -/
def scheduleOption.GetSchedulers (o : scheduleOption) : List SchedulerConfig :=
  o.load.Schedulers

/-- Method `loadNSConfig`: the namespace cells collected into a map. -/
def scheduleOption.loadNSConfig (o : scheduleOption) : GoMap NamespaceConfig := o.ns

/-- Method `loadLabelPropertyConfig`. -/
def scheduleOption.loadLabelPropertyConfig (o : scheduleOption) : LabelPropertyConfig :=
  o.labelProperty

/-! ## AddSchedulerCfg -/

/-- The loop of `AddSchedulerCfg` over the clone `vs`, standing at index `i` with
the entries `rest` still to visit.  `none`: the loop ran to its end.
`some none`: returned on an enabled match, nothing published.
`some (some l)`: a disabled match was re-enabled in place, `l` is published. -/
def AddSchedulerCfg.scan (tp : String) (args : Option (List String))
    (vs : List SchedulerConfig) : Nat → List SchedulerConfig →
    Option (Option (List SchedulerConfig))
  | _, [] => none
  | i, schedulerCfg :: rest =>
    if schedulerCfg = { Typ := tp, Args := args, Disable := false } then
      some none
    else if schedulerCfg = { Typ := tp, Args := args, Disable := true } then
      some (some (vs.set i { schedulerCfg with Disable := false }))
    else
      AddSchedulerCfg.scan tp args vs (i + 1) rest

/-- Method `AddSchedulerCfg(tp, args)`. -/
def scheduleOption.AddSchedulerCfg (o : scheduleOption) (tp : String)
    (args : Option (List String)) : scheduleOption :=
  let c := o.load
  let v := c.clone
  match AddSchedulerCfg.scan tp args v.Schedulers 0 v.Schedulers with
  | some none => o
  | some (some l) => o.store (v.setSchedulers l)
  | none =>
    o.store (v.setSchedulers
      (v.Schedulers ++ [{ Typ := tp, Args := args, Disable := false }]))

/-! ## RemoveSchedulerCfg -/

/-- The loop of `RemoveSchedulerCfg` over the clone `vs`, standing at index `i`.
`error e`: the factory failed, nothing published.  `ok none`: no name matched,
nothing published.  `ok (some l)`: `l` is published. -/
def RemoveSchedulerCfg.scan (CreateScheduler : Factory) (IsDefaultScheduler : String → Bool)
    (name : String) (vs : List SchedulerConfig) : Nat → List SchedulerConfig →
    Except Error (Option (List SchedulerConfig))
  | _, [] => .ok none
  | i, schedulerCfg :: rest =>
    match CreateScheduler schedulerCfg.Typ schedulerCfg.Args with
    | .error err => .error err
    | .ok tmp =>
      if tmp.GetName = name then
        if IsDefaultScheduler tmp.GetType then
          .ok (some (vs.set i { schedulerCfg with Disable := true }))
        else
          .ok (some (vs.take i ++ vs.drop (i + 1)))
      else
        RemoveSchedulerCfg.scan CreateScheduler IsDefaultScheduler name vs (i + 1) rest

/-- Method `RemoveSchedulerCfg(name)`: the state afterwards and the returned
error (`none` for nil).  The factory and `IsDefaultScheduler` are not under src
and are parameters. -/
def scheduleOption.RemoveSchedulerCfg (CreateScheduler : Factory)
    (IsDefaultScheduler : String → Bool) (o : scheduleOption) (name : String) :
    scheduleOption × Option Error :=
  let c := o.load
  let v := c.clone
  match RemoveSchedulerCfg.scan CreateScheduler IsDefaultScheduler name
      v.Schedulers 0 v.Schedulers with
  | .error err => (o, some err)
  | .ok (some l) => (o.store (v.setSchedulers l), none)
  | .ok none => (o, none)

/-! ## Label properties -/

/-- The loop of `SetLabelProperty`: is `(labelKey, labelValue)` among the labels? -/
def SetLabelProperty.found (labelKey labelValue : String) : List StoreLabel → Bool
  | [] => false
  | l :: rest =>
    if l.Key = labelKey ∧ l.Value = labelValue then true
    else SetLabelProperty.found labelKey labelValue rest

/-- Method `SetLabelProperty(typ, labelKey, labelValue)`. -/
def scheduleOption.SetLabelProperty (o : scheduleOption) (typ labelKey labelValue : String) :
    scheduleOption :=
  let cfg := LabelPropertyConfig.clone o.loadLabelPropertyConfig
  if SetLabelProperty.found labelKey labelValue (GoMap.index cfg typ) then o
  else
    { o with labelProperty :=
        GoMap.set cfg typ (GoMap.index cfg typ ++ [{ Key := labelKey, Value := labelValue }]) }

/-- The loop of `DeleteLabelProperty`: `acc` is the value of `cfg[typ]` so far. -/
def DeleteLabelProperty.loop (labelKey labelValue : String) :
    List StoreLabel → List StoreLabel → List StoreLabel
  | acc, [] => acc
  | acc, l :: rest =>
    if l.Key = labelKey ∧ l.Value = labelValue then
      DeleteLabelProperty.loop labelKey labelValue acc rest
    else
      DeleteLabelProperty.loop labelKey labelValue (acc ++ [l]) rest

/-- Method `DeleteLabelProperty(typ, labelKey, labelValue)`. -/
def scheduleOption.DeleteLabelProperty (o : scheduleOption) (typ labelKey labelValue : String) :
    scheduleOption :=
  let cfg := LabelPropertyConfig.clone o.loadLabelPropertyConfig
  let oldLabels := GoMap.index cfg typ
  let cfg1 := GoMap.set cfg typ []
  let cfg2 := GoMap.set cfg1 typ
    (DeleteLabelProperty.loop labelKey labelValue (GoMap.index cfg1 typ) oldLabels)
  let cfg3 := if (GoMap.index cfg2 typ).length = 0 then GoMap.delete cfg2 typ else cfg2
  { o with labelProperty := cfg3 }

/-- Inner loop of `CheckLabelProperty`: does some label equal the pair `cfg`? -/
def CheckLabelProperty.inner (cfg : StoreLabel) : List StoreLabel → Bool
  | [] => false
  | l :: rest =>
    if l.Key = cfg.Key ∧ l.Value = cfg.Value then true
    else CheckLabelProperty.inner cfg rest

/-- Outer loop of `CheckLabelProperty` over the pairs configured under the type. -/
def CheckLabelProperty.outer (labels : List StoreLabel) : List StoreLabel → Bool
  | [] => false
  | cfg :: rest =>
    if CheckLabelProperty.inner cfg labels then true
    else CheckLabelProperty.outer labels rest

/-- Method `CheckLabelProperty(typ, labels)`. -/
def scheduleOption.CheckLabelProperty (o : scheduleOption) (typ : String)
    (labels : List StoreLabel) : Bool :=
  let pc := o.labelProperty
  CheckLabelProperty.outer labels (GoMap.index pc typ)

/-! ## Persistence reconciliation -/

/-- First phase of `adjustScheduleCfg`, inner loop: the entry `s` after the scan
of the persisted list, which copies the flag of the first entry with equal
`(Type, Args)` and breaks. -/
def adjustScheduleCfg.copyDisable (s : SchedulerConfig) : List SchedulerConfig → SchedulerConfig
  | [] => s
  | ps :: rest =>
    if s.Typ = ps.Typ ∧ s.Args = ps.Args then { s with Disable := ps.Disable }
    else adjustScheduleCfg.copyDisable s rest

/-- First phase of `adjustScheduleCfg`, outer loop over the in-memory list. -/
def adjustScheduleCfg.phase1 (persisted : List SchedulerConfig) :
    List SchedulerConfig → List SchedulerConfig
  | [] => []
  | s :: rest =>
    adjustScheduleCfg.copyDisable s persisted :: adjustScheduleCfg.phase1 persisted rest

/-- Second phase, inner loop: the value of `needRestore` for `ps` after the scan
of the in-memory list. -/
def adjustScheduleCfg.needRestore (ps : SchedulerConfig) : List SchedulerConfig → Bool
  | [] => true
  | s :: rest =>
    if s.Typ = ps.Typ ∧ s.Args = ps.Args then false
    else adjustScheduleCfg.needRestore ps rest

/-- Second phase, outer loop: `acc` is `restoredSchedulers` so far. -/
def adjustScheduleCfg.restore (schedulers : List SchedulerConfig) :
    List SchedulerConfig → List SchedulerConfig → List SchedulerConfig
  | acc, [] => acc
  | acc, ps :: rest =>
    if adjustScheduleCfg.needRestore ps schedulers then
      adjustScheduleCfg.restore schedulers (acc ++ [ps]) rest
    else
      adjustScheduleCfg.restore schedulers acc rest

/-- Method `adjustScheduleCfg(persistentCfg)`: the state afterwards and the
persisted config afterwards (the method writes the merged list into it). -/
def scheduleOption.adjustScheduleCfg (o : scheduleOption) (persistentCfg : Config) :
    scheduleOption × Config :=
  let scheduleCfg := o.load.clone
  let adjusted := adjustScheduleCfg.phase1 persistentCfg.Schedule.Schedulers scheduleCfg.Schedulers
  let restoredSchedulers :=
    adjustScheduleCfg.restore adjusted [] persistentCfg.Schedule.Schedulers
  let scheduleCfg1 := scheduleCfg.setSchedulers (adjusted ++ restoredSchedulers)
  let persistentCfg1 :=
    { persistentCfg with
        Schedule := persistentCfg.Schedule.setSchedulers scheduleCfg1.Schedulers }
  (o.store scheduleCfg1, persistentCfg1)

/-- Modelled from the spec: the kv store (`core.KV`) is not under src.  It holds
at most one saved config document; `saveErr` and `loadErr` are the errors its
next save and load fail with, if any. -/
structure KV where
  config : Option Config
  saveErr : Option Error
  loadErr : Option Error

/-- Modelled from the spec: `SaveConfig(cfg)` keeps the aggregate as the saved
document, or fails and keeps nothing new. -/
def KV.SaveConfig (kv : KV) (cfg : Config) : KV × Option Error :=
  match kv.saveErr with
  | some err => (kv, some err)
  | none => ({ kv with config := some cfg }, none)

/-- Modelled from the spec: `LoadConfig(cfg)` returns `(exists, error)` and
populates the passed aggregate with the saved document when one exists.  The
first component is the aggregate after the call. -/
def KV.LoadConfig (kv : KV) (cfg : Config) : Config × Bool × Option Error :=
  match kv.loadErr with
  | some err => (cfg, false, some err)
  | none =>
    match kv.config with
    | some saved => (saved, true, none)
    | none => (cfg, false, none)

/-- Method `persist(kv)`: the store afterwards and the returned error. -/
def scheduleOption.persist (o : scheduleOption) (kv : KV) : KV × Option Error :=
  let namespaces := o.loadNSConfig
  let cfg : Config :=
    { Schedule := o.load
      Replication := o.rep
      Namespace := namespaces
      LabelProperty := o.loadLabelPropertyConfig
      ClusterVersion := o.clusterVersion
      PDServerCfg := o.pdServerConfig }
  kv.SaveConfig cfg

/-- Method `reload(kv)`: the state afterwards and the returned error. -/
def scheduleOption.reload (o : scheduleOption) (kv : KV) : scheduleOption × Option Error :=
  let namespaces := o.loadNSConfig
  let cfg : Config :=
    { Schedule := o.load.clone
      Replication := o.rep
      Namespace := namespaces
      LabelProperty := LabelPropertyConfig.clone o.loadLabelPropertyConfig
      ClusterVersion := o.clusterVersion
      PDServerCfg := o.pdServerConfig }
  match kv.LoadConfig cfg with
  | (_, _, some err) => (o, some err)
  | (cfg1, isExist, none) =>
    let (o1, cfg2) := o.adjustScheduleCfg cfg1
    if isExist then
      ({ v := cfg2.Schedule
         rep := cfg2.Replication
         ns := GoMap.storeAll o1.ns cfg2.Namespace
         labelProperty := cfg2.LabelProperty
         clusterVersion := cfg2.ClusterVersion
         pdServerConfig := cfg2.PDServerCfg }, none)
    else
      (o1, none)

/-! ## Words of the specification -/

/-- Two scheduler entries have equal `(Type, Args)`. -/
def SchedulerConfig.sameKey (a b : SchedulerConfig) : Bool :=
  decide (a.Typ = b.Typ ∧ a.Args = b.Args)

/-- The merged list as the specification describes it: the in-memory entries in
their order, each with the flag of the first persisted entry of equal
`(Type, Args)` when there is one, then the persisted entries that no in-memory
entry matches, in persisted order. -/
def mergedSchedulers (M P : List SchedulerConfig) : List SchedulerConfig :=
  M.map (fun s =>
      match P.find? (fun ps => s.sameKey ps) with
      | some ps => { s with Disable := ps.Disable }
      | none => s)
    ++ P.filter (fun ps => !(M.any (fun s => s.sameKey ps)))

/-- The label is the pair `(k, v)`. -/
def StoreLabel.isPair (l : StoreLabel) (k v : String) : Bool :=
  decide (l.Key = k ∧ l.Value = v)

/-- No two entries of the list have equal `(Type, Args)`. -/
def NoDupKey (L : List SchedulerConfig) : Prop :=
  L.Pairwise (fun a b => ¬(a.Typ = b.Typ ∧ a.Args = b.Args))

/-- Entries of the list with equal `(Type, Args)` carry the same `Disable` flag. -/
def FlagsAgree (L : List SchedulerConfig) : Prop :=
  ∀ a ∈ L, ∀ b ∈ L, a.Typ = b.Typ → a.Args = b.Args → a.Disable = b.Disable

instance (L : List SchedulerConfig) : Decidable (NoDupKey L) := by
  unfold NoDupKey; infer_instance

instance (L : List SchedulerConfig) : Decidable (FlagsAgree L) := by
  unfold FlagsAgree; infer_instance

/-- A schedule config with the given scheduler list and all other fields zero;
used for concrete examples. -/
def ScheduleConfig.ofSchedulers (L : List SchedulerConfig) : ScheduleConfig :=
  { MaxSnapshotCount := 0, MaxPendingPeerCount := 0, MaxMergeRegionSize := 0,
    MaxMergeRegionKeys := 0, SplitMergeInterval := 0, EnableOneWayMerge := false,
    PatrolRegionInterval := 0, MaxStoreDownTime := 0, LeaderScheduleLimit := 0,
    RegionScheduleLimit := 0, ReplicaScheduleLimit := 0, MergeScheduleLimit := 0,
    HotRegionScheduleLimit := 0, HotRegionCacheHitsThreshold := 0, StoreBalanceRate := 0,
    TolerantSizeRatio := 0, LowSpaceRatio := 0, HighSpaceRatio := 0,
    SchedulerMaxWaitingOperator := 0, DisableLearner := false,
    DisableRemoveDownReplica := false, DisableReplaceOfflineReplica := false,
    DisableMakeUpReplica := false, DisableRemoveExtraReplica := false,
    DisableLocationReplacement := false, DisableNamespaceRelocation := false,
    Schedulers := L }

/-- A state with the given scheduler list, the given label properties, no
namespace and all other fields zero; used for concrete examples. -/
def scheduleOption.example (L : List SchedulerConfig) (lp : LabelPropertyConfig) :
    scheduleOption :=
  { v := ScheduleConfig.ofSchedulers L
    rep := { MaxReplicas := 0, LocationLabels := [], StrictlyMatchLabel := false }
    ns := fun _ => none
    labelProperty := lp
    clusterVersion := { Major := 0, Minor := 0, Patch := 0, PreRelease := "", Metadata := "" }
    pdServerConfig := { raw := [] } }

/-- A config aggregate with the given scheduler list, no namespace, no label
property and all other fields zero; used for concrete examples. -/
def Config.example (L : List SchedulerConfig) : Config :=
  { Schedule := ScheduleConfig.ofSchedulers L
    Replication := { MaxReplicas := 0, LocationLabels := [], StrictlyMatchLabel := false }
    Namespace := fun _ => none
    LabelProperty := fun _ => none
    ClusterVersion := { Major := 0, Minor := 0, Patch := 0, PreRelease := "", Metadata := "" }
    PDServerCfg := { raw := [] } }

/-- A kv store that holds no document and does not fail; used for concrete
examples. -/
def KV.empty : KV := { config := none, saveErr := none, loadErr := none }

/-- A sample factory for concrete examples: the instance name is the type, then
`-scheduler`, then one `-arg` per argument; the instance type is the configured
type; an empty type is rejected. -/
def sampleFactory : Factory := fun tp args =>
  if tp = "" then .error "scheduler not found"
  else .ok { GetName := (args.getD []).foldl (fun acc a => acc ++ "-" ++ a) (tp ++ "-scheduler")
             GetType := tp }

/-- A sample `IsDefaultScheduler` for concrete examples. -/
def sampleIsDefault (typ : String) : Bool :=
  decide (typ = "balance-leader") || decide (typ = "balance-region") ||
    decide (typ = "hot-region") || decide (typ = "label")

/-! ## Machine integers -/

/-- The value held by a 64-bit `int` after an operation whose exact result is
`x`: two's-complement wrap-around. -/
def Go.wrapInt (x : Int) : Int :=
  (x + 2 ^ 63) % 2 ^ 64 - 2 ^ 63

/-- Conversion `int(n)` of a `uint64` value `n`. -/
def Go.intOfUint64 (n : Nat) : Int :=
  Go.wrapInt (n : Int)

/-! ## Readers of the schedule option -/

/-- Method `getNS(name)`: the namespace cell and `ok`, as an option. -/
def scheduleOption.getNS (o : scheduleOption) (name : String) : Option NamespaceConfig :=
  o.ns name

/-- Method `GetMaxReplicas` of `Replication`. -/
def Replication.GetMaxReplicas (r : ReplicationConfig) : Int :=
  Go.intOfUint64 r.MaxReplicas

/-- Method `GetMaxReplicas` of `namespaceOption`. -/
def namespaceOption.GetMaxReplicas (n : NamespaceConfig) : Int :=
  Go.intOfUint64 n.MaxReplicas

/-- Method `GetLeaderScheduleLimit` of `namespaceOption`. -/
def namespaceOption.GetLeaderScheduleLimit (n : NamespaceConfig) : Nat :=
  n.LeaderScheduleLimit

/-- Method `GetRegionScheduleLimit` of `namespaceOption`. -/
def namespaceOption.GetRegionScheduleLimit (n : NamespaceConfig) : Nat :=
  n.RegionScheduleLimit

/-- Method `GetReplicaScheduleLimit` of `namespaceOption`. -/
def namespaceOption.GetReplicaScheduleLimit (n : NamespaceConfig) : Nat :=
  n.ReplicaScheduleLimit

/-- Method `GetMergeScheduleLimit` of `namespaceOption`. -/
def namespaceOption.GetMergeScheduleLimit (n : NamespaceConfig) : Nat :=
  n.MergeScheduleLimit

/-- Method `GetHotRegionScheduleLimit` of `namespaceOption`. -/
def namespaceOption.GetHotRegionScheduleLimit (n : NamespaceConfig) : Nat :=
  n.HotRegionScheduleLimit

/-- Method `GetMaxReplicas(name)`. -/
def scheduleOption.GetMaxReplicas (o : scheduleOption) (name : String) : Int :=
  match o.getNS name with
  | some n => namespaceOption.GetMaxReplicas n
  | none => Replication.GetMaxReplicas o.rep

/-- Method `GetLeaderScheduleLimit(name)`. -/
def scheduleOption.GetLeaderScheduleLimit (o : scheduleOption) (name : String) : Nat :=
  match o.getNS name with
  | some n => namespaceOption.GetLeaderScheduleLimit n
  | none => o.load.LeaderScheduleLimit

/-- Method `GetRegionScheduleLimit(name)`. -/
def scheduleOption.GetRegionScheduleLimit (o : scheduleOption) (name : String) : Nat :=
  match o.getNS name with
  | some n => namespaceOption.GetRegionScheduleLimit n
  | none => o.load.RegionScheduleLimit

/-- Method `GetReplicaScheduleLimit(name)`. -/
def scheduleOption.GetReplicaScheduleLimit (o : scheduleOption) (name : String) : Nat :=
  match o.getNS name with
  | some n => namespaceOption.GetReplicaScheduleLimit n
  | none => o.load.ReplicaScheduleLimit

/-- Method `GetMergeScheduleLimit(name)`. -/
def scheduleOption.GetMergeScheduleLimit (o : scheduleOption) (name : String) : Nat :=
  match o.getNS name with
  | some n => namespaceOption.GetMergeScheduleLimit n
  | none => o.load.MergeScheduleLimit

/-- Method `GetHotRegionScheduleLimit(name)`. -/
def scheduleOption.GetHotRegionScheduleLimit (o : scheduleOption) (name : String) : Nat :=
  match o.getNS name with
  | some n => namespaceOption.GetHotRegionScheduleLimit n
  | none => o.load.HotRegionScheduleLimit

/-- Method `IsRaftLearnerEnabled`. -/
def scheduleOption.IsRaftLearnerEnabled (o : scheduleOption) : Bool :=
  !o.load.DisableLearner

/-- Method `IsRemoveDownReplicaEnabled`. -/
def scheduleOption.IsRemoveDownReplicaEnabled (o : scheduleOption) : Bool :=
  !o.load.DisableRemoveDownReplica

/-- Method `IsReplaceOfflineReplicaEnabled`. -/
def scheduleOption.IsReplaceOfflineReplicaEnabled (o : scheduleOption) : Bool :=
  !o.load.DisableReplaceOfflineReplica

/-- Method `IsMakeUpReplicaEnabled`. -/
def scheduleOption.IsMakeUpReplicaEnabled (o : scheduleOption) : Bool :=
  !o.load.DisableMakeUpReplica

/-- Method `IsRemoveExtraReplicaEnabled`. -/
def scheduleOption.IsRemoveExtraReplicaEnabled (o : scheduleOption) : Bool :=
  !o.load.DisableRemoveExtraReplica

/-- Method `IsLocationReplacementEnabled`. -/
def scheduleOption.IsLocationReplacementEnabled (o : scheduleOption) : Bool :=
  !o.load.DisableLocationReplacement

/-- Method `IsNamespaceRelocationEnabled`. -/
def scheduleOption.IsNamespaceRelocationEnabled (o : scheduleOption) : Bool :=
  !o.load.DisableNamespaceRelocation

/-- A namespace config with the given `MaxReplicas` and every limit equal to
`limit`; used for concrete examples. -/
def NamespaceConfig.example (limit maxReplicas : Nat) : NamespaceConfig :=
  { LeaderScheduleLimit := limit, RegionScheduleLimit := limit, ReplicaScheduleLimit := limit,
    MergeScheduleLimit := limit, HotRegionScheduleLimit := limit, MaxReplicas := maxReplicas }

/-! ## Hot-spot cache (server/statistics/hot_cache.go)

A finite float64 value is modelled by the rational number it holds, and every
float64 operation by the exact operation followed by rounding to the nearest
float64, ties to even (IEEE 754 binary64, with its subnormal numbers).
Infinities and NaN are not modelled: the operations of this file do not produce
them from finite arguments.  The metric counters touched by `incMetrics` are
not part of the state. -/

/-- Rounding of a rational number to the nearest integer, ties to the even
one. -/
def F64.rne (q : ℚ) : Int :=
  let f := ⌊q⌋
  let r := q - (f : ℚ)
  if r < 1 / 2 then f
  else if 1 / 2 < r then f + 1
  else if f % 2 = 0 then f else f + 1

/-- The distance between neighbouring float64 values around `x`: 2^(e - 52)
where 2^e <= |x| < 2^(e + 1), and 2^(-1074) in the subnormal range. -/
def F64.ulp (x : ℚ) : ℚ :=
  (2 : ℚ) ^ (max (Int.log 2 |x|) (-1022) - 52)

/-- The float64 value nearest to the rational number `x`, ties to even. -/
def F64.round (x : ℚ) : ℚ :=
  (F64.rne (x / F64.ulp x) : ℚ) * F64.ulp x

/-- Division `x / y` of float64 values. -/
def F64.div (x y : ℚ) : ℚ :=
  F64.round (x / y)

/-- Addition `x + y` of float64 values. -/
def F64.add (x y : ℚ) : ℚ :=
  F64.round (x + y)

/-- Conversion `float64(n)` of a `uint64`. -/
def F64.ofUint64 (n : Nat) : ℚ :=
  F64.round (n : ℚ)

/-- Conversion `float64(n)` of an `int64`. -/
def F64.ofInt64 (n : Int) : ℚ :=
  F64.round (n : ℚ)

/-- Conversion `uint64(x)` of a float64 value: truncation toward zero.  Outside
the range of `uint64` the language leaves the result to the implementation; the
model follows the amd64 code of the compiler: below 2^63 the value is converted
as an `int64` (`CVTTSD2SQ`) and reinterpreted, so that a negative value -n
becomes 2^64 - n, and from 2^63 on the value less 2^63 is converted and the top
bit set; whatever does not fit gives 2^63. -/
def F64.toUint64 (x : ℚ) : Nat :=
  let t : Int := if 0 ≤ x then ⌊x⌋ else ⌈x⌉
  if x < 2 ^ 63 then
    if -(2 ^ 63) ≤ t then (t % 2 ^ 64).toNat else 2 ^ 63
  else
    if t < 2 ^ 64 then t.toNat else 2 ^ 63

/-- Method `Seconds()` of a `time.Duration` of `d` nanoseconds:
`float64(d / Second) + float64(d % Second) / 1e9`, the integer division
truncating toward zero. -/
def Duration.Seconds (d : Int) : ℚ :=
  let sec := Int.tdiv d 1000000000
  let nsec := Int.tmod d 1000000000
  F64.add (F64.ofInt64 sec) (F64.div (F64.ofInt64 nsec) 1000000000)

/-- Constant `RegionHeartBeatReportInterval`. -/
def RegionHeartBeatReportInterval : Nat := 60

/-- Constant `statCacheMaxLen`. -/
def statCacheMaxLen : Nat := 1000

/-- Constant `hotWriteRegionMinFlowRate`. -/
def hotWriteRegionMinFlowRate : Nat := 16 * 1024

/-- Constant `hotReadRegionMinFlowRate`. -/
def hotReadRegionMinFlowRate : Nat := 128 * 1024

/-- Constant `minHotRegionReportInterval`. -/
def minHotRegionReportInterval : Nat := 3

/-- Constant `hotRegionAntiCount`. -/
def hotRegionAntiCount : Int := 1

/-- Constant `rollingWindowsSize`. -/
def rollingWindowsSize : Nat := 5

/-- Type `FlowKind`. -/
inductive FlowKind where
  | WriteFlow
  | ReadFlow
deriving DecidableEq, Repr

/-- Modelled from the spec: `RollingStats` (the rolling window) is not under
src; a ring of `size` samples and the number of samples added so far. -/
structure RollingStats where
  records : List ℚ
  size : Nat
  count : Nat
deriving DecidableEq

/-- Modelled from the spec: `NewRollingStats(size)`, an empty window. -/
def NewRollingStats (size : Nat) : RollingStats :=
  { records := List.replicate size 0, size := size, count := 0 }

/-- Modelled from the spec: `Add(n)` on a non-nil window overwrites the oldest
sample. -/
def RollingStats.Add (r : RollingStats) (n : ℚ) : RollingStats :=
  { r with records := r.records.set (r.count % r.size) n, count := r.count + 1 }

/-- Modelled from the spec: the fields of `RegionStat` (its declaration is not
under src).  `Stats` is `none` for the nil pointer; `LastUpdateTime` is in
nanoseconds. -/
structure RegionStat where
  RegionID : Nat
  FlowBytes : Nat
  HotDegree : Int
  LastUpdateTime : Int
  StoreID : Nat
  AntiCount : Int
  Stats : Option RollingStats
deriving DecidableEq

/-- What the hot-spot cache reads of a `core.RegionInfo`. -/
structure RegionInfo where
  ID : Nat
  LeaderStoreID : Nat
  BytesWritten : Nat
  BytesRead : Nat
deriving DecidableEq, Repr

/-- What the hot-spot cache reads of a `StoresStats`: the two total rates. -/
structure StoresStats where
  TotalBytesWriteRate : ℚ
  TotalBytesReadRate : ℚ

/-- Modelled from the spec: `NewRegionStat(region, flowBytes, antiCount)` is not
under src; a record of the region and its leader store with the given flow and
anti-count, hot degree 0, no window, stamped with the current time `now`. -/
def NewRegionStat (region : RegionInfo) (flowBytes : Nat) (antiCount : Int) (now : Int) :
    RegionStat :=
  { RegionID := region.ID
    FlowBytes := flowBytes
    HotDegree := 0
    LastUpdateTime := now
    StoreID := region.LeaderStoreID
    AntiCount := antiCount
    Stats := none }

/-- Modelled from the spec: the cache (`cache.Cache`, a 2Q cache) is not under
src.  It is the list of its elements, most recently put first, with distinct
keys. -/
structure Cache where
  elems : List (Nat × RegionStat)

/-- Modelled from the spec: `cache.NewCache(size, kind)`, an empty cache. -/
def NewCache : Cache := { elems := [] }

/-- Modelled from the spec: `Peek(key)`, the value and `ok` as an option. -/
def Cache.Peek (c : Cache) (key : Nat) : Option RegionStat :=
  (c.elems.find? (fun e => decide (e.1 = key))).map (fun e => e.2)

/-- Modelled from the spec: `Put(key, value)` inserts or replaces the entry of
the key and keeps at most `statCacheMaxLen` entries. -/
def Cache.Put (c : Cache) (key : Nat) (value : RegionStat) : Cache :=
  { elems := ((key, value) :: c.elems.filter (fun e => !decide (e.1 = key))).take
      statCacheMaxLen }

/-- Modelled from the spec: `Remove(key)`. -/
def Cache.Remove (c : Cache) (key : Nat) : Cache :=
  { elems := c.elems.filter (fun e => !decide (e.1 = key)) }

/-- Type `HotSpotCache`. -/
structure HotSpotCache where
  writeFlow : Cache
  readFlow : Cache

/-- Function `NewHotSpotCache`. -/
def NewHotSpotCache : HotSpotCache :=
  { writeFlow := NewCache, readFlow := NewCache }

/-- The cache of the given kind. -/
def HotSpotCache.flow (w : HotSpotCache) : FlowKind → Cache
  | .WriteFlow => w.writeFlow
  | .ReadFlow => w.readFlow

/-- Function `calculateWriteHotThreshold`.  The divisor is a constant
expression, exactly 2000. -/
def calculateWriteHotThreshold (stats : StoresStats) : Nat :=
  let divisor : ℚ := (statCacheMaxLen : ℚ) * 2
  let hotRegionThreshold := F64.toUint64 (F64.div stats.TotalBytesWriteRate divisor)
  if hotRegionThreshold < hotWriteRegionMinFlowRate then hotWriteRegionMinFlowRate
  else hotRegionThreshold

/-- Function `calculateReadHotThreshold`.  The divisor is the constant 1000. -/
def calculateReadHotThreshold (stats : StoresStats) : Nat :=
  let divisor : ℚ := (statCacheMaxLen : ℚ)
  let hotRegionThreshold := F64.toUint64 (F64.div stats.TotalBytesReadRate divisor)
  if hotRegionThreshold < hotReadRegionMinFlowRate then hotReadRegionMinFlowRate
  else hotRegionThreshold

/-- Method `isNeedUpdateStatCache`.  The result is `none` when the call
dereferences a nil window in `Stats.Add`, and `some (shouldUpdate, item)` when
it returns.  `now` is the time read by `NewRegionStat`; the sample added to the
window is `float64(flowBytes)`. -/
def isNeedUpdateStatCache (region : RegionInfo) (flowBytes hotRegionThreshold : Nat)
    (oldItem : Option RegionStat) (_kind : FlowKind) (now : Int) :
    Option (Bool × Option RegionStat) :=
  let newItem0 := NewRegionStat region flowBytes hotRegionAntiCount now
  let newItem1 :=
    match oldItem with
    | some old =>
      { newItem0 with HotDegree := Go.wrapInt (old.HotDegree + 1), Stats := old.Stats }
    | none => newItem0
  if flowBytes ≥ hotRegionThreshold then
    let newItem2 :=
      match oldItem with
      | none => { newItem1 with Stats := some (NewRollingStats rollingWindowsSize) }
      | some _ => newItem1
    match newItem2.Stats with
    | none => none
    | some st => some (true, some { newItem2 with Stats := some (st.Add (F64.ofUint64 flowBytes)) })
  else
    match oldItem with
    | none => some (false, some newItem1)
    | some old =>
      if old.AntiCount ≤ 0 then some (true, none)
      else
        let newItem2 :=
          { newItem1 with
              HotDegree := Go.wrapInt (old.HotDegree - 1)
              AntiCount := Go.wrapInt (old.AntiCount - 1) }
        match newItem2.Stats with
        | none => none
        | some st => some (true, some { newItem2 with Stats := some (st.Add (F64.ofUint64 flowBytes)) })

/-- Method `CheckWrite`.  `Simulating` is the package variable, `now` the time
read by `time.Since` and `now1` the time read when the new item is built.  The
conversions `float64(RegionHeartBeatReportInterval)` and of
`minHotRegionReportInterval` are constants, exactly 60 and 3. -/
def HotSpotCache.CheckWrite (w : HotSpotCache) (Simulating : Bool) (now now1 : Int)
    (region : RegionInfo) (stats : StoresStats) : Option (Bool × Option RegionStat) :=
  let WrittenBytesPerSec :=
    F64.toUint64 (F64.div (F64.ofUint64 region.BytesWritten) (RegionHeartBeatReportInterval : ℚ))
  match w.writeFlow.Peek region.ID with
  | some value =>
    if !Simulating then
      let interval := Duration.Seconds (now - value.LastUpdateTime)
      if interval < (minHotRegionReportInterval : ℚ) then some (false, none)
      else
        let WrittenBytesPerSec1 :=
          F64.toUint64 (F64.div (F64.ofUint64 region.BytesWritten) interval)
        isNeedUpdateStatCache region WrittenBytesPerSec1 (calculateWriteHotThreshold stats)
          (some value) .WriteFlow now1
    else
      isNeedUpdateStatCache region WrittenBytesPerSec (calculateWriteHotThreshold stats)
        (some value) .WriteFlow now1
  | none =>
    isNeedUpdateStatCache region WrittenBytesPerSec (calculateWriteHotThreshold stats)
      none .WriteFlow now1

/-- Method `CheckRead`, with the same parameters as `CheckWrite`. -/
def HotSpotCache.CheckRead (w : HotSpotCache) (Simulating : Bool) (now now1 : Int)
    (region : RegionInfo) (stats : StoresStats) : Option (Bool × Option RegionStat) :=
  let ReadBytesPerSec :=
    F64.toUint64 (F64.div (F64.ofUint64 region.BytesRead) (RegionHeartBeatReportInterval : ℚ))
  match w.readFlow.Peek region.ID with
  | some value =>
    if !Simulating then
      let interval := Duration.Seconds (now - value.LastUpdateTime)
      if interval < (minHotRegionReportInterval : ℚ) then some (false, none)
      else
        let ReadBytesPerSec1 := F64.toUint64 (F64.div (F64.ofUint64 region.BytesRead) interval)
        isNeedUpdateStatCache region ReadBytesPerSec1 (calculateReadHotThreshold stats)
          (some value) .ReadFlow now1
    else
      isNeedUpdateStatCache region ReadBytesPerSec (calculateReadHotThreshold stats)
        (some value) .ReadFlow now1
  | none =>
    isNeedUpdateStatCache region ReadBytesPerSec (calculateReadHotThreshold stats)
      none .ReadFlow now1

/-- Method `Update(key, item, kind)`. -/
def HotSpotCache.Update (w : HotSpotCache) (key : Nat) (item : Option RegionStat)
    (kind : FlowKind) : HotSpotCache :=
  match kind with
  | .WriteFlow =>
    match item with
    | none => { w with writeFlow := w.writeFlow.Remove key }
    | some it => { w with writeFlow := w.writeFlow.Put key it }
  | .ReadFlow =>
    match item with
    | none => { w with readFlow := w.readFlow.Remove key }
    | some it => { w with readFlow := w.readFlow.Put key it }

/-- One unsuppressed observation of a region: what the check returns once the
flow rate and the threshold are computed. -/
structure Observation where
  kind : FlowKind
  region : RegionInfo
  flowBytes : Nat
  hotRegionThreshold : Nat
  now : Int

/-- Modelled from the spec: the caller of the checks (the cluster, not under
src) passes the result of a check to `Update` when `shouldUpdate` is true.
The result is `none` when the check dereferences a nil window. -/
def HotSpotCache.observe (w : HotSpotCache) (ob : Observation) :
    Option ((Bool × Option RegionStat) × HotSpotCache) :=
  match isNeedUpdateStatCache ob.region ob.flowBytes ob.hotRegionThreshold
      ((w.flow ob.kind).Peek ob.region.ID) ob.kind ob.now with
  | none => none
  | some (true, item) => some ((true, item), w.Update ob.region.ID item ob.kind)
  | some (false, item) => some ((false, item), w)

/-- The cache after a sequence of observations, each result fed to `Update`. -/
def HotSpotCache.run (w : HotSpotCache) : List Observation → Option HotSpotCache
  | [] => some w
  | ob :: rest =>
    match w.observe ob with
    | none => none
    | some (_, w1) => HotSpotCache.run w1 rest

/-- The results of a sequence of observations, in order, and the cache after
them; `none` when one of the checks dereferences a nil window. -/
def HotSpotCache.trace (w : HotSpotCache) :
    List Observation → Option (List (Bool × Option RegionStat) × HotSpotCache)
  | [] => some ([], w)
  | ob :: rest =>
    match w.observe ob with
    | none => none
    | some (r, w1) =>
      match HotSpotCache.trace w1 rest with
      | none => none
      | some (rs, w2) => some (r :: rs, w2)

/-- What holds of a cached record after at most `n` observations from the empty
cache: it has a window, its hot degree is at most `n`, and either its anti-count
is 1 and its hot degree is not negative, or its anti-count is 0 and its hot
degree is at least -1. -/
def RegionStat.Settled (n : Int) (s : RegionStat) : Prop :=
  s.Stats ≠ none ∧ s.HotDegree ≤ n ∧
    ((s.AntiCount = 1 ∧ 0 ≤ s.HotDegree) ∨ (s.AntiCount = 0 ∧ -1 ≤ s.HotDegree))

/-- Every record of both caches is settled. -/
def HotSpotCache.Settled (n : Int) (w : HotSpotCache) : Prop :=
  ∀ kind, ∀ e ∈ (w.flow kind).elems, RegionStat.Settled n e.2

/-- A region with the given id and leader store that reports no traffic; used
for concrete examples. -/
def RegionInfo.quiet (id storeID : Nat) : RegionInfo :=
  { ID := id, LeaderStoreID := storeID, BytesWritten := 0, BytesRead := 0 }

/-- A record of region `id` on store 7 with the given hot degree, anti-count and
window; used for concrete examples. -/
def RegionStat.sample (id : Nat) (hotDegree antiCount : Int) (stats : Option RollingStats) :
    RegionStat :=
  { RegionID := id, FlowBytes := 0, HotDegree := hotDegree, LastUpdateTime := 0, StoreID := 7,
    AntiCount := antiCount, Stats := stats }

/-- A hot-spot cache whose write cache holds the one record `s` under its region
id and whose read cache is empty; used for concrete examples. -/
def HotSpotCache.ofWrite (s : RegionStat) : HotSpotCache :=
  { writeFlow := { elems := [(s.RegionID, s)] }, readFlow := NewCache }

/-- An observation of the quiet region `id` of store 7 on the write flow with
threshold 50; used for concrete examples. -/
def Observation.sample (id flowBytes : Nat) (now : Int) : Observation :=
  { kind := .WriteFlow, region := RegionInfo.quiet id 7, flowBytes := flowBytes,
    hotRegionThreshold := 50, now := now }

/-- Modelled from the spec: `Elems()`, the elements of the cache. -/
def Cache.Elems (c : Cache) : List (Nat × RegionStat) :=
  c.elems

/-- Method `RegionStats(kind)`. -/
def HotSpotCache.RegionStats (w : HotSpotCache) (kind : FlowKind) : List RegionStat :=
  let elements :=
    match kind with
    | .WriteFlow => w.writeFlow.Elems
    | .ReadFlow => w.readFlow.Elems
  elements.map (fun e => e.2)

/-- The loop of `RandHotRegionFromStore` over the indices still to visit. -/
def RandHotRegionFromStore.scan (stats : List RegionStat) (storeID : Nat) (hotThreshold : Int) :
    List (Fin stats.length) → Option RegionStat
  | [] => none
  | i :: rest =>
    if (stats.get i).HotDegree ≥ hotThreshold ∧ (stats.get i).StoreID = storeID then
      some (stats.get i)
    else
      RandHotRegionFromStore.scan stats storeID hotThreshold rest

/-- Method `RandHotRegionFromStore(storeID, kind, hotThreshold)`.  The list
`perm` is the value of `rand.Perm(len(stats))`, a list of indices into the
snapshot; the result is `none` for nil. -/
def HotSpotCache.RandHotRegionFromStore (w : HotSpotCache) (storeID : Nat) (kind : FlowKind)
    (hotThreshold : Int) (perm : List (Fin (w.RegionStats kind).length)) : Option RegionStat :=
  let stats := w.RegionStats kind
  RandHotRegionFromStore.scan stats storeID hotThreshold perm

/-- Method `IsRegionHot(id, hotThreshold)`. -/
def HotSpotCache.IsRegionHot (w : HotSpotCache) (id : Nat) (hotThreshold : Int) : Bool :=
  let readPart : Bool :=
    match w.readFlow.Peek id with
    | some stat => decide (stat.HotDegree ≥ hotThreshold)
    | none => false
  match w.writeFlow.Peek id with
  | some stat => if stat.HotDegree ≥ hotThreshold then true else readPart
  | none => readPart

/-- A hot-spot cache whose write cache holds the one record `sw` and whose read
cache holds the one record `sr`, each under its region id; used for concrete
examples. -/
def HotSpotCache.ofBoth (sw sr : RegionStat) : HotSpotCache :=
  { writeFlow := { elems := [(sw.RegionID, sw)] }, readFlow := { elems := [(sr.RegionID, sr)] } }

/-- A hot-spot cache whose write cache holds the two records `s1`, `s2` in this
order and whose read cache is empty; used for concrete examples. -/
def HotSpotCache.ofWritePair (s1 s2 : RegionStat) : HotSpotCache :=
  { writeFlow := { elems := [(s1.RegionID, s1), (s2.RegionID, s2)] }, readFlow := NewCache }

/-- The pair `(Type, Args)` of a scheduler entry. -/
def SchedulerConfig.key (s : SchedulerConfig) : String × Option (List String) :=
  (s.Typ, s.Args)

/-- Every record of both caches has a window (non-nil `Stats`). -/
def HotSpotCache.Windowed (w : HotSpotCache) : Prop :=
  ∀ kind, ∀ e ∈ (w.flow kind).elems, e.2.Stats ≠ none

/-- What holds of every record of a cache filled from check results, whatever
the number of observations: it has a window and its anti-count is 0 or 1. -/
def RegionStat.WellFormed (s : RegionStat) : Prop :=
  s.Stats ≠ none ∧ (s.AntiCount = 0 ∨ s.AntiCount = 1)

/-- Every record of both caches is well formed. -/
def HotSpotCache.WellFormed (w : HotSpotCache) : Prop :=
  ∀ kind, ∀ e ∈ (w.flow kind).elems, RegionStat.WellFormed e.2

/-- The record that the first hot observation of the quiet region `id` of
store 7 puts into an empty cache; used for concrete examples. -/
def RegionStat.firstHot (id flowBytes : Nat) (now : Int) : RegionStat :=
  { RegionID := id, FlowBytes := flowBytes, HotDegree := 0, LastUpdateTime := now, StoreID := 7,
    AntiCount := 1,
    Stats := some ((NewRollingStats rollingWindowsSize).Add (F64.ofUint64 flowBytes)) }

end Server

namespace Server

/-! ## General lemmas -/

@[simp] theorem ScheduleConfig.setSchedulers_Schedulers (c : ScheduleConfig)
    (l : List SchedulerConfig) : (c.setSchedulers l).Schedulers = l := rfl

theorem ScheduleConfig.setSchedulers_self (c : ScheduleConfig) :
    c.setSchedulers c.Schedulers = c := rfl

@[simp] theorem scheduleOption.store_GetSchedulers (o : scheduleOption) (c : ScheduleConfig) :
    (o.store c).GetSchedulers = c.Schedulers := rfl

theorem scheduleOption.store_v (o : scheduleOption) : o.store o.v = o := rfl

theorem SchedulerConfig.eq_mk_iff (s : SchedulerConfig) (tp : String)
    (args : Option (List String)) (d : Bool) :
    s = { Typ := tp, Args := args, Disable := d } ↔
      s.Typ = tp ∧ s.Args = args ∧ s.Disable = d := by
  cases s; simp

/-- A list either has no element satisfying `p`, or splits at the first one. -/
theorem first_split {α : Type} (p : α → Prop) [DecidablePred p] (L : List α) :
    (∀ x ∈ L, ¬ p x) ∨
      ∃ a s b, L = a ++ s :: b ∧ (∀ x ∈ a, ¬ p x) ∧ p s := by
  induction L with
  | nil => left; simp
  | cons x xs ih =>
    by_cases hx : p x
    · right; exact ⟨[], x, xs, rfl, by simp, hx⟩
    · rcases ih with h | ⟨a, s, b, hL, ha, hs⟩
      · left
        intro y hy
        rcases List.mem_cons.1 hy with rfl | hy
        · exact hx
        · exact h y hy
      · right
        refine ⟨x :: a, s, b, by simp [hL], ?_, hs⟩
        intro y hy
        rcases List.mem_cons.1 hy with rfl | hy
        · exact hx
        · exact ha y hy

theorem set_length_append {α : Type} (pre : List α) (s x : α) (post : List α) :
    (pre ++ s :: post).set pre.length x = pre ++ x :: post := by
  induction pre with
  | nil => rfl
  | cons y ys ih => simp [List.set, ih]

theorem take_drop_length_append {α : Type} (pre : List α) (s : α) (post : List α) :
    (pre ++ s :: post).take pre.length ++ (pre ++ s :: post).drop (pre.length + 1)
      = pre ++ post := by
  induction pre with
  | nil => simp
  | cons y ys ih => simp

/-! ## AddSchedulerCfg -/

theorem AddSchedulerCfg.scan_none (tp : String) (args : Option (List String))
    (vs : List SchedulerConfig) :
    ∀ (rest : List SchedulerConfig) (i : Nat),
      (∀ s ∈ rest, ¬(s.Typ = tp ∧ s.Args = args)) →
      AddSchedulerCfg.scan tp args vs i rest = none := by
  intro rest
  induction rest with
  | nil => intro i _; rfl
  | cons x xs ih =>
    intro i h
    have hx := h x (List.mem_cons_self _ _)
    have h1 : ¬ x = { Typ := tp, Args := args, Disable := false } := by
      rw [SchedulerConfig.eq_mk_iff]; tauto
    have h2 : ¬ x = { Typ := tp, Args := args, Disable := true } := by
      rw [SchedulerConfig.eq_mk_iff]; tauto
    simp only [AddSchedulerCfg.scan, h1, h2, if_false]
    exact ih (i + 1) (fun s hs => h s (List.mem_cons_of_mem _ hs))

theorem AddSchedulerCfg.scan_first (tp : String) (args : Option (List String)) :
    ∀ (a pre : List SchedulerConfig) (s : SchedulerConfig) (b : List SchedulerConfig),
      (∀ x ∈ a, ¬(x.Typ = tp ∧ x.Args = args)) → s.Typ = tp → s.Args = args →
      AddSchedulerCfg.scan tp args (pre ++ (a ++ s :: b)) pre.length (a ++ s :: b) =
        if s.Disable then
          some (some (pre ++ (a ++ { Typ := tp, Args := args, Disable := false } :: b)))
        else some none := by
  intro a
  induction a with
  | nil =>
    intro pre s b _ ht ha
    obtain ⟨t0, a0, d0⟩ := s
    simp only at ht ha
    subst ht; subst ha
    cases d0
    · simp [AddSchedulerCfg.scan]
    · simp [AddSchedulerCfg.scan, set_length_append]
  | cons x xs ih =>
    intro pre s b h ht ha
    have hx := h x (List.mem_cons_self _ _)
    have h1 : ¬ x = { Typ := tp, Args := args, Disable := false } := by
      rw [SchedulerConfig.eq_mk_iff]; tauto
    have h2 : ¬ x = { Typ := tp, Args := args, Disable := true } := by
      rw [SchedulerConfig.eq_mk_iff]; tauto
    have := ih (pre ++ [x]) s b (fun y hy => h y (List.mem_cons_of_mem _ hy)) ht ha
    simp only [List.append_assoc, List.singleton_append, List.length_append,
      List.length_singleton] at this
    simp only [List.cons_append, AddSchedulerCfg.scan, h1, h2, if_false]
    exact this

/-- An enabled entry equal to `(tp, args)` with no disabled equal entry before it
stops the loop without publishing. -/
theorem AddSchedulerCfg.scan_enabled (tp : String) (args : Option (List String))
    (vs : List SchedulerConfig) :
    ∀ (pre : List SchedulerConfig) (i : Nat) (post : List SchedulerConfig),
      ({ Typ := tp, Args := args, Disable := true } : SchedulerConfig) ∉ pre →
      AddSchedulerCfg.scan tp args vs i
        (pre ++ { Typ := tp, Args := args, Disable := false } :: post) = some none := by
  intro pre
  induction pre with
  | nil => intro i post _; simp [AddSchedulerCfg.scan]
  | cons x xs ih =>
    intro i post h
    have h2 : ¬ x = { Typ := tp, Args := args, Disable := true } := by
      intro hx; exact h (hx ▸ List.mem_cons_self _ _)
    by_cases h1 : x = { Typ := tp, Args := args, Disable := false }
    · simp [AddSchedulerCfg.scan, h1]
    · simp only [List.cons_append, AddSchedulerCfg.scan, h1, h2, if_false]
      exact ih (i + 1) post (fun hm => h (List.mem_cons_of_mem _ hm))

/-- What `AddSchedulerCfg` publishes: the new entry appended when no entry has
`(tp, args)`, else the first such entry replaced by the enabled entry. -/
theorem AddSchedulerCfg_cases (o : scheduleOption) (tp : String) (args : Option (List String)) :
    ((∀ s ∈ o.GetSchedulers, ¬(s.Typ = tp ∧ s.Args = args)) ∧
      o.AddSchedulerCfg tp args = o.store (o.v.setSchedulers
        (o.GetSchedulers ++ [{ Typ := tp, Args := args, Disable := false }]))) ∨
    (∃ a s b, o.GetSchedulers = a ++ s :: b ∧ (∀ x ∈ a, ¬(x.Typ = tp ∧ x.Args = args)) ∧
      s.Typ = tp ∧ s.Args = args ∧
      o.AddSchedulerCfg tp args = o.store (o.v.setSchedulers
        (a ++ { Typ := tp, Args := args, Disable := false } :: b))) := by
  rcases first_split (fun s : SchedulerConfig => s.Typ = tp ∧ s.Args = args) o.GetSchedulers
    with h | ⟨a, s, b, hL, ha, hs⟩
  · left
    refine ⟨h, ?_⟩
    have := AddSchedulerCfg.scan_none tp args o.v.Schedulers o.v.Schedulers 0 h
    simp only [scheduleOption.AddSchedulerCfg, scheduleOption.load, ScheduleConfig.clone, this]
    rfl
  · right
    refine ⟨a, s, b, hL, ha, hs.1, hs.2, ?_⟩
    have hL2 : o.v.Schedulers = a ++ s :: b := hL
    have := AddSchedulerCfg.scan_first tp args a [] s b ha hs.1 hs.2
    simp only [List.nil_append, List.length_nil] at this
    simp only [scheduleOption.AddSchedulerCfg, scheduleOption.load, ScheduleConfig.clone,
      hL2, this]
    obtain ⟨t0, a0, d0⟩ := s
    obtain ⟨ht, hargs⟩ := hs
    simp only at ht hargs
    subst ht; subst hargs
    cases d0
    · simp only [Bool.false_eq_true, if_false]
      rw [← hL2, ScheduleConfig.setSchedulers_self, scheduleOption.store_v]
    · simp

/-- C1, corrected.  The claim as stated fails: with two enabled entries of type
balance-leader already in the list, `AddSchedulerCfg` returns on the first one
and the published list still holds two entries with that `(Type, Args)`. -/
theorem AddSchedulerCfg_exactly_one_counterexample :
    ((scheduleOption.example
        [{ Typ := "balance-leader", Args := none, Disable := false },
         { Typ := "balance-leader", Args := none, Disable := false }]
        (fun _ => none)).AddSchedulerCfg "balance-leader" none).GetSchedulers.filter
      (fun s => decide (s.Typ = "balance-leader" ∧ s.Args = none))
      = [{ Typ := "balance-leader", Args := none, Disable := false },
         { Typ := "balance-leader", Args := none, Disable := false }] ∧
    ((scheduleOption.example
        [{ Typ := "balance-leader", Args := none, Disable := false },
         { Typ := "balance-leader", Args := none, Disable := false }]
        (fun _ => none)).AddSchedulerCfg "balance-leader" none).GetSchedulers.filter
      (fun s => decide (s.Typ = "balance-leader" ∧ s.Args = none))
      ≠ [{ Typ := "balance-leader", Args := none, Disable := false }] := by
  decide

/-- C1, as amended: for every published schedule config in which at most one
entry has `(Type, Args) = (t, a)`, after `AddSchedulerCfg(t, a)` the published
list contains exactly one entry whose Type is `t` and whose Args equal `a`, and
that entry has `Disable = false`. -/
theorem AddSchedulerCfg_exactly_one (o : scheduleOption) (tp : String)
    (args : Option (List String))
    (h : (o.GetSchedulers.filter
      (fun s => decide (s.Typ = tp ∧ s.Args = args))).length ≤ 1) :
    (o.AddSchedulerCfg tp args).GetSchedulers.filter
      (fun s => decide (s.Typ = tp ∧ s.Args = args))
      = [{ Typ := tp, Args := args, Disable := false }] := by
  have hnone : ∀ l : List SchedulerConfig, (∀ x ∈ l, ¬(x.Typ = tp ∧ x.Args = args)) →
      l.filter (fun s => decide (s.Typ = tp ∧ s.Args = args)) = [] := by
    intro l hl
    rw [List.filter_eq_nil_iff]
    intro x hx
    simpa using hl x hx
  rcases AddSchedulerCfg_cases o tp args with ⟨hno, heq⟩ | ⟨a, s, b, hL, ha, ht, hargs, heq⟩
  · rw [heq]
    simp only [scheduleOption.store_GetSchedulers, ScheduleConfig.setSchedulers_Schedulers,
      List.filter_append]
    rw [hnone _ hno]
    simp
  · rw [heq]
    rw [hL, List.filter_append, hnone a ha] at h
    simp only [List.nil_append] at h
    rw [List.filter_cons_of_pos (by simp [ht, hargs])] at h
    have hb : b.filter (fun s => decide (s.Typ = tp ∧ s.Args = args)) = [] := by
      apply List.eq_nil_of_length_eq_zero
      simp only [List.length_cons] at h
      omega
    simp only [scheduleOption.store_GetSchedulers, ScheduleConfig.setSchedulers_Schedulers,
      List.filter_append]
    rw [hnone a ha, List.filter_cons_of_pos (by simp), hb]
    rfl

/-- Witness of C1 as amended: adding balance-leader to a list that holds it once,
disabled, after another scheduler. -/
theorem AddSchedulerCfg_exactly_one_witness :
    ((scheduleOption.example
        [{ Typ := "label", Args := none, Disable := false },
         { Typ := "balance-leader", Args := none, Disable := true }]
        (fun _ => none)).GetSchedulers.filter
      (fun s => decide (s.Typ = "balance-leader" ∧ s.Args = none))).length ≤ 1 ∧
    ((scheduleOption.example
        [{ Typ := "label", Args := none, Disable := false },
         { Typ := "balance-leader", Args := none, Disable := true }]
        (fun _ => none)).AddSchedulerCfg "balance-leader" none).GetSchedulers.filter
      (fun s => decide (s.Typ = "balance-leader" ∧ s.Args = none))
      = [{ Typ := "balance-leader", Args := none, Disable := false }] :=
  ⟨by decide, AddSchedulerCfg_exactly_one _ "balance-leader" none (by decide)⟩

/-- C5, corrected.  The second half of the claim as stated fails: an enabled
entry equal to `(t, a)` is present, but a disabled equal entry comes first, and
the call re-enables that one, so the published list changes. -/
theorem AddSchedulerCfg_idempotent_counterexample :
    ({ Typ := "balance-leader", Args := none, Disable := false } : SchedulerConfig) ∈
      (scheduleOption.example
        [{ Typ := "balance-leader", Args := none, Disable := true },
         { Typ := "balance-leader", Args := none, Disable := false }]
        (fun _ => none)).GetSchedulers ∧
    ((scheduleOption.example
        [{ Typ := "balance-leader", Args := none, Disable := true },
         { Typ := "balance-leader", Args := none, Disable := false }]
        (fun _ => none)).AddSchedulerCfg "balance-leader" none).GetSchedulers
      = [{ Typ := "balance-leader", Args := none, Disable := false },
         { Typ := "balance-leader", Args := none, Disable := false }] ∧
    ((scheduleOption.example
        [{ Typ := "balance-leader", Args := none, Disable := true },
         { Typ := "balance-leader", Args := none, Disable := false }]
        (fun _ => none)).AddSchedulerCfg "balance-leader" none).GetSchedulers
      ≠ (scheduleOption.example
        [{ Typ := "balance-leader", Args := none, Disable := true },
         { Typ := "balance-leader", Args := none, Disable := false }]
        (fun _ => none)).GetSchedulers := by
  decide

/-- C5, as amended: `AddSchedulerCfg` is idempotent: for every state, type `t`
and argument list `a`, calling `AddSchedulerCfg(t, a)` twice in a row leaves the
same state as calling it once; and when an enabled entry equal to `(t, a)` is
present with no disabled entry equal to `(t, a)` before it, the call changes
nothing. -/
theorem AddSchedulerCfg_idempotent (o : scheduleOption) (tp : String)
    (args : Option (List String)) :
    (o.AddSchedulerCfg tp args).AddSchedulerCfg tp args = o.AddSchedulerCfg tp args ∧
    ∀ pre post : List SchedulerConfig,
      o.GetSchedulers = pre ++ { Typ := tp, Args := args, Disable := false } :: post →
      ({ Typ := tp, Args := args, Disable := true } : SchedulerConfig) ∉ pre →
      o.AddSchedulerCfg tp args = o := by
  have noop : ∀ (o1 : scheduleOption) (pre post : List SchedulerConfig),
      o1.GetSchedulers = pre ++ { Typ := tp, Args := args, Disable := false } :: post →
      ({ Typ := tp, Args := args, Disable := true } : SchedulerConfig) ∉ pre →
      o1.AddSchedulerCfg tp args = o1 := by
    intro o1 pre post hL hpre
    have hL2 : o1.v.Schedulers = pre ++ { Typ := tp, Args := args, Disable := false } :: post :=
      hL
    have := AddSchedulerCfg.scan_enabled tp args o1.v.Schedulers pre 0 post hpre
    rw [← hL2] at this
    simp only [scheduleOption.AddSchedulerCfg, scheduleOption.load, ScheduleConfig.clone, this]
  refine ⟨?_, noop o⟩
  have notin : ∀ a : List SchedulerConfig, (∀ x ∈ a, ¬(x.Typ = tp ∧ x.Args = args)) →
      ({ Typ := tp, Args := args, Disable := true } : SchedulerConfig) ∉ a := by
    intro a ha hm
    exact ha _ hm ⟨rfl, rfl⟩
  rcases AddSchedulerCfg_cases o tp args with ⟨hno, heq⟩ | ⟨a, s, b, hL, ha, ht, hargs, heq⟩
  · rw [heq]
    exact noop _ o.GetSchedulers [] rfl (notin _ hno)
  · rw [heq]
    exact noop _ a b rfl (notin _ ha)

/-- Witness of C5 as amended: balance-leader is present and enabled after
another scheduler. -/
theorem AddSchedulerCfg_idempotent_witness :
    (scheduleOption.example
        [{ Typ := "label", Args := none, Disable := false },
         { Typ := "balance-leader", Args := none, Disable := false }]
        (fun _ => none)).AddSchedulerCfg "balance-leader" none
      = scheduleOption.example
        [{ Typ := "label", Args := none, Disable := false },
         { Typ := "balance-leader", Args := none, Disable := false }]
        (fun _ => none) :=
  (AddSchedulerCfg_idempotent _ "balance-leader" none).2
    [{ Typ := "label", Args := none, Disable := false }] [] rfl (by decide)

/-! ## adjustScheduleCfg -/

theorem adjustScheduleCfg.copyDisable_eq (s : SchedulerConfig) (P : List SchedulerConfig) :
    adjustScheduleCfg.copyDisable s P =
      match P.find? (fun ps => s.sameKey ps) with
      | some ps => { s with Disable := ps.Disable }
      | none => s := by
  induction P with
  | nil => rfl
  | cons ps rest ih =>
    by_cases h : s.Typ = ps.Typ ∧ s.Args = ps.Args
    · simp [adjustScheduleCfg.copyDisable, SchedulerConfig.sameKey, h]
    · simp only [adjustScheduleCfg.copyDisable, h, if_false, ih]
      simp [List.find?, SchedulerConfig.sameKey, h]

theorem adjustScheduleCfg.copyDisable_Typ (s : SchedulerConfig) (P : List SchedulerConfig) :
    (adjustScheduleCfg.copyDisable s P).Typ = s.Typ := by
  induction P with
  | nil => rfl
  | cons ps rest ih =>
    by_cases h : s.Typ = ps.Typ ∧ s.Args = ps.Args
    · simp [adjustScheduleCfg.copyDisable, h]
    · simp only [adjustScheduleCfg.copyDisable, h, if_false, ih]

theorem adjustScheduleCfg.copyDisable_Args (s : SchedulerConfig) (P : List SchedulerConfig) :
    (adjustScheduleCfg.copyDisable s P).Args = s.Args := by
  induction P with
  | nil => rfl
  | cons ps rest ih =>
    by_cases h : s.Typ = ps.Typ ∧ s.Args = ps.Args
    · simp [adjustScheduleCfg.copyDisable, h]
    · simp only [adjustScheduleCfg.copyDisable, h, if_false, ih]

theorem adjustScheduleCfg.phase1_eq_map (P M : List SchedulerConfig) :
    adjustScheduleCfg.phase1 P M = M.map (fun s => adjustScheduleCfg.copyDisable s P) := by
  induction M with
  | nil => rfl
  | cons s rest ih => simp [adjustScheduleCfg.phase1, ih]

theorem adjustScheduleCfg.needRestore_eq (ps : SchedulerConfig) (L : List SchedulerConfig) :
    adjustScheduleCfg.needRestore ps L = !(L.any (fun s => s.sameKey ps)) := by
  induction L with
  | nil => rfl
  | cons s rest ih =>
    by_cases h : s.Typ = ps.Typ ∧ s.Args = ps.Args
    · simp [adjustScheduleCfg.needRestore, SchedulerConfig.sameKey, h]
    · have hk : s.sameKey ps = false := by simp [SchedulerConfig.sameKey, h]
      simp only [adjustScheduleCfg.needRestore, h, if_false, ih, List.any_cons, hk,
        Bool.false_or]

theorem adjustScheduleCfg.needRestore_phase1 (ps : SchedulerConfig)
    (P M : List SchedulerConfig) :
    adjustScheduleCfg.needRestore ps (adjustScheduleCfg.phase1 P M) =
      adjustScheduleCfg.needRestore ps M := by
  induction M with
  | nil => rfl
  | cons s rest ih =>
    simp only [adjustScheduleCfg.phase1, adjustScheduleCfg.needRestore,
      adjustScheduleCfg.copyDisable_Typ, adjustScheduleCfg.copyDisable_Args, ih]

theorem adjustScheduleCfg.restore_eq (L : List SchedulerConfig) :
    ∀ (P acc : List SchedulerConfig),
      adjustScheduleCfg.restore L acc P =
        acc ++ P.filter (fun ps => adjustScheduleCfg.needRestore ps L) := by
  intro P
  induction P with
  | nil => intro acc; simp [adjustScheduleCfg.restore]
  | cons ps rest ih =>
    intro acc
    by_cases h : adjustScheduleCfg.needRestore ps L = true
    · simp [adjustScheduleCfg.restore, h, ih]
    · simp [adjustScheduleCfg.restore, h, ih]

/-- The list computed by the loops of `adjustScheduleCfg` is the merged list of
the specification. -/
theorem adjustScheduleCfg.loops_eq_merged (M P : List SchedulerConfig) :
    adjustScheduleCfg.phase1 P M ++
        adjustScheduleCfg.restore (adjustScheduleCfg.phase1 P M) [] P
      = mergedSchedulers M P := by
  rw [adjustScheduleCfg.restore_eq, List.nil_append]
  have hf : (fun ps => adjustScheduleCfg.needRestore ps (adjustScheduleCfg.phase1 P M))
      = (fun ps => !(M.any (fun s => s.sameKey ps))) := by
    funext ps
    rw [adjustScheduleCfg.needRestore_phase1, adjustScheduleCfg.needRestore_eq]
  rw [hf, adjustScheduleCfg.phase1_eq_map]
  unfold mergedSchedulers
  congr 1
  apply List.map_congr_left
  intro s _
  exact adjustScheduleCfg.copyDisable_eq s P

theorem adjustScheduleCfg_fst (o : scheduleOption) (cfg : Config) :
    (o.adjustScheduleCfg cfg).1 =
      o.store (o.v.setSchedulers (mergedSchedulers o.GetSchedulers cfg.Schedule.Schedulers)) := by
  simp only [scheduleOption.adjustScheduleCfg, scheduleOption.load, ScheduleConfig.clone,
    scheduleOption.GetSchedulers, ← adjustScheduleCfg.loops_eq_merged]

theorem adjustScheduleCfg_snd (o : scheduleOption) (cfg : Config) :
    (o.adjustScheduleCfg cfg).2 =
      { cfg with Schedule :=
          (cfg.Schedule.setSchedulers
            (mergedSchedulers o.GetSchedulers cfg.Schedule.Schedulers)) } := by
  simp only [scheduleOption.adjustScheduleCfg, scheduleOption.load, ScheduleConfig.clone,
    scheduleOption.GetSchedulers, ← adjustScheduleCfg.loops_eq_merged,
    ScheduleConfig.setSchedulers_Schedulers]

theorem adjustScheduleCfg_lists (o : scheduleOption) (cfg : Config) :
    (o.adjustScheduleCfg cfg).1.GetSchedulers
        = mergedSchedulers o.GetSchedulers cfg.Schedule.Schedulers ∧
    (o.adjustScheduleCfg cfg).2.Schedule.Schedulers
        = mergedSchedulers o.GetSchedulers cfg.Schedule.Schedulers := by
  constructor
  · rw [adjustScheduleCfg_fst]; rfl
  · rw [adjustScheduleCfg_snd]; rfl

/-- C2: for every in-memory list M and persisted list P, `adjustScheduleCfg`
publishes, and writes back into the persisted config, the list made of the
entries of M in order, each with the `Disable` flag of the first entry of P with
equal `(Type, Args)` when there is one, followed by the entries of P, in order,
that no entry of M matches.  On M = [A], P = [A(disable=true), B] the list is
[A(disable=true), B]. -/
theorem adjustScheduleCfg_merged (o : scheduleOption) (cfg : Config) :
    (o.adjustScheduleCfg cfg).1.GetSchedulers
        = mergedSchedulers o.GetSchedulers cfg.Schedule.Schedulers ∧
    (o.adjustScheduleCfg cfg).2.Schedule.Schedulers
        = mergedSchedulers o.GetSchedulers cfg.Schedule.Schedulers ∧
    mergedSchedulers [{ Typ := "A", Args := none, Disable := false }]
        [{ Typ := "A", Args := none, Disable := true },
         { Typ := "B", Args := none, Disable := false }]
      = [{ Typ := "A", Args := none, Disable := true },
         { Typ := "B", Args := none, Disable := false }] := by
  exact ⟨(adjustScheduleCfg_lists o cfg).1, (adjustScheduleCfg_lists o cfg).2, by decide⟩

theorem map_eq_self_iff {α : Type} (f : α → α) (L : List α) :
    L.map f = L ↔ ∀ x ∈ L, f x = x := by
  induction L with
  | nil => simp
  | cons x xs ih => simp [ih]

theorem SchedulerConfig.sameKey_iff (a b : SchedulerConfig) :
    a.sameKey b = true ↔ a.Typ = b.Typ ∧ a.Args = b.Args := by
  simp [SchedulerConfig.sameKey]

theorem mergedSchedulers_self (L : List SchedulerConfig) :
    mergedSchedulers L L = L.map (fun s => adjustScheduleCfg.copyDisable s L) := by
  unfold mergedSchedulers
  have hf : L.filter (fun ps => !(L.any (fun s => s.sameKey ps))) = [] := by
    rw [List.filter_eq_nil_iff]
    intro ps hps
    have hex : L.any (fun s => s.sameKey ps) = true :=
      List.any_eq_true.2 ⟨ps, hps, (SchedulerConfig.sameKey_iff ps ps).2 ⟨rfl, rfl⟩⟩
    rw [hex]
    decide
  rw [hf, List.append_nil]
  apply List.map_congr_left
  intro s _
  exact (adjustScheduleCfg.copyDisable_eq s L).symm

/-- Inside a list, the scan copies onto an entry the flag of the first entry
with its `(Type, Args)`; two entries with equal `(Type, Args)` get the same flag. -/
theorem adjustScheduleCfg.copyDisable_Disable_congr (a b : SchedulerConfig)
    (L : List SchedulerConfig) (hb : b ∈ L) (ht : a.Typ = b.Typ) (ha : a.Args = b.Args) :
    (adjustScheduleCfg.copyDisable a L).Disable = (adjustScheduleCfg.copyDisable b L).Disable := by
  induction L with
  | nil => cases hb
  | cons x xs ih =>
    by_cases hx : b.Typ = x.Typ ∧ b.Args = x.Args
    · have hx2 : a.Typ = x.Typ ∧ a.Args = x.Args := ⟨ht.trans hx.1, ha.trans hx.2⟩
      simp [adjustScheduleCfg.copyDisable, hx, hx2]
    · have hx2 : ¬(a.Typ = x.Typ ∧ a.Args = x.Args) := by
        rw [ht, ha]; exact hx
      simp only [adjustScheduleCfg.copyDisable, hx, hx2, if_false]
      rcases List.mem_cons.1 hb with rfl | hm
      · exact absurd ⟨rfl, rfl⟩ hx
      · exact ih hm

theorem adjustScheduleCfg.copyDisable_mem (s : SchedulerConfig) (L : List SchedulerConfig) :
    adjustScheduleCfg.copyDisable s L = s ∨
      ∃ ps ∈ L, s.Typ = ps.Typ ∧ s.Args = ps.Args ∧
        adjustScheduleCfg.copyDisable s L = { s with Disable := ps.Disable } := by
  induction L with
  | nil => left; rfl
  | cons x xs ih =>
    by_cases hx : s.Typ = x.Typ ∧ s.Args = x.Args
    · right
      exact ⟨x, List.mem_cons_self _ _, hx.1, hx.2, by simp [adjustScheduleCfg.copyDisable, hx]⟩
    · simp only [adjustScheduleCfg.copyDisable, hx, if_false]
      rcases ih with h | ⟨ps, hps, h1, h2, h3⟩
      · left; exact h
      · right; exact ⟨ps, List.mem_cons_of_mem _ hps, h1, h2, h3⟩

theorem mergedSchedulers_self_eq_iff (L : List SchedulerConfig) :
    mergedSchedulers L L = L ↔ FlagsAgree L := by
  rw [mergedSchedulers_self, map_eq_self_iff]
  constructor
  · intro h a ha b hb ht hargs
    have h1 := adjustScheduleCfg.copyDisable_Disable_congr a b L hb ht hargs
    rw [h a ha, h b hb] at h1
    exact h1
  · intro h s hs
    rcases adjustScheduleCfg.copyDisable_mem s L with h0 | ⟨ps, hps, h1, h2, h3⟩
    · exact h0
    · rw [h3, ← h s hs ps hps h1 h2]

theorem NoDupKey.flagsAgree {L : List SchedulerConfig} (h : NoDupKey L) : FlagsAgree L := by
  intro a ha b hb ht hargs
  by_cases hab : a = b
  · rw [hab]
  · exfalso
    have hsymm : Symmetric (fun a b : SchedulerConfig => ¬(a.Typ = b.Typ ∧ a.Args = b.Args)) := by
      intro x y hxy hyx
      exact hxy ⟨hyx.1.symm, hyx.2.symm⟩
    exact (List.Pairwise.forall hsymm h) ha hb hab ⟨ht, hargs⟩

theorem NoDupKey_mergedSchedulers {M P : List SchedulerConfig} (hM : NoDupKey M)
    (hP : NoDupKey P) : NoDupKey (mergedSchedulers M P) := by
  unfold NoDupKey mergedSchedulers
  rw [List.pairwise_append]
  have key : ∀ s : SchedulerConfig,
      (match P.find? (fun ps => s.sameKey ps) with
        | some ps => { s with Disable := ps.Disable }
        | none => s).Typ = s.Typ ∧
      (match P.find? (fun ps => s.sameKey ps) with
        | some ps => { s with Disable := ps.Disable }
        | none => s).Args = s.Args := by
    intro s
    split <;> exact ⟨rfl, rfl⟩
  refine ⟨?_, ?_, ?_⟩
  · rw [List.pairwise_map]
    refine List.Pairwise.imp ?_ hM
    intro a b hab
    rw [(key a).1, (key a).2, (key b).1, (key b).2]
    exact hab
  · exact List.Pairwise.sublist (List.filter_sublist _) hP
  · intro a ha b hb
    rcases List.mem_map.1 ha with ⟨s, hs, rfl⟩
    rw [(key s).1, (key s).2]
    have hb2 := (List.mem_filter.1 hb).2
    intro hk
    have hex : M.any (fun s => s.sameKey b) = true :=
      List.any_eq_true.2 ⟨s, hs, (SchedulerConfig.sameKey_iff s b).2 hk⟩
    rw [hex] at hb2
    exact absurd hb2 (by decide)

theorem adjustScheduleCfg_twice_fst (o : scheduleOption) (cfg : Config) :
    ((o.adjustScheduleCfg cfg).1.adjustScheduleCfg (o.adjustScheduleCfg cfg).2).1.GetSchedulers
      = mergedSchedulers (mergedSchedulers o.GetSchedulers cfg.Schedule.Schedulers)
          (mergedSchedulers o.GetSchedulers cfg.Schedule.Schedulers) := by
  rw [(adjustScheduleCfg_lists _ _).1, (adjustScheduleCfg_lists o cfg).1,
    (adjustScheduleCfg_lists o cfg).2]

theorem adjustScheduleCfg_twice_snd (o : scheduleOption) (cfg : Config) :
    ((o.adjustScheduleCfg cfg).1.adjustScheduleCfg
        (o.adjustScheduleCfg cfg).2).2.Schedule.Schedulers
      = mergedSchedulers (mergedSchedulers o.GetSchedulers cfg.Schedule.Schedulers)
          (mergedSchedulers o.GetSchedulers cfg.Schedule.Schedulers) := by
  rw [(adjustScheduleCfg_lists _ _).2, (adjustScheduleCfg_lists o cfg).1,
    (adjustScheduleCfg_lists o cfg).2]

/-- C3, corrected.  The claim as stated fails: with the in-memory list
[A(disable=true), A(disable=false)] and an empty persisted list, the first
application publishes the list as it is and the second one turns the second
entry into A(disable=true). -/
theorem adjustScheduleCfg_fixpoint_counterexample :
    ((scheduleOption.example
        [{ Typ := "A", Args := none, Disable := true },
         { Typ := "A", Args := none, Disable := false }] (fun _ => none)).adjustScheduleCfg
        (Config.example [])).1.GetSchedulers
      = [{ Typ := "A", Args := none, Disable := true },
         { Typ := "A", Args := none, Disable := false }] ∧
    (((scheduleOption.example
        [{ Typ := "A", Args := none, Disable := true },
         { Typ := "A", Args := none, Disable := false }] (fun _ => none)).adjustScheduleCfg
        (Config.example [])).1.adjustScheduleCfg
      ((scheduleOption.example
        [{ Typ := "A", Args := none, Disable := true },
         { Typ := "A", Args := none, Disable := false }] (fun _ => none)).adjustScheduleCfg
        (Config.example [])).2).1.GetSchedulers
      = [{ Typ := "A", Args := none, Disable := true },
         { Typ := "A", Args := none, Disable := true }] := by
  decide

/-- C3, as amended: for every in-memory scheduler list and every persisted
config, applying `adjustScheduleCfg` a second time, on the state and persisted
config left by the first, yields the same published list and the same persisted
list as applying it once exactly when, in the list left by the first
application, entries with equal `(Type, Args)` carry equal `Disable` flags; this
is so whenever neither the in-memory list nor the persisted list has two entries
with equal `(Type, Args)`. -/
theorem adjustScheduleCfg_fixpoint (o : scheduleOption) (cfg : Config) :
    ((((o.adjustScheduleCfg cfg).1.adjustScheduleCfg
            (o.adjustScheduleCfg cfg).2).1.GetSchedulers
          = (o.adjustScheduleCfg cfg).1.GetSchedulers ∧
        ((o.adjustScheduleCfg cfg).1.adjustScheduleCfg
            (o.adjustScheduleCfg cfg).2).2.Schedule.Schedulers
          = (o.adjustScheduleCfg cfg).2.Schedule.Schedulers)
      ↔ FlagsAgree (o.adjustScheduleCfg cfg).1.GetSchedulers) ∧
    (NoDupKey o.GetSchedulers → NoDupKey cfg.Schedule.Schedulers →
      ((o.adjustScheduleCfg cfg).1.adjustScheduleCfg
            (o.adjustScheduleCfg cfg).2).1.GetSchedulers
          = (o.adjustScheduleCfg cfg).1.GetSchedulers ∧
        ((o.adjustScheduleCfg cfg).1.adjustScheduleCfg
            (o.adjustScheduleCfg cfg).2).2.Schedule.Schedulers
          = (o.adjustScheduleCfg cfg).2.Schedule.Schedulers) := by
  have hiff : (((o.adjustScheduleCfg cfg).1.adjustScheduleCfg
            (o.adjustScheduleCfg cfg).2).1.GetSchedulers
          = (o.adjustScheduleCfg cfg).1.GetSchedulers ∧
        ((o.adjustScheduleCfg cfg).1.adjustScheduleCfg
            (o.adjustScheduleCfg cfg).2).2.Schedule.Schedulers
          = (o.adjustScheduleCfg cfg).2.Schedule.Schedulers)
      ↔ FlagsAgree (o.adjustScheduleCfg cfg).1.GetSchedulers := by
    rw [adjustScheduleCfg_twice_fst, adjustScheduleCfg_twice_snd,
      (adjustScheduleCfg_lists o cfg).1, (adjustScheduleCfg_lists o cfg).2,
      and_self, mergedSchedulers_self_eq_iff]
  refine ⟨hiff, ?_⟩
  intro hM hP
  apply hiff.2
  rw [(adjustScheduleCfg_lists o cfg).1]
  exact (NoDupKey_mergedSchedulers hM hP).flagsAgree

/-- Witness of C3 as amended: in-memory [A], persisted [A(disable=true), B]. -/
theorem adjustScheduleCfg_fixpoint_witness :
    NoDupKey (scheduleOption.example
        [{ Typ := "A", Args := none, Disable := false }] (fun _ => none)).GetSchedulers ∧
    NoDupKey (Config.example
        [{ Typ := "A", Args := none, Disable := true },
         { Typ := "B", Args := none, Disable := false }]).Schedule.Schedulers ∧
    (((scheduleOption.example
        [{ Typ := "A", Args := none, Disable := false }] (fun _ => none)).adjustScheduleCfg
        (Config.example
          [{ Typ := "A", Args := none, Disable := true },
           { Typ := "B", Args := none, Disable := false }])).1.adjustScheduleCfg
      ((scheduleOption.example
        [{ Typ := "A", Args := none, Disable := false }] (fun _ => none)).adjustScheduleCfg
        (Config.example
          [{ Typ := "A", Args := none, Disable := true },
           { Typ := "B", Args := none, Disable := false }])).2).1.GetSchedulers
      = ((scheduleOption.example
        [{ Typ := "A", Args := none, Disable := false }] (fun _ => none)).adjustScheduleCfg
        (Config.example
          [{ Typ := "A", Args := none, Disable := true },
           { Typ := "B", Args := none, Disable := false }])).1.GetSchedulers :=
  ⟨by decide, by decide,
    ((adjustScheduleCfg_fixpoint _ _).2 (by decide) (by decide)).1⟩

/-! ## persist and reload -/

theorem GoMap.storeAll_self {V : Type} (m : GoMap V) : GoMap.storeAll m m = m := by
  funext j
  unfold GoMap.storeAll
  cases h : m j <;> simp

/-- After a successful `persist`, a `reload` from the same store leaves every
cell but the scheduler list as it was, and the scheduler list merged with itself. -/
theorem reload_persist_eq (o : scheduleOption) (kv : KV) (hs : kv.saveErr = none)
    (hl : kv.loadErr = none) :
    (o.persist kv).2 = none ∧
    o.reload (o.persist kv).1 =
      (o.store (o.v.setSchedulers (mergedSchedulers o.GetSchedulers o.GetSchedulers)), none) := by
  have h1 : o.persist kv =
      (({ kv with config := (some
          ({ Schedule := o.v, Replication := o.rep, Namespace := o.ns,
             LabelProperty := o.labelProperty, ClusterVersion := o.clusterVersion,
             PDServerCfg := o.pdServerConfig } : Config)) } : KV), none) := by
    simp [scheduleOption.persist, KV.SaveConfig, hs, scheduleOption.load,
      scheduleOption.loadNSConfig, scheduleOption.loadLabelPropertyConfig]
  refine ⟨by rw [h1], ?_⟩
  rw [h1]
  simp only [scheduleOption.reload, KV.LoadConfig, hl, adjustScheduleCfg_fst,
    adjustScheduleCfg_snd, if_true, scheduleOption.store, GoMap.storeAll_self,
    scheduleOption.GetSchedulers, scheduleOption.load]

/-- C4, corrected.  The claim as stated fails: in the state whose scheduler list
is [A(disable=true), A(disable=false)], `persist` and then `reload` both
succeed, and the reloaded list is [A(disable=true), A(disable=true)]. -/
theorem persist_reload_roundtrip_counterexample :
    ((scheduleOption.example
        [{ Typ := "A", Args := none, Disable := true },
         { Typ := "A", Args := none, Disable := false }] (fun _ => none)).persist
      KV.empty).2 = none ∧
    ((scheduleOption.example
        [{ Typ := "A", Args := none, Disable := true },
         { Typ := "A", Args := none, Disable := false }] (fun _ => none)).reload
      ((scheduleOption.example
        [{ Typ := "A", Args := none, Disable := true },
         { Typ := "A", Args := none, Disable := false }] (fun _ => none)).persist
        KV.empty).1).2 = none ∧
    ((scheduleOption.example
        [{ Typ := "A", Args := none, Disable := true },
         { Typ := "A", Args := none, Disable := false }] (fun _ => none)).reload
      ((scheduleOption.example
        [{ Typ := "A", Args := none, Disable := true },
         { Typ := "A", Args := none, Disable := false }] (fun _ => none)).persist
        KV.empty).1).1.GetSchedulers
      = [{ Typ := "A", Args := none, Disable := true },
         { Typ := "A", Args := none, Disable := true }] ∧
    ((scheduleOption.example
        [{ Typ := "A", Args := none, Disable := true },
         { Typ := "A", Args := none, Disable := false }] (fun _ => none)).reload
      ((scheduleOption.example
        [{ Typ := "A", Args := none, Disable := true },
         { Typ := "A", Args := none, Disable := false }] (fun _ => none)).persist
        KV.empty).1).1.GetSchedulers
      ≠ (scheduleOption.example
        [{ Typ := "A", Args := none, Disable := true },
         { Typ := "A", Args := none, Disable := false }] (fun _ => none)).GetSchedulers := by
  decide

/-- C4, as amended: when the save and the load succeed, `persist` to a kv store
followed by `reload` from that same store, with no mutation in between, leaves
every cell (schedule config with its scheduler list and each flag, replication
config, namespace map, label-property config, cluster version, PD server config)
equal by value to what it was, for exactly those states in which scheduler
entries with equal `(Type, Args)` carry equal `Disable` flags; among them is
every state whose scheduler list has no two entries with equal `(Type, Args)`. -/
theorem persist_reload_roundtrip (o : scheduleOption) (kv : KV) (hs : kv.saveErr = none)
    (hl : kv.loadErr = none) :
    (o.persist kv).2 = none ∧
    (o.reload (o.persist kv).1).2 = none ∧
    ((o.reload (o.persist kv).1).1 = o ↔ FlagsAgree o.GetSchedulers) ∧
    (NoDupKey o.GetSchedulers → (o.reload (o.persist kv).1).1 = o) := by
  obtain ⟨h1, h2⟩ := reload_persist_eq o kv hs hl
  have hiff : (o.reload (o.persist kv).1).1 = o ↔ FlagsAgree o.GetSchedulers := by
    rw [h2, ← mergedSchedulers_self_eq_iff]
    constructor
    · intro h
      have := congrArg scheduleOption.GetSchedulers h
      simpa using this
    · intro h
      simp only [h]
      exact o.store_v
  refine ⟨h1, by rw [h2], hiff, fun hnd => hiff.2 hnd.flagsAgree⟩

/-- Witness of C4 as amended: a state with two different schedulers, one of them
disabled, and a label property. -/
theorem persist_reload_roundtrip_witness :
    KV.empty.saveErr = none ∧ KV.empty.loadErr = none ∧
    NoDupKey (scheduleOption.example
        [{ Typ := "balance-leader", Args := none, Disable := true },
         { Typ := "evict-leader", Args := some ["1"], Disable := false }]
        (fun t => if t = "reject-leader" then some [{ Key := "zone", Value := "z1" }]
          else none)).GetSchedulers ∧
    ((scheduleOption.example
        [{ Typ := "balance-leader", Args := none, Disable := true },
         { Typ := "evict-leader", Args := some ["1"], Disable := false }]
        (fun t => if t = "reject-leader" then some [{ Key := "zone", Value := "z1" }]
          else none)).reload
      ((scheduleOption.example
        [{ Typ := "balance-leader", Args := none, Disable := true },
         { Typ := "evict-leader", Args := some ["1"], Disable := false }]
        (fun t => if t = "reject-leader" then some [{ Key := "zone", Value := "z1" }]
          else none)).persist KV.empty).1).1
      = scheduleOption.example
        [{ Typ := "balance-leader", Args := none, Disable := true },
         { Typ := "evict-leader", Args := some ["1"], Disable := false }]
        (fun t => if t = "reject-leader" then some [{ Key := "zone", Value := "z1" }]
          else none) :=
  ⟨rfl, rfl, by decide,
    (persist_reload_roundtrip _ KV.empty rfl rfl).2.2.2 (by decide)⟩

/-! ## RemoveSchedulerCfg -/

/-- Entries on which the factory succeeds with another name are passed over. -/
theorem RemoveSchedulerCfg.scan_skip (C : Factory) (D : String → Bool) (name : String)
    (vs : List SchedulerConfig) :
    ∀ (a : List SchedulerConfig) (i : Nat) (rest : List SchedulerConfig),
      (∀ x ∈ a, ∃ t, C x.Typ x.Args = .ok t ∧ t.GetName ≠ name) →
      RemoveSchedulerCfg.scan C D name vs i (a ++ rest) =
        RemoveSchedulerCfg.scan C D name vs (i + a.length) rest := by
  intro a
  induction a with
  | nil => intro i rest _; rfl
  | cons x xs ih =>
    intro i rest h
    obtain ⟨t, ht, hn⟩ := h x (List.mem_cons_self _ _)
    have hstep : RemoveSchedulerCfg.scan C D name vs i (x :: (xs ++ rest)) =
        RemoveSchedulerCfg.scan C D name vs (i + 1) (xs ++ rest) := by
      simp only [RemoveSchedulerCfg.scan, ht, hn, if_false]
    rw [List.cons_append, hstep,
      ih (i + 1) rest (fun y hy => h y (List.mem_cons_of_mem _ hy)), List.length_cons]
    congr 1
    omega

/-- The three ways the loop of `RemoveSchedulerCfg` ends: at the end of the list,
at the first entry the factory rejects, or at the first entry whose instance has
the given name. -/
theorem RemoveSchedulerCfg_cases (C : Factory) (D : String → Bool) (o : scheduleOption)
    (name : String) :
    ((∀ x ∈ o.GetSchedulers, ∃ t, C x.Typ x.Args = .ok t ∧ t.GetName ≠ name) ∧
      o.RemoveSchedulerCfg C D name = (o, none)) ∨
    (∃ pre c post e, o.GetSchedulers = pre ++ c :: post ∧
      (∀ x ∈ pre, ∃ t, C x.Typ x.Args = .ok t ∧ t.GetName ≠ name) ∧
      C c.Typ c.Args = .error e ∧
      o.RemoveSchedulerCfg C D name = (o, some e)) ∨
    (∃ pre c post tmp, o.GetSchedulers = pre ++ c :: post ∧
      (∀ x ∈ pre, ∃ t, C x.Typ x.Args = .ok t ∧ t.GetName ≠ name) ∧
      C c.Typ c.Args = .ok tmp ∧ tmp.GetName = name ∧
      o.RemoveSchedulerCfg C D name =
        (o.store (o.v.setSchedulers
          (if D tmp.GetType then pre ++ { c with Disable := true } :: post
           else pre ++ post)), none)) := by
  classical
  rcases first_split
      (fun x : SchedulerConfig => ¬ ∃ t, C x.Typ x.Args = .ok t ∧ t.GetName ≠ name)
      o.GetSchedulers with h | ⟨pre, c, post, hL, hpre, hc⟩
  · left
    have h2 : ∀ x ∈ o.GetSchedulers, ∃ t, C x.Typ x.Args = .ok t ∧ t.GetName ≠ name :=
      fun x hx => not_not.1 (h x hx)
    refine ⟨h2, ?_⟩
    have := RemoveSchedulerCfg.scan_skip C D name o.v.Schedulers o.v.Schedulers 0 [] h2
    rw [List.append_nil] at this
    simp only [scheduleOption.RemoveSchedulerCfg, scheduleOption.load, ScheduleConfig.clone,
      this, RemoveSchedulerCfg.scan]
  · right
    have hpre2 : ∀ x ∈ pre, ∃ t, C x.Typ x.Args = .ok t ∧ t.GetName ≠ name :=
      fun x hx => not_not.1 (hpre x hx)
    have hL2 : o.v.Schedulers = pre ++ c :: post := hL
    have hskip := RemoveSchedulerCfg.scan_skip C D name o.v.Schedulers pre 0 (c :: post) hpre2
    rw [← hL2, Nat.zero_add] at hskip
    cases hC : C c.Typ c.Args with
    | error e =>
      left
      refine ⟨pre, c, post, e, hL, hpre2, hC, ?_⟩
      simp only [scheduleOption.RemoveSchedulerCfg, scheduleOption.load, ScheduleConfig.clone,
        hskip, RemoveSchedulerCfg.scan, hC]
    | ok tmp =>
      right
      have hn : tmp.GetName = name := by
        by_contra hne
        exact hc ⟨tmp, hC, hne⟩
      refine ⟨pre, c, post, tmp, hL, hpre2, hC, hn, ?_⟩
      simp only [scheduleOption.RemoveSchedulerCfg, scheduleOption.load, ScheduleConfig.clone,
        hskip, RemoveSchedulerCfg.scan, hC, hn, if_true]
      by_cases hd : D tmp.GetType = true
      · simp only [hd, if_true, hL2, set_length_append]
      · simp only [hd, if_false, hL2, take_drop_length_append]
        simp

/-- The loop reaches the entry after a run of entries that the factory accepts
under other names. -/
theorem RemoveSchedulerCfg.scan_reach (C : Factory) (D : String → Bool) (name : String)
    (pre : List SchedulerConfig) (c : SchedulerConfig) (post : List SchedulerConfig)
    (hpre : ∀ x ∈ pre, ∃ t, C x.Typ x.Args = .ok t ∧ t.GetName ≠ name) :
    RemoveSchedulerCfg.scan C D name (pre ++ c :: post) 0 (pre ++ c :: post) =
      RemoveSchedulerCfg.scan C D name (pre ++ c :: post) pre.length (c :: post) := by
  have := RemoveSchedulerCfg.scan_skip C D name (pre ++ c :: post) pre 0 (c :: post) hpre
  rw [Nat.zero_add] at this
  exact this

/-- C6: default-scheduler removal keeps a tombstone.  When the factory succeeds
on the scanned entries (those before the match, under other names, and the
match itself) and the first configured scheduler whose instance name equals the
given name has an instance type for which `IsDefaultScheduler` is true,
`RemoveSchedulerCfg` returns success and publishes the list of the same length
and order in which that entry has `Disable = true` and every other entry is
unchanged; no other cell changes. -/
theorem RemoveSchedulerCfg_default (C : Factory) (D : String → Bool) (o : scheduleOption)
    (name : String) (pre : List SchedulerConfig) (c : SchedulerConfig)
    (post : List SchedulerConfig) (tmp : Scheduler)
    (hL : o.GetSchedulers = pre ++ c :: post)
    (hpre : ∀ x ∈ pre, ∃ t, C x.Typ x.Args = .ok t ∧ t.GetName ≠ name)
    (hc : C c.Typ c.Args = .ok tmp) (hn : tmp.GetName = name)
    (hd : D tmp.GetType = true) :
    (o.RemoveSchedulerCfg C D name).2 = none ∧
    (o.RemoveSchedulerCfg C D name).1.GetSchedulers
      = pre ++ { Typ := c.Typ, Args := c.Args, Disable := true } :: post ∧
    (o.RemoveSchedulerCfg C D name).1.GetSchedulers.length = o.GetSchedulers.length ∧
    (o.RemoveSchedulerCfg C D name).1
      = o.store (o.v.setSchedulers
          (pre ++ { Typ := c.Typ, Args := c.Args, Disable := true } :: post)) := by
  have hL2 : o.v.Schedulers = pre ++ c :: post := hL
  have hr : o.RemoveSchedulerCfg C D name
      = (o.store (o.v.setSchedulers
          (pre ++ { Typ := c.Typ, Args := c.Args, Disable := true } :: post)), none) := by
    simp only [scheduleOption.RemoveSchedulerCfg, scheduleOption.load, ScheduleConfig.clone,
      hL2, RemoveSchedulerCfg.scan_reach C D name pre c post hpre, RemoveSchedulerCfg.scan,
      hc, hn, hd, if_true, set_length_append]
  rw [hr, hL]
  simp

/-- Witness of C6: balance-leader is a default scheduler of the sample factory;
removing balance-leader-scheduler keeps its entry, disabled. -/
theorem RemoveSchedulerCfg_default_witness :
    sampleFactory "balance-leader" none
      = .ok { GetName := "balance-leader-scheduler", GetType := "balance-leader" } ∧
    sampleIsDefault "balance-leader" = true ∧
    ((scheduleOption.example
        [{ Typ := "evict-leader", Args := some ["1"], Disable := false },
         { Typ := "balance-leader", Args := none, Disable := false }]
        (fun _ => none)).RemoveSchedulerCfg sampleFactory sampleIsDefault
        "balance-leader-scheduler").1.GetSchedulers
      = [{ Typ := "evict-leader", Args := some ["1"], Disable := false },
         { Typ := "balance-leader", Args := none, Disable := true }] :=
  ⟨rfl, rfl, (RemoveSchedulerCfg_default sampleFactory sampleIsDefault
    (scheduleOption.example
      [{ Typ := "evict-leader", Args := some ["1"], Disable := false },
       { Typ := "balance-leader", Args := none, Disable := false }] (fun _ => none))
    "balance-leader-scheduler"
    [{ Typ := "evict-leader", Args := some ["1"], Disable := false }]
    { Typ := "balance-leader", Args := none, Disable := false } []
    { GetName := "balance-leader-scheduler", GetType := "balance-leader" }
    rfl
    (by
      intro x hx
      rw [List.mem_singleton] at hx
      subst hx
      exact ⟨{ GetName := "evict-leader-scheduler-1", GetType := "evict-leader" }, rfl,
        by decide⟩)
    rfl rfl rfl).2.1⟩

/-- C7: non-default removal deletes the slot.  When the factory succeeds on the
scanned entries and the first configured scheduler whose instance name equals
the given name has a non-default instance type, `RemoveSchedulerCfg` returns
success and publishes the previous list with exactly that one entry removed,
all other entries in their original order and unchanged; no other cell changes. -/
theorem RemoveSchedulerCfg_nondefault (C : Factory) (D : String → Bool) (o : scheduleOption)
    (name : String) (pre : List SchedulerConfig) (c : SchedulerConfig)
    (post : List SchedulerConfig) (tmp : Scheduler)
    (hL : o.GetSchedulers = pre ++ c :: post)
    (hpre : ∀ x ∈ pre, ∃ t, C x.Typ x.Args = .ok t ∧ t.GetName ≠ name)
    (hc : C c.Typ c.Args = .ok tmp) (hn : tmp.GetName = name)
    (hd : D tmp.GetType = false) :
    (o.RemoveSchedulerCfg C D name).2 = none ∧
    (o.RemoveSchedulerCfg C D name).1.GetSchedulers = pre ++ post ∧
    (o.RemoveSchedulerCfg C D name).1 = o.store (o.v.setSchedulers (pre ++ post)) := by
  have hL2 : o.v.Schedulers = pre ++ c :: post := hL
  have hr : o.RemoveSchedulerCfg C D name
      = (o.store (o.v.setSchedulers (pre ++ post)), none) := by
    simp only [scheduleOption.RemoveSchedulerCfg, scheduleOption.load, ScheduleConfig.clone,
      hL2, RemoveSchedulerCfg.scan_reach C D name pre c post hpre, RemoveSchedulerCfg.scan,
      hc, hn, hd, if_true, take_drop_length_append]
    simp
  rw [hr]
  simp

/-- Witness of C7: evict-leader registered with args ["1"] and ["2"]; removing
evict-leader-scheduler-2 leaves exactly the entry with args ["1"]. -/
theorem RemoveSchedulerCfg_nondefault_witness :
    sampleFactory "evict-leader" (some ["2"])
      = .ok { GetName := "evict-leader-scheduler-2", GetType := "evict-leader" } ∧
    sampleIsDefault "evict-leader" = false ∧
    ((scheduleOption.example
        [{ Typ := "evict-leader", Args := some ["1"], Disable := false },
         { Typ := "evict-leader", Args := some ["2"], Disable := false }]
        (fun _ => none)).RemoveSchedulerCfg sampleFactory sampleIsDefault
        "evict-leader-scheduler-2").1.GetSchedulers
      = [{ Typ := "evict-leader", Args := some ["1"], Disable := false }] :=
  ⟨rfl, rfl, (RemoveSchedulerCfg_nondefault sampleFactory sampleIsDefault
    (scheduleOption.example
      [{ Typ := "evict-leader", Args := some ["1"], Disable := false },
       { Typ := "evict-leader", Args := some ["2"], Disable := false }] (fun _ => none))
    "evict-leader-scheduler-2"
    [{ Typ := "evict-leader", Args := some ["1"], Disable := false }]
    { Typ := "evict-leader", Args := some ["2"], Disable := false } []
    { GetName := "evict-leader-scheduler-2", GetType := "evict-leader" }
    rfl
    (by
      intro x hx
      rw [List.mem_singleton] at hx
      subst hx
      exact ⟨{ GetName := "evict-leader-scheduler-1", GetType := "evict-leader" }, rfl,
        by decide⟩)
    rfl rfl rfl).2.1⟩

/-- C8: `RemoveSchedulerCfg` changes nothing unless it reaches a name match.  If
the factory fails on a configured scheduler that the scan reaches (the entries
before it are accepted under other names), the call returns that error and the
state is unchanged; if the factory accepts every configured scheduler and no
instance name equals the given name, the call returns success and the state is
unchanged.  In general, a changed state means the scan reached a name match,
and a returned error is the factory error on a configured scheduler and leaves
the state unchanged. -/
theorem RemoveSchedulerCfg_unchanged (C : Factory) (D : String → Bool) (o : scheduleOption)
    (name : String) :
    (∀ pre c post e, o.GetSchedulers = pre ++ c :: post →
      (∀ x ∈ pre, ∃ t, C x.Typ x.Args = .ok t ∧ t.GetName ≠ name) →
      C c.Typ c.Args = .error e →
      o.RemoveSchedulerCfg C D name = (o, some e)) ∧
    ((∀ x ∈ o.GetSchedulers, ∃ t, C x.Typ x.Args = .ok t ∧ t.GetName ≠ name) →
      o.RemoveSchedulerCfg C D name = (o, none)) ∧
    ((o.RemoveSchedulerCfg C D name).1 ≠ o →
      ∃ pre c post tmp, o.GetSchedulers = pre ++ c :: post ∧
        (∀ x ∈ pre, ∃ t, C x.Typ x.Args = .ok t ∧ t.GetName ≠ name) ∧
        C c.Typ c.Args = .ok tmp ∧ tmp.GetName = name) ∧
    (∀ e, (o.RemoveSchedulerCfg C D name).2 = some e →
      (o.RemoveSchedulerCfg C D name).1 = o ∧
        ∃ c ∈ o.GetSchedulers, C c.Typ c.Args = .error e) := by
  refine ⟨?_, ?_, ?_, ?_⟩
  · intro pre c post e hL hpre hc
    have hL2 : o.v.Schedulers = pre ++ c :: post := hL
    simp only [scheduleOption.RemoveSchedulerCfg, scheduleOption.load, ScheduleConfig.clone,
      hL2, RemoveSchedulerCfg.scan_reach C D name pre c post hpre, RemoveSchedulerCfg.scan, hc]
  · intro h
    have := RemoveSchedulerCfg.scan_skip C D name o.v.Schedulers o.v.Schedulers 0 [] h
    rw [List.append_nil] at this
    simp only [scheduleOption.RemoveSchedulerCfg, scheduleOption.load, ScheduleConfig.clone,
      this, RemoveSchedulerCfg.scan]
  · intro hne
    rcases RemoveSchedulerCfg_cases C D o name with ⟨_, hr⟩ | ⟨_, _, _, _, _, _, _, hr⟩ |
      ⟨pre, c, post, tmp, hL, hpre, hc, hn, _⟩
    · rw [hr] at hne; exact absurd rfl hne
    · rw [hr] at hne; exact absurd rfl hne
    · exact ⟨pre, c, post, tmp, hL, hpre, hc, hn⟩
  · intro e he
    rcases RemoveSchedulerCfg_cases C D o name with ⟨_, hr⟩ | ⟨pre, c, post, e1, hL, _, hc, hr⟩ |
      ⟨_, _, _, _, _, _, _, _, hr⟩
    · rw [hr] at he; cases he
    · rw [hr] at he ⊢
      simp only [Option.some.injEq] at he
      subst he
      exact ⟨rfl, c, by rw [hL]; simp, hc⟩
    · rw [hr] at he; cases he

/-- Witness of C8: the sample factory rejects the entry with an empty type, met
after balance-leader, which has another name; and with only balance-leader
configured no instance is named foo. -/
theorem RemoveSchedulerCfg_unchanged_witness :
    (scheduleOption.example
        [{ Typ := "balance-leader", Args := none, Disable := false },
         { Typ := "", Args := none, Disable := false }]
        (fun _ => none)).RemoveSchedulerCfg sampleFactory sampleIsDefault "foo"
      = (scheduleOption.example
        [{ Typ := "balance-leader", Args := none, Disable := false },
         { Typ := "", Args := none, Disable := false }]
        (fun _ => none), some "scheduler not found") ∧
    (scheduleOption.example
        [{ Typ := "balance-leader", Args := none, Disable := false }]
        (fun _ => none)).RemoveSchedulerCfg sampleFactory sampleIsDefault "foo"
      = (scheduleOption.example
        [{ Typ := "balance-leader", Args := none, Disable := false }]
        (fun _ => none), none) :=
  ⟨(RemoveSchedulerCfg_unchanged sampleFactory sampleIsDefault _ "foo").1
      [{ Typ := "balance-leader", Args := none, Disable := false }]
      { Typ := "", Args := none, Disable := false } [] "scheduler not found" rfl
      (by
        intro x hx
        rw [List.mem_singleton] at hx
        subst hx
        exact ⟨{ GetName := "balance-leader-scheduler", GetType := "balance-leader" }, rfl,
          by decide⟩)
      rfl,
    (RemoveSchedulerCfg_unchanged sampleFactory sampleIsDefault _ "foo").2.1
      (by
        intro x hx
        have hx2 : x = { Typ := "balance-leader", Args := none, Disable := false } :=
          List.mem_singleton.1 hx
        subst hx2
        exact ⟨{ GetName := "balance-leader-scheduler", GetType := "balance-leader" }, rfl,
          by decide⟩)⟩

/-! ## Label properties -/

theorem CheckLabelProperty.inner_iff (cfg : StoreLabel) (labels : List StoreLabel) :
    CheckLabelProperty.inner cfg labels = true ↔
      ∃ l ∈ labels, cfg.Key = l.Key ∧ cfg.Value = l.Value := by
  induction labels with
  | nil => simp [CheckLabelProperty.inner]
  | cons l rest ih =>
    by_cases h : l.Key = cfg.Key ∧ l.Value = cfg.Value
    · simp [CheckLabelProperty.inner, h]
    · have h2 : ¬(cfg.Key = l.Key ∧ cfg.Value = l.Value) := fun hc => h ⟨hc.1.symm, hc.2.symm⟩
      simp only [CheckLabelProperty.inner, h, if_false, ih, List.mem_cons, exists_eq_or_imp, h2,
        false_or]

theorem CheckLabelProperty.outer_iff (labels pairs : List StoreLabel) :
    CheckLabelProperty.outer labels pairs = true ↔
      ∃ p ∈ pairs, ∃ l ∈ labels, p.Key = l.Key ∧ p.Value = l.Value := by
  induction pairs with
  | nil => simp [CheckLabelProperty.outer]
  | cons cfg rest ih =>
    by_cases h : CheckLabelProperty.inner cfg labels = true
    · have h2 := (CheckLabelProperty.inner_iff cfg labels).1 h
      simp only [CheckLabelProperty.outer, h, if_true, List.mem_cons, exists_eq_or_imp, true_iff]
      exact Or.inl h2
    · have h2 : ¬ ∃ l ∈ labels, cfg.Key = l.Key ∧ cfg.Value = l.Value :=
        fun hc => h ((CheckLabelProperty.inner_iff cfg labels).2 hc)
      rw [CheckLabelProperty.outer, if_neg h, ih]
      simp only [List.mem_cons, exists_eq_or_imp, h2, false_or]

/-- C9: for every label-property config, property type `t` and list of store
labels `L`, `CheckLabelProperty(t, L)` is true if and only if some pair
configured under `t` and some label of `L` have equal keys and equal values; so
it is false when `t` is not configured and when `L` is empty.  After setting
reject-leader/zone/z1, the labels [{zone:z1},{rack:r2}] give true. -/
theorem CheckLabelProperty_iff (o : scheduleOption) (typ : String) (labels : List StoreLabel) :
    (o.CheckLabelProperty typ labels = true ↔
      ∃ p ∈ GoMap.index o.labelProperty typ, ∃ l ∈ labels,
        p.Key = l.Key ∧ p.Value = l.Value) ∧
    (o.labelProperty typ = none → o.CheckLabelProperty typ labels = false) ∧
    o.CheckLabelProperty typ [] = false ∧
    ((scheduleOption.example [] (fun _ => none)).SetLabelProperty "reject-leader" "zone"
        "z1").CheckLabelProperty "reject-leader"
      [{ Key := "zone", Value := "z1" }, { Key := "rack", Value := "r2" }] = true := by
  have hiff : ∀ L : List StoreLabel, o.CheckLabelProperty typ L = true ↔
      ∃ p ∈ GoMap.index o.labelProperty typ, ∃ l ∈ L, p.Key = l.Key ∧ p.Value = l.Value :=
    fun L => CheckLabelProperty.outer_iff L (GoMap.index o.labelProperty typ)
  refine ⟨hiff labels, ?_, ?_, by decide⟩
  · intro hnone
    rw [← Bool.not_eq_true, hiff]
    simp [GoMap.index, hnone]
  · rw [← Bool.not_eq_true, hiff]
    simp

/-- Witness of C9: no pair is configured under reject-leader in the state
without label properties. -/
theorem CheckLabelProperty_iff_witness :
    (scheduleOption.example [] (fun _ => none)).labelProperty "reject-leader" = none ∧
    (scheduleOption.example [] (fun _ => none)).CheckLabelProperty "reject-leader"
      [{ Key := "zone", Value := "z1" }] = false :=
  ⟨rfl, (CheckLabelProperty_iff (scheduleOption.example [] (fun _ => none)) "reject-leader"
    [{ Key := "zone", Value := "z1" }]).2.1 rfl⟩

theorem DeleteLabelProperty.loop_eq (labelKey labelValue : String) :
    ∀ (old acc : List StoreLabel),
      DeleteLabelProperty.loop labelKey labelValue acc old =
        acc ++ old.filter (fun l => !(l.isPair labelKey labelValue)) := by
  intro old
  induction old with
  | nil => intro acc; simp [DeleteLabelProperty.loop]
  | cons l rest ih =>
    intro acc
    by_cases h : l.Key = labelKey ∧ l.Value = labelValue
    · rw [DeleteLabelProperty.loop, if_pos h, ih,
        List.filter_cons_of_neg (by simp [StoreLabel.isPair, h])]
    · rw [DeleteLabelProperty.loop, if_neg h, ih,
        List.filter_cons_of_pos (by simp [StoreLabel.isPair, h]), List.append_assoc]
      rfl

theorem GoMap.index_set_self {V : Type} (m : GoMap (List V)) (k : String) (x : List V) :
    GoMap.index (GoMap.set m k x) k = x := by
  simp [GoMap.index, GoMap.set]

/-- The label-property table after `DeleteLabelProperty`. -/
theorem DeleteLabelProperty_labelProperty (o : scheduleOption) (typ labelKey labelValue : String) :
    (o.DeleteLabelProperty typ labelKey labelValue).labelProperty =
      fun j =>
        if j = typ then
          if (GoMap.index o.labelProperty typ).filter
              (fun l => !(l.isPair labelKey labelValue)) = [] then none
          else some ((GoMap.index o.labelProperty typ).filter
              (fun l => !(l.isPair labelKey labelValue)))
        else o.labelProperty j := by
  simp only [scheduleOption.DeleteLabelProperty, LabelPropertyConfig.clone,
    scheduleOption.loadLabelPropertyConfig, DeleteLabelProperty.loop_eq,
    GoMap.index_set_self, List.nil_append]
  generalize (GoMap.index o.labelProperty typ).filter
    (fun l => !(l.isPair labelKey labelValue)) = F
  funext j
  cases F with
  | nil =>
    by_cases hj : j = typ
    · simp [GoMap.delete, hj]
    · simp [GoMap.delete, GoMap.set, hj]
  | cons x xs =>
    by_cases hj : j = typ
    · simp [GoMap.set, hj]
    · simp [GoMap.set, hj]

/-- C10: for every label-property config and every `(t, k, v)`, after
`DeleteLabelProperty(t, k, v)` the list under `t` is the previous list with
every entry equal to `(k, v)` removed and the other entries in their original
order; the key `t` is absent exactly when that list is empty; the lists of all
other types are unchanged; and `CheckLabelProperty(t, [{k, v}])` is false. -/
theorem DeleteLabelProperty_spec (o : scheduleOption) (typ labelKey labelValue : String) :
    GoMap.index (o.DeleteLabelProperty typ labelKey labelValue).labelProperty typ
      = (GoMap.index o.labelProperty typ).filter (fun l => !(l.isPair labelKey labelValue)) ∧
    ((o.DeleteLabelProperty typ labelKey labelValue).labelProperty typ = none ↔
      (GoMap.index o.labelProperty typ).filter (fun l => !(l.isPair labelKey labelValue)) = []) ∧
    (∀ other, other ≠ typ →
      (o.DeleteLabelProperty typ labelKey labelValue).labelProperty other
        = o.labelProperty other) ∧
    (o.DeleteLabelProperty typ labelKey labelValue).CheckLabelProperty typ
      [{ Key := labelKey, Value := labelValue }] = false := by
  have hlp := DeleteLabelProperty_labelProperty o typ labelKey labelValue
  have hidx : GoMap.index (o.DeleteLabelProperty typ labelKey labelValue).labelProperty typ
      = (GoMap.index o.labelProperty typ).filter
          (fun l => !(l.isPair labelKey labelValue)) := by
    rw [hlp]
    generalize (GoMap.index o.labelProperty typ).filter
      (fun l => !(l.isPair labelKey labelValue)) = F
    cases F with
    | nil => simp [GoMap.index]
    | cons x xs => simp [GoMap.index]
  refine ⟨hidx, ?_, ?_, ?_⟩
  · rw [hlp]
    generalize (GoMap.index o.labelProperty typ).filter
      (fun l => !(l.isPair labelKey labelValue)) = F
    cases F with
    | nil => simp
    | cons x xs => simp
  · intro other hne
    rw [hlp]
    simp [hne]
  · rw [← Bool.not_eq_true]
    unfold scheduleOption.CheckLabelProperty
    rw [CheckLabelProperty.outer_iff, hidx]
    rintro ⟨p, hp, l, hl, hk, hv⟩
    rw [List.mem_singleton] at hl
    subst hl
    have := (List.mem_filter.1 hp).2
    simp [StoreLabel.isPair, hk, hv] at this

/-- Witness of C10: after setting reject-leader/zone/z1 and deleting that exact
pair, the key reject-leader is gone, the check on the labels
[{zone:z1},{rack:r2}] is false, and another type is as it was. -/
theorem DeleteLabelProperty_spec_witness :
    ((scheduleOption.example [] (fun _ => none)).SetLabelProperty "reject-leader" "zone"
        "z1").labelProperty "reject-leader" = some [{ Key := "zone", Value := "z1" }] ∧
    ((((scheduleOption.example [] (fun _ => none)).SetLabelProperty "reject-leader" "zone"
        "z1").DeleteLabelProperty "reject-leader" "zone" "z1").labelProperty
        "reject-leader" = none) ∧
    ((((scheduleOption.example [] (fun _ => none)).SetLabelProperty "reject-leader" "zone"
        "z1").DeleteLabelProperty "reject-leader" "zone" "z1").labelProperty "other"
      = ((scheduleOption.example [] (fun _ => none)).SetLabelProperty "reject-leader" "zone"
        "z1").labelProperty "other") ∧
    (((scheduleOption.example [] (fun _ => none)).SetLabelProperty "reject-leader" "zone"
        "z1").DeleteLabelProperty "reject-leader" "zone" "z1").CheckLabelProperty
        "reject-leader"
        [{ Key := "zone", Value := "z1" }, { Key := "rack", Value := "r2" }] = false :=
  ⟨by decide,
    (DeleteLabelProperty_spec
      ((scheduleOption.example [] (fun _ => none)).SetLabelProperty "reject-leader" "zone" "z1")
      "reject-leader" "zone" "z1").2.1.2 (by decide),
    (DeleteLabelProperty_spec
      ((scheduleOption.example [] (fun _ => none)).SetLabelProperty "reject-leader" "zone" "z1")
      "reject-leader" "zone" "z1").2.2.1 "other" (by decide),
    by decide⟩

/-! ## DeleteLabelProperty and SetLabelProperty on absent and present pairs -/

theorem StoreLabel.isPair_iff (l : StoreLabel) (k v : String) :
    l.isPair k v = true ↔ l = { Key := k, Value := v } := by
  cases l
  simp [StoreLabel.isPair]

theorem scheduleOption.eq_iff_labelProperty (o : scheduleOption) (lp : LabelPropertyConfig) :
    ({ o with labelProperty := lp } : scheduleOption) = o ↔ lp = o.labelProperty := by
  constructor
  · intro h
    have := congrArg scheduleOption.labelProperty h
    exact this
  · intro h
    subst h
    rfl

theorem DeleteLabelProperty_eq (o : scheduleOption) (typ labelKey labelValue : String) :
    o.DeleteLabelProperty typ labelKey labelValue =
      { o with labelProperty :=
          (o.DeleteLabelProperty typ labelKey labelValue).labelProperty } := rfl

/-- C11, corrected.  The claim as stated fails: when the type is configured with
an empty list, no entry equal to the pair is configured under it, yet
`DeleteLabelProperty` drops the key, so the config afterwards (no key) differs
from the config before (key present). -/
theorem DeleteLabelProperty_absent_counterexample :
    ({ Key := "zone", Value := "z1" } : StoreLabel) ∉
      GoMap.index (scheduleOption.example []
        (fun t => if t = "reject-leader" then some [] else none)).labelProperty
        "reject-leader" ∧
    (scheduleOption.example []
        (fun t => if t = "reject-leader" then some [] else none)).labelProperty
        "reject-leader" = some [] ∧
    ((scheduleOption.example []
        (fun t => if t = "reject-leader" then some [] else none)).DeleteLabelProperty
        "reject-leader" "zone" "z1").labelProperty "reject-leader" = none := by
  decide

/-- C11, as amended: deleting a non-existent label property is a silent no-op
unless the type is configured with an empty list: for every label-property
config and every `(t, k, v)` such that no entry equal to `(k, v)` is configured
under `t`, the state after `DeleteLabelProperty(t, k, v)` equals the state
before exactly when `t` is not configured with an empty list (so whenever `t` is
not configured at all or has a non-empty list). -/
theorem DeleteLabelProperty_absent (o : scheduleOption) (typ labelKey labelValue : String)
    (h : ({ Key := labelKey, Value := labelValue } : StoreLabel) ∉
      GoMap.index o.labelProperty typ) :
    (o.DeleteLabelProperty typ labelKey labelValue = o ↔ o.labelProperty typ ≠ some []) ∧
    (o.labelProperty typ = none → o.DeleteLabelProperty typ labelKey labelValue = o) := by
  have hF : (GoMap.index o.labelProperty typ).filter
      (fun l => !(l.isPair labelKey labelValue)) = GoMap.index o.labelProperty typ := by
    rw [List.filter_eq_self]
    intro l hl
    cases hp : l.isPair labelKey labelValue with
    | false => rfl
    | true =>
      rw [StoreLabel.isPair_iff] at hp
      rw [hp] at hl
      exact absurd hl h
  have hiff : o.DeleteLabelProperty typ labelKey labelValue = o ↔
      o.labelProperty typ ≠ some [] := by
    rw [DeleteLabelProperty_eq, scheduleOption.eq_iff_labelProperty,
      DeleteLabelProperty_labelProperty, hF]
    constructor
    · intro heq hsome
      have := congrFun heq typ
      simp [GoMap.index, hsome] at this
    · intro hne
      funext j
      by_cases hj : j = typ
      · subst hj
        cases hlp : o.labelProperty j with
        | none => simp [GoMap.index, hlp]
        | some L =>
          cases L with
          | nil => exact absurd hlp hne
          | cons x xs => simp [GoMap.index, hlp]
      · simp [hj]
  refine ⟨hiff, fun hnone => hiff.2 ?_⟩
  rw [hnone]
  exact fun hc => Option.noConfusion hc

/-- Witness of C11 as amended: deleting reject-leader/zone/z2 when only
reject-leader/zone/z1 is configured. -/
theorem DeleteLabelProperty_absent_witness :
    ({ Key := "zone", Value := "z2" } : StoreLabel) ∉
      GoMap.index (scheduleOption.example []
        (fun t => if t = "reject-leader" then some [{ Key := "zone", Value := "z1" }]
          else none)).labelProperty "reject-leader" ∧
    (scheduleOption.example []
        (fun t => if t = "reject-leader" then some [{ Key := "zone", Value := "z1" }]
          else none)).DeleteLabelProperty "reject-leader" "zone" "z2"
      = scheduleOption.example []
        (fun t => if t = "reject-leader" then some [{ Key := "zone", Value := "z1" }]
          else none) :=
  ⟨by decide,
    (DeleteLabelProperty_absent
      (scheduleOption.example []
        (fun t => if t = "reject-leader" then some [{ Key := "zone", Value := "z1" }]
          else none))
      "reject-leader" "zone" "z2" (by decide)).1.2 (by decide)⟩

theorem SetLabelProperty.found_iff (labelKey labelValue : String) (L : List StoreLabel) :
    SetLabelProperty.found labelKey labelValue L = true ↔
      ({ Key := labelKey, Value := labelValue } : StoreLabel) ∈ L := by
  induction L with
  | nil => simp [SetLabelProperty.found]
  | cons l rest ih =>
    by_cases h : l.Key = labelKey ∧ l.Value = labelValue
    · have hl : l = { Key := labelKey, Value := labelValue } := by
        cases l; simp at h; simp [h]
      rw [SetLabelProperty.found, if_pos h]
      simp [hl]
    · have hl : ¬({ Key := labelKey, Value := labelValue } : StoreLabel) = l := by
        intro hc; subst hc; exact h ⟨rfl, rfl⟩
      rw [SetLabelProperty.found, if_neg h, ih]
      simp [hl]

theorem SetLabelProperty_present (o : scheduleOption) (typ labelKey labelValue : String)
    (h : ({ Key := labelKey, Value := labelValue } : StoreLabel) ∈
      GoMap.index o.labelProperty typ) :
    o.SetLabelProperty typ labelKey labelValue = o := by
  have := (SetLabelProperty.found_iff labelKey labelValue _).2 h
  simp only [scheduleOption.SetLabelProperty, LabelPropertyConfig.clone,
    scheduleOption.loadLabelPropertyConfig, this, if_true]

theorem SetLabelProperty_absent (o : scheduleOption) (typ labelKey labelValue : String)
    (h : ({ Key := labelKey, Value := labelValue } : StoreLabel) ∉
      GoMap.index o.labelProperty typ) :
    o.SetLabelProperty typ labelKey labelValue =
      { o with labelProperty :=
          (GoMap.set o.labelProperty typ
            (GoMap.index o.labelProperty typ ++
              [{ Key := labelKey, Value := labelValue }])) } := by
  have hf : SetLabelProperty.found labelKey labelValue (GoMap.index o.labelProperty typ)
      = false := by
    rw [← Bool.not_eq_true, SetLabelProperty.found_iff]
    exact h
  simp only [scheduleOption.SetLabelProperty, LabelPropertyConfig.clone,
    scheduleOption.loadLabelPropertyConfig, hf, Bool.false_eq_true, if_false]

/-- C12: `SetLabelProperty` is idempotent on `(type, key, value)`.  If `(k, v)`
is already configured under `t` the call leaves the state unchanged; otherwise
it appends `(k, v)` at the end of the list of `t`, leaving the lists of all
other types (and every other cell) unchanged; hence two consecutive calls give
the same state as one. -/
theorem SetLabelProperty_idempotent (o : scheduleOption) (typ labelKey labelValue : String) :
    (({ Key := labelKey, Value := labelValue } : StoreLabel) ∈ GoMap.index o.labelProperty typ →
      o.SetLabelProperty typ labelKey labelValue = o) ∧
    (({ Key := labelKey, Value := labelValue } : StoreLabel) ∉ GoMap.index o.labelProperty typ →
      GoMap.index (o.SetLabelProperty typ labelKey labelValue).labelProperty typ
        = GoMap.index o.labelProperty typ ++ [{ Key := labelKey, Value := labelValue }] ∧
      (∀ other, other ≠ typ →
        (o.SetLabelProperty typ labelKey labelValue).labelProperty other
          = o.labelProperty other) ∧
      o.SetLabelProperty typ labelKey labelValue =
        { o with labelProperty := (o.SetLabelProperty typ labelKey labelValue).labelProperty }) ∧
    (o.SetLabelProperty typ labelKey labelValue).SetLabelProperty typ labelKey labelValue
      = o.SetLabelProperty typ labelKey labelValue := by
  refine ⟨SetLabelProperty_present o typ labelKey labelValue, ?_, ?_⟩
  · intro h
    rw [SetLabelProperty_absent o typ labelKey labelValue h]
    refine ⟨GoMap.index_set_self _ _ _, ?_, rfl⟩
    intro other hne
    simp [GoMap.set, hne]
  · by_cases h : ({ Key := labelKey, Value := labelValue } : StoreLabel) ∈
        GoMap.index o.labelProperty typ
    · rw [SetLabelProperty_present o typ labelKey labelValue h]
      exact SetLabelProperty_present o typ labelKey labelValue h
    · apply SetLabelProperty_present
      rw [SetLabelProperty_absent o typ labelKey labelValue h]
      show _ ∈ GoMap.index (GoMap.set _ _ _) typ
      rw [GoMap.index_set_self]
      simp

/-- Witness of C12: setting reject-leader/zone/z1 on a state without label
properties puts the pair under reject-leader; setting it again changes nothing. -/
theorem SetLabelProperty_idempotent_witness :
    GoMap.index ((scheduleOption.example [] (fun _ => none)).SetLabelProperty
        "reject-leader" "zone" "z1").labelProperty "reject-leader"
      = [{ Key := "zone", Value := "z1" }] ∧
    ((scheduleOption.example [] (fun _ => none)).SetLabelProperty
        "reject-leader" "zone" "z1").SetLabelProperty "reject-leader" "zone" "z1"
      = (scheduleOption.example [] (fun _ => none)).SetLabelProperty
        "reject-leader" "zone" "z1" :=
  ⟨((SetLabelProperty_idempotent (scheduleOption.example [] (fun _ => none))
      "reject-leader" "zone" "z1").2.1 (by decide)).1,
    (SetLabelProperty_idempotent
      ((scheduleOption.example [] (fun _ => none)).SetLabelProperty "reject-leader" "zone" "z1")
      "reject-leader" "zone" "z1").1 (by decide)⟩

/-! ## Readers -/

theorem Go.intOfUint64_of_lt (n : Nat) (h : n < 2 ^ 63) : Go.intOfUint64 n = (n : Int) := by
  unfold Go.intOfUint64 Go.wrapInt
  omega

/-- C13, corrected.  The claim as stated fails for `GetMaxReplicas`: the getters
convert the `uint64` field with `int(...)`, so a namespace whose configured
`MaxReplicas` is 2^63 is reported as -2^63. -/
theorem namespace_resolution_counterexample :
    ({ scheduleOption.example [] (fun _ => none) with
        ns := fun n => if n = "ns1" then some (NamespaceConfig.example 4 (2 ^ 63)) else none }
      : scheduleOption).ns "ns1" = some (NamespaceConfig.example 4 (2 ^ 63)) ∧
    ({ scheduleOption.example [] (fun _ => none) with
        ns := fun n => if n = "ns1" then some (NamespaceConfig.example 4 (2 ^ 63)) else none }
      : scheduleOption).GetMaxReplicas "ns1" = -(2 ^ 63) ∧
    ({ scheduleOption.example [] (fun _ => none) with
        ns := fun n => if n = "ns1" then some (NamespaceConfig.example 4 (2 ^ 63)) else none }
      : scheduleOption).GetMaxReplicas "ns1"
      ≠ (((NamespaceConfig.example 4 (2 ^ 63)).MaxReplicas : Nat) : Int) := by
  decide

/-- C13, as amended: namespace resolution.  For each of `GetLeaderScheduleLimit`,
`GetRegionScheduleLimit`, `GetReplicaScheduleLimit`, `GetMergeScheduleLimit` and
`GetHotRegionScheduleLimit` and every name, the result is the configured value
of that namespace when the name has a cell in the namespace map, and the value
of the global schedule config when it has none.  `GetMaxReplicas` resolves in
the same way (namespace cell, else the replication config) and returns the
configured `MaxReplicas` converted from `uint64` to `int`, which is the
configured value whenever that is below 2^63. -/
theorem namespace_resolution (o : scheduleOption) (name : String) :
    (∀ c, o.ns name = some c →
      o.GetLeaderScheduleLimit name = c.LeaderScheduleLimit ∧
      o.GetRegionScheduleLimit name = c.RegionScheduleLimit ∧
      o.GetReplicaScheduleLimit name = c.ReplicaScheduleLimit ∧
      o.GetMergeScheduleLimit name = c.MergeScheduleLimit ∧
      o.GetHotRegionScheduleLimit name = c.HotRegionScheduleLimit ∧
      o.GetMaxReplicas name = Go.intOfUint64 c.MaxReplicas ∧
      (c.MaxReplicas < 2 ^ 63 → o.GetMaxReplicas name = (c.MaxReplicas : Int))) ∧
    (o.ns name = none →
      o.GetLeaderScheduleLimit name = o.v.LeaderScheduleLimit ∧
      o.GetRegionScheduleLimit name = o.v.RegionScheduleLimit ∧
      o.GetReplicaScheduleLimit name = o.v.ReplicaScheduleLimit ∧
      o.GetMergeScheduleLimit name = o.v.MergeScheduleLimit ∧
      o.GetHotRegionScheduleLimit name = o.v.HotRegionScheduleLimit ∧
      o.GetMaxReplicas name = Go.intOfUint64 o.rep.MaxReplicas ∧
      (o.rep.MaxReplicas < 2 ^ 63 → o.GetMaxReplicas name = (o.rep.MaxReplicas : Int))) := by
  constructor
  · intro c hc
    have hg : o.getNS name = some c := hc
    have hm : o.GetMaxReplicas name = Go.intOfUint64 c.MaxReplicas := by
      simp only [scheduleOption.GetMaxReplicas, hg, namespaceOption.GetMaxReplicas]
    refine ⟨?_, ?_, ?_, ?_, ?_, hm, fun hlt => ?_⟩
    · simp only [scheduleOption.GetLeaderScheduleLimit, hg,
        namespaceOption.GetLeaderScheduleLimit]
    · simp only [scheduleOption.GetRegionScheduleLimit, hg,
        namespaceOption.GetRegionScheduleLimit]
    · simp only [scheduleOption.GetReplicaScheduleLimit, hg,
        namespaceOption.GetReplicaScheduleLimit]
    · simp only [scheduleOption.GetMergeScheduleLimit, hg,
        namespaceOption.GetMergeScheduleLimit]
    · simp only [scheduleOption.GetHotRegionScheduleLimit, hg,
        namespaceOption.GetHotRegionScheduleLimit]
    · rw [hm, Go.intOfUint64_of_lt _ hlt]
  · intro hc
    have hg : o.getNS name = none := hc
    have hm : o.GetMaxReplicas name = Go.intOfUint64 o.rep.MaxReplicas := by
      simp only [scheduleOption.GetMaxReplicas, hg, Replication.GetMaxReplicas]
    refine ⟨?_, ?_, ?_, ?_, ?_, hm, fun hlt => ?_⟩
    · simp only [scheduleOption.GetLeaderScheduleLimit, hg, scheduleOption.load]
    · simp only [scheduleOption.GetRegionScheduleLimit, hg, scheduleOption.load]
    · simp only [scheduleOption.GetReplicaScheduleLimit, hg, scheduleOption.load]
    · simp only [scheduleOption.GetMergeScheduleLimit, hg, scheduleOption.load]
    · simp only [scheduleOption.GetHotRegionScheduleLimit, hg, scheduleOption.load]
    · rw [hm, Go.intOfUint64_of_lt _ hlt]

/-- Witness of C13 as amended: namespace ns1 is configured with limits 4 and
three replicas; ns2 is not configured and falls back to the global values. -/
theorem namespace_resolution_witness :
    ({ scheduleOption.example [] (fun _ => none) with
        ns := fun n => if n = "ns1" then some (NamespaceConfig.example 4 3) else none }
      : scheduleOption).GetLeaderScheduleLimit "ns1" = 4 ∧
    ({ scheduleOption.example [] (fun _ => none) with
        ns := fun n => if n = "ns1" then some (NamespaceConfig.example 4 3) else none }
      : scheduleOption).GetMaxReplicas "ns1" = 3 ∧
    ({ scheduleOption.example [] (fun _ => none) with
        ns := fun n => if n = "ns1" then some (NamespaceConfig.example 4 3) else none }
      : scheduleOption).GetLeaderScheduleLimit "ns2" = 0 :=
  ⟨((namespace_resolution
      ({ scheduleOption.example [] (fun _ => none) with
        ns := fun n => if n = "ns1" then some (NamespaceConfig.example 4 3) else none })
      "ns1").1 (NamespaceConfig.example 4 3) (by decide)).1,
    ((namespace_resolution
      ({ scheduleOption.example [] (fun _ => none) with
        ns := fun n => if n = "ns1" then some (NamespaceConfig.example 4 3) else none })
      "ns1").1 (NamespaceConfig.example 4 3) (by decide)).2.2.2.2.2.2 (by decide),
    ((namespace_resolution
      ({ scheduleOption.example [] (fun _ => none) with
        ns := fun n => if n = "ns1" then some (NamespaceConfig.example 4 3) else none })
      "ns2").2 (by decide)).1⟩

/-- C14: for every published schedule config, each feature predicate is the
negation of its raw flag. -/
theorem feature_predicates (o : scheduleOption) :
    o.IsRaftLearnerEnabled = !o.v.DisableLearner ∧
    o.IsRemoveDownReplicaEnabled = !o.v.DisableRemoveDownReplica ∧
    o.IsReplaceOfflineReplicaEnabled = !o.v.DisableReplaceOfflineReplica ∧
    o.IsMakeUpReplicaEnabled = !o.v.DisableMakeUpReplica ∧
    o.IsRemoveExtraReplicaEnabled = !o.v.DisableRemoveExtraReplica ∧
    o.IsLocationReplacementEnabled = !o.v.DisableLocationReplacement ∧
    o.IsNamespaceRelocationEnabled = !o.v.DisableNamespaceRelocation :=
  ⟨rfl, rfl, rfl, rfl, rfl, rfl, rfl⟩

/-- C15: if `LoadConfig` returns an error, `reload` returns that error and
mutates nothing: every cell (schedule config with its scheduler list,
replication config, namespace map, label-property config, cluster version, PD
server config) is as before the call. -/
theorem reload_load_error (o : scheduleOption) (kv : KV) (e : Error)
    (h : kv.loadErr = some e) :
    (∀ cfg, (kv.LoadConfig cfg).2.2 = some e) ∧ o.reload kv = (o, some e) := by
  constructor
  · intro cfg
    simp only [KV.LoadConfig, h]
  · simp only [scheduleOption.reload, KV.LoadConfig, h]

/-- Witness of C15: the store holds a document with another scheduler list and
its load fails. -/
theorem reload_load_error_witness :
    ({ config := some (Config.example [{ Typ := "B", Args := none, Disable := true }]),
       saveErr := none, loadErr := some "load failed" } : KV).loadErr = some "load failed" ∧
    (scheduleOption.example [{ Typ := "A", Args := none, Disable := false }]
        (fun _ => none)).reload
      { config := some (Config.example [{ Typ := "B", Args := none, Disable := true }]),
        saveErr := none, loadErr := some "load failed" }
      = (scheduleOption.example [{ Typ := "A", Args := none, Disable := false }]
          (fun _ => none), some "load failed") :=
  ⟨rfl, (reload_load_error _ _ "load failed" rfl).2⟩

/-! ## Float64 arithmetic

Bounds on rounding to the nearest float64: it keeps the sign, it does not cross
an integer of magnitude at most 2^53, and it moves a number below 2^k by at most
2^(k - 54). -/

theorem F64.floor_le_rne (q : ℚ) : ⌊q⌋ ≤ F64.rne q := by
  unfold F64.rne
  simp only
  split_ifs <;> omega

theorem F64.int_le_rne (q : ℚ) (m : Int) (h : (m : ℚ) ≤ q) : m ≤ F64.rne q :=
  le_trans (Int.le_floor.2 h) (F64.floor_le_rne q)

theorem F64.rne_le_int (q : ℚ) (m : Int) (h : q ≤ (m : ℚ)) : F64.rne q ≤ m := by
  unfold F64.rne
  simp only
  have hf : ⌊q⌋ ≤ m := Int.floor_le_floor h |>.trans (by simp)
  split_ifs with h1 h2
  · exact hf
  · have : (⌊q⌋ : ℚ) < m := by linarith
    have : ⌊q⌋ < m := by exact_mod_cast this
    omega
  · exact hf
  · have hr : q - (⌊q⌋ : ℚ) = 1 / 2 := le_antisymm (not_lt.1 h2) (not_lt.1 h1)
    have : (⌊q⌋ : ℚ) < m := by linarith
    have : ⌊q⌋ < m := by exact_mod_cast this
    omega

theorem F64.rne_le_add_half (q : ℚ) : (F64.rne q : ℚ) ≤ q + 1 / 2 := by
  unfold F64.rne
  simp only
  have hfl : (⌊q⌋ : ℚ) ≤ q := Int.floor_le q
  split_ifs with h1 h2
  · linarith
  · push_cast; linarith
  · linarith
  · push_cast; linarith [not_lt.1 h1]

theorem F64.rne_eq (q : ℚ) (n : Int) (h1 : (n : ℚ) - 1 / 2 < q) (h2 : q < (n : ℚ) + 1 / 2) :
    F64.rne q = n := by
  unfold F64.rne
  simp only
  rcases le_or_lt (n : ℚ) q with h | h
  · have hf : ⌊q⌋ = n := Int.floor_eq_iff.2 ⟨h, by linarith⟩
    rw [hf, if_pos (by linarith)]
  · have hf : ⌊q⌋ = n - 1 := Int.floor_eq_iff.2 ⟨by push_cast; linarith, by push_cast; linarith⟩
    rw [hf, if_neg (by push_cast; linarith), if_pos (by push_cast; linarith)]
    omega

theorem F64.ulp_pos (x : ℚ) : 0 < F64.ulp x := by
  unfold F64.ulp
  positivity

theorem F64.round_nonneg (x : ℚ) (h : 0 ≤ x) : 0 ≤ F64.round x := by
  unfold F64.round
  have h1 : (0 : Int) ≤ F64.rne (x / F64.ulp x) :=
    F64.int_le_rne _ 0 (by simpa using div_nonneg h (F64.ulp_pos x).le)
  have h2 : (0 : ℚ) ≤ (F64.rne (x / F64.ulp x) : ℚ) := by exact_mod_cast h1
  exact mul_nonneg h2 (F64.ulp_pos x).le

theorem F64.round_nonpos (x : ℚ) (h : x ≤ 0) : F64.round x ≤ 0 := by
  unfold F64.round
  have h1 : F64.rne (x / F64.ulp x) ≤ 0 :=
    F64.rne_le_int _ 0 (by simpa using div_nonpos_of_nonpos_of_nonneg h (F64.ulp_pos x).le)
  have h2 : (F64.rne (x / F64.ulp x) : ℚ) ≤ 0 := by exact_mod_cast h1
  exact mul_nonpos_of_nonpos_of_nonneg h2 (F64.ulp_pos x).le

theorem F64.round_zero : F64.round 0 = 0 :=
  le_antisymm (F64.round_nonpos 0 le_rfl) (F64.round_nonneg 0 le_rfl)

/-- The binade of a positive number. -/
theorem F64.log_spec (x : ℚ) (hx : 0 < x) :
    (2 : ℚ) ^ Int.log 2 x ≤ x ∧ x < (2 : ℚ) ^ (Int.log 2 x + 1) := by
  have h1 := Int.zpow_log_le_self (b := 2) (by norm_num) hx
  have h2 := Int.lt_zpow_succ_log_self (b := 2) (by norm_num) x
  exact ⟨by simpa using h1, by simpa using h2⟩

theorem F64.log_eq (x : ℚ) (e : Int) (h1 : (2 : ℚ) ^ e ≤ x) (h2 : x < (2 : ℚ) ^ (e + 1)) :
    Int.log 2 x = e := by
  have hx : 0 < x := lt_of_lt_of_le (by positivity) h1
  obtain ⟨h3, h4⟩ := F64.log_spec x hx
  have a : e < Int.log 2 x + 1 := by
    by_contra hc
    have : (2 : ℚ) ^ (Int.log 2 x + 1) ≤ (2 : ℚ) ^ e :=
      zpow_le_zpow_right₀ (by norm_num) (not_lt.1 hc)
    linarith
  have b : Int.log 2 x < e + 1 := by
    by_contra hc
    have : (2 : ℚ) ^ (e + 1) ≤ (2 : ℚ) ^ (Int.log 2 x) :=
      zpow_le_zpow_right₀ (by norm_num) (not_lt.1 hc)
    linarith
  omega

theorem F64.ulp_of_pos (x : ℚ) (hx : 0 < x) :
    F64.ulp x = (2 : ℚ) ^ (max (Int.log 2 x) (-1022) - 52) := by
  unfold F64.ulp
  rw [abs_of_pos hx]

theorem F64.two_zpow_sub (e : Int) (h : e ≤ 52) :
    (2 : ℚ) ^ (e - 52) * (2 : ℚ) ^ (52 - e).toNat = 1 := by
  have h1 : ((2 : ℚ) ^ (52 - e).toNat) = (2 : ℚ) ^ (((52 - e).toNat : Nat) : Int) :=
    (zpow_natCast _ _).symm
  rw [h1, Int.toNat_of_nonneg (by omega), ← zpow_add₀ (by norm_num)]
  have : e - 52 + (52 - e) = 0 := by ring
  rw [this, zpow_zero]

theorem F64.round_ge_int (x : ℚ) (n : Int) (h0 : 0 < n) (h53 : n ≤ 2 ^ 53) (h : (n : ℚ) ≤ x) :
    (n : ℚ) ≤ F64.round x := by
  have hn1 : (1 : ℚ) ≤ (n : ℚ) := by exact_mod_cast h0
  have hx : 0 < x := by linarith
  obtain ⟨hlo, hhi⟩ := F64.log_spec x hx
  have he : 0 ≤ Int.log 2 x := by
    by_contra hc
    have : (2 : ℚ) ^ (Int.log 2 x + 1) ≤ (2 : ℚ) ^ (0 : Int) :=
      zpow_le_zpow_right₀ (by norm_num) (by omega)
    rw [zpow_zero] at this
    linarith
  have hu : F64.ulp x = (2 : ℚ) ^ (Int.log 2 x - 52) := by
    rw [F64.ulp_of_pos x hx, max_eq_left (by omega)]
  unfold F64.round
  rw [hu]
  generalize Int.log 2 x = e at *
  have hupos : (0 : ℚ) < (2 : ℚ) ^ (e - 52) := by positivity
  rcases le_or_lt e 52 with hc | hc
  · have hone := F64.two_zpow_sub e hc
    have hdiv : x / (2 : ℚ) ^ (e - 52) = x * (2 : ℚ) ^ (52 - e).toNat := by
      rw [div_eq_iff hupos.ne', mul_assoc, mul_comm ((2 : ℚ) ^ (52 - e).toNat), hone, mul_one]
    have hN : ((n * 2 ^ (52 - e).toNat : Int) : ℚ) ≤ x / (2 : ℚ) ^ (e - 52) := by
      rw [hdiv]
      push_cast
      exact mul_le_mul_of_nonneg_right h (by positivity)
    have h1 := F64.int_le_rne _ _ hN
    have h2 : ((n * 2 ^ (52 - e).toNat : Int) : ℚ) ≤ (F64.rne (x / (2 : ℚ) ^ (e - 52)) : ℚ) := by
      exact_mod_cast h1
    have h3 := mul_le_mul_of_nonneg_right h2 hupos.le
    have h4 : ((n * 2 ^ (52 - e).toNat : Int) : ℚ) * (2 : ℚ) ^ (e - 52) = n := by
      push_cast
      rw [mul_assoc, mul_comm ((2 : ℚ) ^ (52 - e).toNat), hone, mul_one]
    rw [h4] at h3
    exact h3
  · have hsplit : (2 : ℚ) ^ e = (2 : ℚ) ^ (52 : Int) * (2 : ℚ) ^ (e - 52) := by
      rw [← zpow_add₀ (by norm_num)]
      congr 1
      ring
    have hN : ((2 ^ 52 : Int) : ℚ) ≤ x / (2 : ℚ) ^ (e - 52) := by
      rw [le_div_iff₀ hupos]
      have : ((2 ^ 52 : Int) : ℚ) = (2 : ℚ) ^ (52 : Int) := by norm_num
      rw [this, ← hsplit]
      exact hlo
    have h1 := F64.int_le_rne _ _ hN
    have h2 : ((2 ^ 52 : Int) : ℚ) ≤ (F64.rne (x / (2 : ℚ) ^ (e - 52)) : ℚ) := by
      exact_mod_cast h1
    have h3 := mul_le_mul_of_nonneg_right h2 hupos.le
    have h4 : ((2 ^ 52 : Int) : ℚ) * (2 : ℚ) ^ (e - 52) = (2 : ℚ) ^ e := by
      rw [hsplit]
      norm_num
    rw [h4] at h3
    have h5 : (2 : ℚ) ^ (53 : Int) ≤ (2 : ℚ) ^ e := zpow_le_zpow_right₀ (by norm_num) (by omega)
    have h6 : (n : ℚ) ≤ (2 : ℚ) ^ (53 : Int) := by
      have : (n : ℚ) ≤ ((2 ^ 53 : Int) : ℚ) := by exact_mod_cast h53
      refine le_trans this ?_
      norm_num
    linarith

theorem F64.round_le_int (x : ℚ) (n : Int) (hx0 : 0 ≤ x) (h53 : n ≤ 2 ^ 53) (h : x ≤ (n : ℚ)) :
    F64.round x ≤ (n : ℚ) := by
  rcases hx0.eq_or_lt with hz | hx
  · rw [← hz, F64.round_zero]
    rw [← hz] at h
    exact h
  obtain ⟨hlo, hhi⟩ := F64.log_spec x hx
  have hn53 : (n : ℚ) ≤ (2 : ℚ) ^ (53 : Int) := by
    have : (n : ℚ) ≤ ((2 ^ 53 : Int) : ℚ) := by exact_mod_cast h53
    refine le_trans this ?_
    norm_num
  have he : Int.log 2 x ≤ 53 := by
    by_contra hc
    have : (2 : ℚ) ^ (53 + 1 : Int) ≤ (2 : ℚ) ^ (Int.log 2 x) :=
      zpow_le_zpow_right₀ (by norm_num) (by omega)
    have h2 : (2 : ℚ) ^ (53 : Int) < (2 : ℚ) ^ (53 + 1 : Int) :=
      zpow_lt_zpow_right₀ (by norm_num) (by omega)
    linarith
  unfold F64.round
  rw [F64.ulp_of_pos x hx]
  rcases le_or_lt (max (Int.log 2 x) (-1022)) 52 with hc | hc
  · generalize max (Int.log 2 x) (-1022) = e at *
    have hupos : (0 : ℚ) < (2 : ℚ) ^ (e - 52) := by positivity
    have hone := F64.two_zpow_sub e hc
    have hdiv : x / (2 : ℚ) ^ (e - 52) = x * (2 : ℚ) ^ (52 - e).toNat := by
      rw [div_eq_iff hupos.ne', mul_assoc, mul_comm ((2 : ℚ) ^ (52 - e).toNat), hone, mul_one]
    have hN : x / (2 : ℚ) ^ (e - 52) ≤ ((n * 2 ^ (52 - e).toNat : Int) : ℚ) := by
      rw [hdiv]
      push_cast
      exact mul_le_mul_of_nonneg_right h (by positivity)
    have h1 := F64.rne_le_int _ _ hN
    have h2 : (F64.rne (x / (2 : ℚ) ^ (e - 52)) : ℚ) ≤ ((n * 2 ^ (52 - e).toNat : Int) : ℚ) := by
      exact_mod_cast h1
    have h3 := mul_le_mul_of_nonneg_right h2 hupos.le
    have h4 : ((n * 2 ^ (52 - e).toNat : Int) : ℚ) * (2 : ℚ) ^ (e - 52) = n := by
      push_cast
      rw [mul_assoc, mul_comm ((2 : ℚ) ^ (52 - e).toNat), hone, mul_one]
    rw [h4] at h3
    exact h3
  · have hmax : max (Int.log 2 x) (-1022) = 53 := by
      have : max (Int.log 2 x) (-1022) ≤ 53 := max_le he (by norm_num)
      omega
    have hlog : Int.log 2 x = 53 := by
      rcases max_cases (Int.log 2 x) (-1022) with ⟨h1, _⟩ | ⟨h1, _⟩ <;> omega
    rw [hmax]
    rw [hlog] at hlo
    have hN : x / (2 : ℚ) ^ (53 - 52 : Int) ≤ ((2 ^ 52 : Int) : ℚ) := by
      rw [div_le_iff₀ (by positivity)]
      have : ((2 ^ 52 : Int) : ℚ) * (2 : ℚ) ^ (53 - 52 : Int) = (2 : ℚ) ^ (53 : Int) := by norm_num
      rw [this]
      linarith
    have h1 := F64.rne_le_int _ _ hN
    have h2 : (F64.rne (x / (2 : ℚ) ^ (53 - 52 : Int)) : ℚ) ≤ ((2 ^ 52 : Int) : ℚ) := by
      exact_mod_cast h1
    have h3 := mul_le_mul_of_nonneg_right h2 (show (0 : ℚ) ≤ (2 : ℚ) ^ (53 - 52 : Int) by positivity)
    have h4 : ((2 ^ 52 : Int) : ℚ) * (2 : ℚ) ^ (53 - 52 : Int) = (2 : ℚ) ^ (53 : Int) := by norm_num
    rw [h4] at h3
    linarith

theorem F64.round_int (n : Int) (h0 : 0 ≤ n) (h53 : n ≤ 2 ^ 53) : F64.round (n : ℚ) = n := by
  refine le_antisymm (F64.round_le_int _ n (by exact_mod_cast h0) h53 le_rfl) ?_
  rcases h0.eq_or_lt with hz | hp
  · rw [← hz]
    simpa using F64.round_nonneg 0 le_rfl
  · exact F64.round_ge_int _ n hp h53 le_rfl

theorem F64.round_le_add (x : ℚ) (k : Int) (hx0 : 0 ≤ x) (hk : -1021 ≤ k)
    (h : x < (2 : ℚ) ^ k) : F64.round x ≤ x + (2 : ℚ) ^ (k - 54) := by
  rcases hx0.eq_or_lt with hz | hx
  · rw [← hz, F64.round_zero]
    have : (0 : ℚ) < (2 : ℚ) ^ (k - 54) := by positivity
    linarith
  obtain ⟨hlo, hhi⟩ := F64.log_spec x hx
  have he : Int.log 2 x < k := by
    by_contra hc
    have : (2 : ℚ) ^ k ≤ (2 : ℚ) ^ (Int.log 2 x) :=
      zpow_le_zpow_right₀ (by norm_num) (not_lt.1 hc)
    linarith
  have hmax : max (Int.log 2 x) (-1022) ≤ k - 1 := max_le (by omega) (by omega)
  unfold F64.round
  rw [F64.ulp_of_pos x hx]
  generalize max (Int.log 2 x) (-1022) = e at *
  have hupos : (0 : ℚ) < (2 : ℚ) ^ (e - 52) := by positivity
  have h1 := F64.rne_le_add_half (x / (2 : ℚ) ^ (e - 52))
  have h2 := mul_le_mul_of_nonneg_right h1 hupos.le
  have h3 : (x / (2 : ℚ) ^ (e - 52) + 1 / 2) * (2 : ℚ) ^ (e - 52)
      = x + (2 : ℚ) ^ (e - 52) / 2 := by
    field_simp
    ring
  rw [h3] at h2
  have h4 : (2 : ℚ) ^ (e - 52) ≤ (2 : ℚ) ^ (k - 53) :=
    zpow_le_zpow_right₀ (by norm_num) (by omega)
  have h5 : (2 : ℚ) ^ (k - 53) = (2 : ℚ) ^ (k - 54) * 2 := by
    rw [← zpow_add_one₀ (by norm_num)]
    congr 1
    ring
  linarith

theorem F64.round_eq (x : ℚ) (e N : Int) (he : -1022 ≤ e) (h1 : (2 : ℚ) ^ e ≤ x)
    (h2 : x < (2 : ℚ) ^ (e + 1))
    (h3 : (N : ℚ) - 1 / 2 < x / (2 : ℚ) ^ (e - 52))
    (h4 : x / (2 : ℚ) ^ (e - 52) < (N : ℚ) + 1 / 2) :
    F64.round x = (N : ℚ) * (2 : ℚ) ^ (e - 52) := by
  have hx : 0 < x := lt_of_lt_of_le (by positivity) h1
  unfold F64.round
  rw [F64.ulp_of_pos x hx, F64.log_eq x e h1 h2, max_eq_left he, F64.rne_eq _ N h3 h4]


theorem F64.toUint64_floor (x : ℚ) (h0 : 0 ≤ x) (h1 : x < 2 ^ 63) :
    F64.toUint64 x = ⌊x⌋.toNat := by
  unfold F64.toUint64
  simp only [h0, if_true, h1]
  have hf0 : 0 ≤ ⌊x⌋ := Int.floor_nonneg.2 h0
  have hf1 : ⌊x⌋ < 2 ^ 63 := by
    have : (⌊x⌋ : ℚ) < ((2 ^ 63 : Int) : ℚ) := by
      push_cast
      exact lt_of_le_of_lt (Int.floor_le x) h1
    exact_mod_cast this
  rw [if_pos (by omega)]
  congr 1
  omega

theorem F64.toUint64_of_floor (x : ℚ) (n : Nat) (h0 : (n : ℚ) ≤ x) (h1 : x < (n : ℚ) + 1)
    (hn : n < 2 ^ 63) : F64.toUint64 x = n := by
  have hx0 : 0 ≤ x := le_trans (Nat.cast_nonneg n) h0
  have hn2 : ((n : ℚ) + 1) ≤ 2 ^ 63 := by
    have : n + 1 ≤ 2 ^ 63 := hn
    exact_mod_cast this
  rw [F64.toUint64_floor x hx0 (lt_of_lt_of_le h1 hn2)]
  have : ⌊x⌋ = (n : Int) := Int.floor_eq_iff.2 ⟨by exact_mod_cast h0, by exact_mod_cast h1⟩
  rw [this, Int.toNat_ofNat]

theorem F64.ofUint64_of_le (b : Nat) (h : b ≤ 2 ^ 53) : F64.ofUint64 b = (b : ℚ) := by
  unfold F64.ofUint64
  have := F64.round_int (b : Int) (Int.natCast_nonneg b) (by exact_mod_cast h)
  simpa using this

/-- A quotient of natural numbers that is small enough is rounded to a float64
value with the same integer part. -/
theorem F64.toUint64_round_div (a d : Nat) (k : Int) (hd : 0 < d) (hk1 : -1021 ≤ k)
    (hk2 : k ≤ 53) (ha : (a : ℚ) / (d : ℚ) < (2 : ℚ) ^ k)
    (herr : (2 : ℚ) ^ (k - 54) * (d : ℚ) < 1) :
    F64.toUint64 (F64.round ((a : ℚ) / (d : ℚ))) = a / d := by
  have hdq : (0 : ℚ) < (d : ℚ) := by exact_mod_cast hd
  have hsplit : (a : ℚ) = ((a / d : Nat) : ℚ) * (d : ℚ) + ((a % d : Nat) : ℚ) := by
    have := Nat.div_add_mod a d
    have h2 : ((d * (a / d) + a % d : Nat) : ℚ) = (a : ℚ) := by rw [this]
    push_cast at h2
    linarith
  have hmod : ((a % d : Nat) : ℚ) + 1 ≤ (d : ℚ) := by
    have := Nat.mod_lt a hd
    have h2 : a % d + 1 ≤ d := this
    exact_mod_cast h2
  have hq0 : ((a / d : Nat) : ℚ) ≤ (a : ℚ) / (d : ℚ) := by
    rw [le_div_iff₀ hdq]
    have : (0 : ℚ) ≤ ((a % d : Nat) : ℚ) := Nat.cast_nonneg _
    linarith
  have hq1 : (a : ℚ) / (d : ℚ) ≤ ((a / d : Nat) : ℚ) + 1 - 1 / (d : ℚ) := by
    rw [div_le_iff₀ hdq]
    have : (((a / d : Nat) : ℚ) + 1 - 1 / (d : ℚ)) * (d : ℚ)
        = ((a / d : Nat) : ℚ) * (d : ℚ) + (d : ℚ) - 1 := by
      field_simp
      ring
    rw [this]
    linarith
  have hqnn : (0 : ℚ) ≤ (a : ℚ) / (d : ℚ) := div_nonneg (Nat.cast_nonneg _) hdq.le
  have hup := F64.round_le_add _ k hqnn hk1 ha
  have herr2 : (2 : ℚ) ^ (k - 54) < 1 / (d : ℚ) := by
    rw [lt_div_iff₀ hdq]
    exact herr
  have hn53 : ((a / d : Nat) : ℚ) < (2 : ℚ) ^ (53 : Int) := by
    have : (2 : ℚ) ^ k ≤ (2 : ℚ) ^ (53 : Int) := zpow_le_zpow_right₀ (by norm_num) hk2
    linarith
  have hn53b : a / d < 2 ^ 53 := by
    have h2 : ((a / d : Nat) : ℚ) < ((2 ^ 53 : Nat) : ℚ) := by
      refine lt_of_lt_of_le hn53 ?_
      norm_num
    exact_mod_cast h2
  have hlow : ((a / d : Nat) : ℚ) ≤ F64.round ((a : ℚ) / (d : ℚ)) := by
    rcases Nat.eq_zero_or_pos (a / d) with hz | hp
    · rw [hz]
      simpa using F64.round_nonneg _ hqnn
    · have := F64.round_ge_int ((a : ℚ) / (d : ℚ)) ((a / d : Nat) : Int)
        (by exact_mod_cast hp) (by exact_mod_cast hn53b.le) (by exact_mod_cast hq0)
      exact_mod_cast this
  exact F64.toUint64_of_floor _ _ hlow (by linarith) (by omega)

theorem Go.tdiv_tmod_nonpos (d c : Int) (hd : d ≤ 0) (hc : 0 < c) :
    Int.tdiv d c ≤ 0 ∧ Int.tmod d c ≤ 0 := by
  have h1 : Int.tdiv d c = -((-d) / c) := by
    have := Int.neg_tdiv (-d) c
    rw [neg_neg] at this
    rw [this, Int.tdiv_eq_ediv (by omega) hc.le]
  have h2 := Int.tdiv_add_tmod d c
  have h3 : 0 ≤ (-d) / c := Int.ediv_nonneg (by omega) hc.le
  have h4 : c * ((-d) / c) ≤ -d := Int.mul_ediv_self_le hc.ne'
  rw [h1] at h2
  constructor
  · omega
  · have : c * -(-d / c) = -(c * (-d / c)) := by ring
    rw [this] at h2
    omega

theorem Duration.Seconds_lt_iff (d : Int) :
    Duration.Seconds d < (minHotRegionReportInterval : ℚ) ↔ d < 3000000000 := by
  have hmin : ((minHotRegionReportInterval : Nat) : ℚ) = 3 := by
    unfold minHotRegionReportInterval
    norm_num
  rw [hmin]
  unfold Duration.Seconds F64.add F64.div F64.ofInt64
  simp only
  rcases lt_or_le d 0 with hneg | hpos
  · obtain ⟨hs, hn⟩ := Go.tdiv_tmod_nonpos d 1000000000 hneg.le (by norm_num)
    have h1 : F64.round ((Int.tdiv d 1000000000 : Int) : ℚ) ≤ 0 :=
      F64.round_nonpos _ (by exact_mod_cast hs)
    have h2 : F64.round ((Int.tmod d 1000000000 : Int) : ℚ) ≤ 0 :=
      F64.round_nonpos _ (by exact_mod_cast hn)
    have h3 : F64.round (F64.round ((Int.tmod d 1000000000 : Int) : ℚ) / 1000000000) ≤ 0 :=
      F64.round_nonpos _ (div_nonpos_of_nonpos_of_nonneg h2 (by norm_num))
    have h4 := F64.round_nonpos _ (add_nonpos h1 h3)
    constructor
    · intro _; omega
    · intro _; linarith
  · rw [Int.tdiv_eq_ediv hpos (by norm_num), Int.tmod_eq_emod hpos (by norm_num)]
    have hn0 : 0 ≤ d % 1000000000 := Int.emod_nonneg _ (by norm_num)
    have hn1 : d % 1000000000 < 1000000000 := Int.emod_lt_of_pos _ (by norm_num)
    have hs0 : 0 ≤ d / 1000000000 := Int.ediv_nonneg hpos (by norm_num)
    have hnr : F64.round ((d % 1000000000 : Int) : ℚ) = ((d % 1000000000 : Int) : ℚ) :=
      F64.round_int _ hn0 (by omega)
    rw [hnr]
    have hq0 : (0 : ℚ) ≤ ((d % 1000000000 : Int) : ℚ) / 1000000000 :=
      div_nonneg (by exact_mod_cast hn0) (by norm_num)
    have hr0 := F64.round_nonneg _ hq0
    constructor
    · intro h
      by_contra hc
      have hs3 : 3 ≤ d / 1000000000 := by omega
      have h1 : ((3 : Int) : ℚ) ≤ F64.round ((d / 1000000000 : Int) : ℚ) :=
        F64.round_ge_int _ 3 (by norm_num) (by norm_num) (by exact_mod_cast hs3)
      have h2 : ((3 : Int) : ℚ) ≤ F64.round (F64.round ((d / 1000000000 : Int) : ℚ) +
          F64.round (((d % 1000000000 : Int) : ℚ) / 1000000000)) :=
        F64.round_ge_int _ 3 (by norm_num) (by norm_num) (by linarith)
      have h3 : ((3 : Int) : ℚ) = 3 := by norm_num
      linarith
    · intro h
      have hs2 : d / 1000000000 ≤ 2 := by omega
      have hsr : F64.round ((d / 1000000000 : Int) : ℚ) = ((d / 1000000000 : Int) : ℚ) :=
        F64.round_int _ hs0 (by omega)
      rw [hsr]
      have hq1 : ((d % 1000000000 : Int) : ℚ) / 1000000000 ≤ 999999999 / 1000000000 := by
        have : ((d % 1000000000 : Int) : ℚ) ≤ ((999999999 : Int) : ℚ) := by
          exact_mod_cast (show d % 1000000000 ≤ 999999999 by omega)
        push_cast at this
        exact div_le_div_of_nonneg_right this (by norm_num)
      have hr1 := F64.round_le_add (((d % 1000000000 : Int) : ℚ) / 1000000000) 0 hq0
        (by norm_num) (by rw [zpow_zero]; linarith)
      have hs2q : ((d / 1000000000 : Int) : ℚ) ≤ 2 := by exact_mod_cast hs2
      have hs0q : (0 : ℚ) ≤ ((d / 1000000000 : Int) : ℚ) := by exact_mod_cast hs0
      have he1 : (2 : ℚ) ^ ((0 : Int) - 54) = 1 / 18014398509481984 := by norm_num
      have he2 : (2 : ℚ) ^ ((2 : Int) - 54) = 1 / 4503599627370496 := by norm_num
      rw [he1] at hr1
      have hsum := F64.round_le_add (((d / 1000000000 : Int) : ℚ) +
          F64.round (((d % 1000000000 : Int) : ℚ) / 1000000000)) 2 (by linarith) (by norm_num)
          (by
            have : (2 : ℚ) ^ (2 : Int) = 4 := by norm_num
            rw [this]
            linarith)
      rw [he2] at hsum
      linarith


/-- Below 2^53 the rounded value of a non-negative number has the integer part
of the number or the next one. -/
theorem F64.toUint64_round_bounds (q : ℚ) (h0 : 0 ≤ q) (h1 : q < (2 : ℚ) ^ (53 : Int)) :
    ⌊q⌋.toNat ≤ F64.toUint64 (F64.round q) ∧ F64.toUint64 (F64.round q) ≤ ⌊q⌋.toNat + 1 := by
  have hf0 : 0 ≤ ⌊q⌋ := Int.floor_nonneg.2 h0
  have hfq : (⌊q⌋ : ℚ) ≤ q := Int.floor_le q
  have hf53 : ⌊q⌋ ≤ 2 ^ 53 := by
    have : (⌊q⌋ : ℚ) ≤ ((2 ^ 53 : Int) : ℚ) := by
      push_cast
      have h2 : (2 : ℚ) ^ (53 : Int) = 2 ^ 53 := by norm_num
      linarith
    exact_mod_cast this
  have hup := F64.round_le_add q 53 h0 (by norm_num) h1
  have he : (2 : ℚ) ^ ((53 : Int) - 54) = 1 / 2 := by norm_num
  rw [he] at hup
  have hr0 := F64.round_nonneg q h0
  have hlow : (⌊q⌋ : ℚ) ≤ F64.round q := by
    rcases hf0.eq_or_lt with hz | hp
    · rw [← hz]
      simpa using hr0
    · exact F64.round_ge_int q ⌊q⌋ hp hf53 hfq
  have h53 : (2 : ℚ) ^ (53 : Int) = 9007199254740992 := by norm_num
  have hr63 : F64.round q < 2 ^ 63 := by
    have : (2 : ℚ) ^ 63 = 9223372036854775808 := by norm_num
    rw [this]
    linarith
  rw [F64.toUint64_floor _ hr0 hr63]
  have hA : ⌊q⌋ ≤ ⌊F64.round q⌋ := Int.le_floor.2 hlow
  have hB : ⌊F64.round q⌋ ≤ ⌊q⌋ + 1 := by
    have : ⌊F64.round q⌋ < ⌊q⌋ + 2 := by
      rw [Int.floor_lt]
      have := Int.lt_floor_add_one q
      push_cast
      linarith
    omega
  omega

theorem F64.ofUint64_max : F64.ofUint64 (2 ^ 64 - 1) = (2 : ℚ) ^ 64 := by
  unfold F64.ofUint64
  rw [F64.round_eq _ 63 (2 ^ 53) (by norm_num) (by norm_num) (by norm_num) (by norm_num)
    (by norm_num)]
  norm_num

theorem F64.div_max_60 :
    F64.toUint64 (F64.div (F64.ofUint64 (2 ^ 64 - 1)) 60) = 307445734561825856 := by
  rw [F64.ofUint64_max]
  unfold F64.div
  rw [F64.round_eq _ 58 4803839602528529 (by norm_num) (by norm_num) (by norm_num) (by norm_num)
    (by norm_num)]
  have : ((4803839602528529 : Int) : ℚ) * (2 : ℚ) ^ ((58 : Int) - 52)
      = ((307445734561825856 : Nat) : ℚ) := by norm_num
  rw [this]
  exact F64.toUint64_of_floor _ _ le_rfl (by linarith) (by norm_num)

theorem F64.div_write_example :
    F64.toUint64 (F64.div 281474976710661984 2000) = 140737488355331 := by
  unfold F64.div
  rw [F64.round_eq _ 47 4503599627370592 (by norm_num) (by norm_num) (by norm_num) (by norm_num)
    (by norm_num)]
  have : ((4503599627370592 : Int) : ℚ) * (2 : ℚ) ^ ((47 : Int) - 52)
      = ((140737488355331 : Nat) : ℚ) := by norm_num
  rw [this]
  exact F64.toUint64_of_floor _ _ le_rfl (by linarith) (by norm_num)

theorem F64.div_read_example :
    F64.toUint64 (F64.div 140737488355330992 1000) = 140737488355331 := by
  unfold F64.div
  rw [F64.round_eq _ 47 4503599627370592 (by norm_num) (by norm_num) (by norm_num) (by norm_num)
    (by norm_num)]
  have : ((4503599627370592 : Int) : ℚ) * (2 : ℚ) ^ ((47 : Int) - 52)
      = ((140737488355331 : Nat) : ℚ) := by norm_num
  rw [this]
  exact F64.toUint64_of_floor _ _ le_rfl (by linarith) (by norm_num)

theorem F64.div_overflow_example :
    F64.toUint64 (F64.div (2000 * 2 ^ 64) 2000) = 2 ^ 63 := by
  unfold F64.div
  rw [F64.round_eq _ 64 (2 ^ 52) (by norm_num) (by norm_num) (by norm_num) (by norm_num)
    (by norm_num)]
  unfold F64.toUint64
  norm_num

theorem F64.round_le_add_ulp (x : ℚ) : F64.round x ≤ x + F64.ulp x / 2 := by
  unfold F64.round
  have hupos := F64.ulp_pos x
  have h1 := F64.rne_le_add_half (x / F64.ulp x)
  have h2 := mul_le_mul_of_nonneg_right h1 hupos.le
  have h3 : (x / F64.ulp x + 1 / 2) * F64.ulp x = x + F64.ulp x / 2 := by
    field_simp
    ring
  rw [h3] at h2
  exact h2

theorem F64.le_log (x : ℚ) (e : Int) (hx : 0 < x) (h : (2 : ℚ) ^ e ≤ x) : e ≤ Int.log 2 x := by
  obtain ⟨_, hhi⟩ := F64.log_spec x hx
  by_contra hc
  have : (2 : ℚ) ^ (Int.log 2 x + 1) ≤ (2 : ℚ) ^ e :=
    zpow_le_zpow_right₀ (by norm_num) (by omega)
  linarith

theorem F64.log_lt (x : ℚ) (e : Int) (hx : 0 < x) (h : x < (2 : ℚ) ^ e) : Int.log 2 x < e := by
  obtain ⟨hlo, _⟩ := F64.log_spec x hx
  by_contra hc
  have : (2 : ℚ) ^ e ≤ (2 : ℚ) ^ (Int.log 2 x) :=
    zpow_le_zpow_right₀ (by norm_num) (not_lt.1 hc)
  linarith

/-- Division of a float64 value by a constant `d = c * 2^p` with
`2^j <= d < 2^(j+1)`: below 2^(53+p) the rounded quotient has the integer part of the
exact quotient. -/
theorem F64.toUint64_div_exact (x : ℚ) (d c j p : Nat) (hd : d = c * 2 ^ p)
    (hj1 : 2 ^ j ≤ d) (hj2 : d < 2 ^ (j + 1)) (hx0 : 0 ≤ x) (hrep : F64.round x = x)
    (hx : x < (2 : ℚ) ^ (53 + p)) :
    F64.toUint64 (F64.round (x / (d : ℚ))) = ⌊x / (d : ℚ)⌋.toNat := by
  have hdpos : 0 < d := lt_of_lt_of_le (by positivity) hj1
  have hdq : (0 : ℚ) < (d : ℚ) := by exact_mod_cast hdpos
  have hcpos : 0 < c := by
    rcases Nat.eq_zero_or_pos c with hz | hp
    · rw [hz, zero_mul] at hd
      omega
    · exact hp
  have hdp : (2 : ℚ) ^ p ≤ (d : ℚ) := by
    have : 2 ^ p ≤ d := by
      rw [hd]
      exact Nat.le_mul_of_pos_left _ hcpos
    exact_mod_cast this
  have hq0 : 0 ≤ x / (d : ℚ) := div_nonneg hx0 hdq.le
  have hq53 : x / (d : ℚ) < (2 : ℚ) ^ (53 : Int) := by
    rw [div_lt_iff₀ hdq]
    have h1 : (2 : ℚ) ^ (53 + p) = (2 : ℚ) ^ (53 : Int) * (2 : ℚ) ^ p := by
      rw [pow_add]
      norm_num
    have h2 : (2 : ℚ) ^ (53 : Int) * (2 : ℚ) ^ p ≤ (2 : ℚ) ^ (53 : Int) * (d : ℚ) :=
      mul_le_mul_of_nonneg_left hdp (by positivity)
    linarith
  have hn0 : 0 ≤ ⌊x / (d : ℚ)⌋ := Int.floor_nonneg.2 hq0
  have hnq : (⌊x / (d : ℚ)⌋ : ℚ) ≤ x / (d : ℚ) := Int.floor_le _
  have hqn : x / (d : ℚ) < (⌊x / (d : ℚ)⌋ : ℚ) + 1 := Int.lt_floor_add_one _
  have hn53 : ⌊x / (d : ℚ)⌋ ≤ 2 ^ 53 := by
    have : (⌊x / (d : ℚ)⌋ : ℚ) ≤ ((2 ^ 53 : Int) : ℚ) := by
      push_cast
      have h2 : (2 : ℚ) ^ (53 : Int) = 2 ^ 53 := by norm_num
      linarith
    exact_mod_cast this
  have hlow : (⌊x / (d : ℚ)⌋ : ℚ) ≤ F64.round (x / (d : ℚ)) := by
    rcases hn0.eq_or_lt with hz | hp
    · rw [← hz]
      simpa using F64.round_nonneg _ hq0
    · exact F64.round_ge_int _ _ hp hn53 hnq
  have hup : F64.round (x / (d : ℚ)) < (⌊x / (d : ℚ)⌋ : ℚ) + 1 := by
    rcases lt_or_le (x / (d : ℚ)) ((2 : ℚ) ^ (-1022 : Int)) with htiny | hnorm
    · have h1 := F64.round_le_add (x / (d : ℚ)) 0 hq0 (by norm_num)
        (by
          have : (2 : ℚ) ^ (-1022 : Int) ≤ (2 : ℚ) ^ (0 : Int) :=
            zpow_le_zpow_right₀ (by norm_num) (by norm_num)
          linarith)
      have h2 : (2 : ℚ) ^ (-1022 : Int) ≤ (2 : ℚ) ^ (-1 : Int) :=
        zpow_le_zpow_right₀ (by norm_num) (by norm_num)
      have h3 : (2 : ℚ) ^ (-1 : Int) = 1 / 2 := by norm_num
      have h4 : (2 : ℚ) ^ ((0 : Int) - 54) ≤ 1 / 4 := by norm_num
      have h5 : (0 : ℚ) ≤ (⌊x / (d : ℚ)⌋ : ℚ) := by exact_mod_cast hn0
      linarith
    · have hqpos : 0 < x / (d : ℚ) := lt_of_lt_of_le (by positivity) hnorm
      have hxpos : 0 < x := by
        rcases hx0.eq_or_lt with hz | hp
        · rw [← hz, zero_div] at hqpos
          exact absurd hqpos (lt_irrefl _)
        · exact hp
      obtain ⟨hqlo, hqhi⟩ := F64.log_spec _ hqpos
      have heq : -1022 ≤ Int.log 2 (x / (d : ℚ)) := F64.le_log _ _ hqpos hnorm
      have huq : F64.ulp (x / (d : ℚ)) = (2 : ℚ) ^ (Int.log 2 (x / (d : ℚ)) - 52) := by
        rw [F64.ulp_of_pos _ hqpos, max_eq_left heq]
      have hxd : x = x / (d : ℚ) * (d : ℚ) := by field_simp
      have hxlo : (2 : ℚ) ^ (Int.log 2 (x / (d : ℚ)) + (j : Int)) ≤ x := by
        rw [zpow_add₀ (by norm_num), zpow_natCast]
        have hdj : (2 : ℚ) ^ j ≤ (d : ℚ) := by exact_mod_cast hj1
        calc (2 : ℚ) ^ Int.log 2 (x / (d : ℚ)) * (2 : ℚ) ^ j
            ≤ x / (d : ℚ) * (d : ℚ) := mul_le_mul hqlo hdj (by positivity) hqpos.le
          _ = x := hxd.symm
      have hex1 : Int.log 2 (x / (d : ℚ)) + (j : Int) ≤ Int.log 2 x := F64.le_log _ _ hxpos hxlo
      have hex2 : Int.log 2 x < 53 + (p : Int) := by
        apply F64.log_lt _ _ hxpos
        have : (2 : ℚ) ^ (53 + (p : Int)) = (2 : ℚ) ^ (53 + p) := by
          rw [← zpow_natCast]
          push_cast
          rfl
        rw [this]
        exact hx
      have hux : F64.ulp x = (2 : ℚ) ^ (Int.log 2 x - 52) := by
        rw [F64.ulp_of_pos _ hxpos, max_eq_left (by omega)]
      have huxpos : 0 < F64.ulp x := F64.ulp_pos x
      -- the ulp of x is at least 2^j times the ulp of the quotient
      have hulps : (2 : ℚ) ^ j * F64.ulp (x / (d : ℚ)) ≤ F64.ulp x := by
        rw [huq, hux, ← zpow_natCast, ← zpow_add₀ (by norm_num)]
        exact zpow_le_zpow_right₀ (by norm_num) (by omega)
      -- x and d * (n + 1) are integer multiples of the ulp of x
      have hR : x = (F64.rne (x / F64.ulp x) : ℚ) * F64.ulp x := by
        have := hrep
        unfold F64.round at this
        exact this.symm
      have hZ : (d : ℚ) * ((⌊x / (d : ℚ)⌋ : ℚ) + 1) =
          (((c : Int) * (⌊x / (d : ℚ)⌋ + 1) * 2 ^ ((p : Int) + 52 - Int.log 2 x).toNat : Int) : ℚ)
            * F64.ulp x := by
        rw [hux]
        have h1 : ((2 : ℚ) ^ ((p : Int) + 52 - Int.log 2 x).toNat)
            = (2 : ℚ) ^ ((((p : Int) + 52 - Int.log 2 x).toNat : Nat) : Int) :=
          (zpow_natCast _ _).symm
        push_cast
        rw [h1, Int.toNat_of_nonneg (by omega)]
        have h2 : (2 : ℚ) ^ ((p : Int) + 52 - Int.log 2 x) * (2 : ℚ) ^ (Int.log 2 x - 52)
            = (2 : ℚ) ^ p := by
          rw [← zpow_add₀ (by norm_num), ← zpow_natCast]
          congr 1
          ring
        have h3 : (d : ℚ) = (c : ℚ) * (2 : ℚ) ^ p := by
          rw [hd]
          push_cast
          rfl
        rw [h3, ← h2]
        ring
      have hgap : F64.ulp x ≤ (d : ℚ) * ((⌊x / (d : ℚ)⌋ : ℚ) + 1) - x := by
        have hpos : 0 < (d : ℚ) * ((⌊x / (d : ℚ)⌋ : ℚ) + 1) - x := by
          have := mul_lt_mul_of_pos_right hqn hdq
          rw [← hxd] at this
          linarith
        rw [hZ] at hpos ⊢
        have hdiff : (((c : Int) * (⌊x / (d : ℚ)⌋ + 1) *
              2 ^ ((p : Int) + 52 - Int.log 2 x).toNat : Int) : ℚ) * F64.ulp x - x
            = (((c : Int) * (⌊x / (d : ℚ)⌋ + 1) *
              2 ^ ((p : Int) + 52 - Int.log 2 x).toNat - F64.rne (x / F64.ulp x) : Int) : ℚ)
                * F64.ulp x := by
          push_cast
          rw [sub_mul, ← hR]
        rw [hdiff] at hpos ⊢
        have hzpos := (mul_pos_iff_of_pos_right huxpos).1 hpos
        have hz1 : (1 : Int) ≤ (c : Int) * (⌊x / (d : ℚ)⌋ + 1) *
              2 ^ ((p : Int) + 52 - Int.log 2 x).toNat - F64.rne (x / F64.ulp x) := by
          have : (0 : Int) < (c : Int) * (⌊x / (d : ℚ)⌋ + 1) *
              2 ^ ((p : Int) + 52 - Int.log 2 x).toNat - F64.rne (x / F64.ulp x) := by
            exact_mod_cast hzpos
          omega
        have hz1q : (1 : ℚ) ≤ (((c : Int) * (⌊x / (d : ℚ)⌋ + 1) *
              2 ^ ((p : Int) + 52 - Int.log 2 x).toNat - F64.rne (x / F64.ulp x) : Int) : ℚ) := by
          exact_mod_cast hz1
        calc F64.ulp x = 1 * F64.ulp x := (one_mul _).symm
          _ ≤ _ := mul_le_mul_of_nonneg_right hz1q huxpos.le
      -- so the quotient stays more than half an ulp below n + 1
      have hdlt : (d : ℚ) < 2 * (2 : ℚ) ^ j := by
        have : d < 2 * 2 ^ j := by
          rw [pow_succ] at hj2
          omega
        exact_mod_cast this
      have huqpos : 0 < F64.ulp (x / (d : ℚ)) := F64.ulp_pos _
      have hkey : (d : ℚ) * (x / (d : ℚ) + F64.ulp (x / (d : ℚ)) / 2)
          < (d : ℚ) * ((⌊x / (d : ℚ)⌋ : ℚ) + 1) := by
        have e1 : (d : ℚ) * (x / (d : ℚ) + F64.ulp (x / (d : ℚ)) / 2)
            = x + (d : ℚ) * F64.ulp (x / (d : ℚ)) / 2 := by
          rw [mul_add, mul_comm (d : ℚ) (x / (d : ℚ)), ← hxd]
          ring
        rw [e1]
        have e2 : (d : ℚ) * F64.ulp (x / (d : ℚ)) < 2 * (2 : ℚ) ^ j * F64.ulp (x / (d : ℚ)) :=
          mul_lt_mul_of_pos_right hdlt huqpos
        nlinarith
      have hkey2 := lt_of_mul_lt_mul_left hkey hdq.le
      exact lt_of_le_of_lt (F64.round_le_add_ulp _) hkey2
  have hcast : ((⌊x / (d : ℚ)⌋.toNat : Nat) : ℚ) = (⌊x / (d : ℚ)⌋ : ℚ) := by
    have : ((⌊x / (d : ℚ)⌋.toNat : Nat) : Int) = ⌊x / (d : ℚ)⌋ := Int.toNat_of_nonneg hn0
    exact_mod_cast this
  refine F64.toUint64_of_floor _ _ (by rw [hcast]; exact hlow) (by rw [hcast]; exact hup) ?_
  have : ((⌊x / (d : ℚ)⌋.toNat : Nat) : Int) = ⌊x / (d : ℚ)⌋ := Int.toNat_of_nonneg hn0
  omega

/-! ## Hot-spot cache -/

theorem Go.wrapInt_of_range (x : Int) (h1 : -(2 ^ 63) ≤ x) (h2 : x < 2 ^ 63) :
    Go.wrapInt x = x := by
  unfold Go.wrapInt
  omega

theorem Cache.Peek_mem (c : Cache) (key : Nat) (v : RegionStat) (h : c.Peek key = some v) :
    (key, v) ∈ c.elems := by
  unfold Cache.Peek at h
  cases hf : c.elems.find? (fun e => decide (e.1 = key)) with
  | none => rw [hf] at h; cases h
  | some e =>
    rw [hf] at h
    simp only [Option.map_some', Option.some.injEq] at h
    have hp := List.find?_some hf
    have hm := List.mem_of_find?_eq_some hf
    simp only [decide_eq_true_eq] at hp
    obtain ⟨k, x⟩ := e
    simp only at hp h
    subst hp; subst h
    exact hm

theorem Cache.mem_Put (c : Cache) (key : Nat) (v : RegionStat) (e : Nat × RegionStat)
    (h : e ∈ (c.Put key v).elems) : e = (key, v) ∨ e ∈ c.elems := by
  unfold Cache.Put at h
  have h1 := List.mem_of_mem_take h
  rcases List.mem_cons.1 h1 with h2 | h2
  · exact Or.inl h2
  · exact Or.inr (List.mem_filter.1 h2).1

theorem Cache.mem_Remove (c : Cache) (key : Nat) (e : Nat × RegionStat)
    (h : e ∈ (c.Remove key).elems) : e ∈ c.elems := by
  unfold Cache.Remove at h
  exact (List.mem_filter.1 h).1

theorem Cache.Peek_Put (c : Cache) (key : Nat) (v : RegionStat) :
    (c.Put key v).Peek key = some v := by
  simp [Cache.Put, Cache.Peek, statCacheMaxLen, List.take]

theorem Cache.Peek_Remove (c : Cache) (key : Nat) : (c.Remove key).Peek key = none := by
  simp [Cache.Remove, Cache.Peek]

theorem RegionStat.settled_of_le {n m : Int} {s : RegionStat} (h : RegionStat.Settled n s)
    (hnm : n ≤ m) : RegionStat.Settled m s :=
  ⟨h.1, le_trans h.2.1 hnm, h.2.2⟩

/-! The branches of `isNeedUpdateStatCache`. -/

theorem isNeedUpdateStatCache_hot_none (region : RegionInfo) (flowBytes thr : Nat)
    (kind : FlowKind) (now : Int) (h : flowBytes ≥ thr) :
    isNeedUpdateStatCache region flowBytes thr none kind now =
      some (true, some
        { RegionID := region.ID, FlowBytes := flowBytes, HotDegree := 0,
          LastUpdateTime := now, StoreID := region.LeaderStoreID, AntiCount := 1,
          Stats := some ((NewRollingStats rollingWindowsSize).Add (F64.ofUint64 flowBytes)) }) := by
  simp only [isNeedUpdateStatCache, h, if_true]
  rfl

theorem isNeedUpdateStatCache_hot_some (region : RegionInfo) (flowBytes thr : Nat)
    (old : RegionStat) (st : RollingStats) (kind : FlowKind) (now : Int)
    (h : flowBytes ≥ thr) (hst : old.Stats = some st) :
    isNeedUpdateStatCache region flowBytes thr (some old) kind now =
      some (true, some
        { RegionID := region.ID, FlowBytes := flowBytes,
          HotDegree := Go.wrapInt (old.HotDegree + 1),
          LastUpdateTime := now, StoreID := region.LeaderStoreID, AntiCount := 1,
          Stats := some (st.Add (F64.ofUint64 flowBytes)) }) := by
  simp only [isNeedUpdateStatCache, h, if_true, hst]
  rfl

theorem isNeedUpdateStatCache_hot_nil (region : RegionInfo) (flowBytes thr : Nat)
    (old : RegionStat) (kind : FlowKind) (now : Int)
    (h : flowBytes ≥ thr) (hst : old.Stats = none) :
    isNeedUpdateStatCache region flowBytes thr (some old) kind now = none := by
  simp only [isNeedUpdateStatCache, h, if_true, hst]

theorem isNeedUpdateStatCache_cold_none (region : RegionInfo) (flowBytes thr : Nat)
    (kind : FlowKind) (now : Int) (h : flowBytes < thr) :
    isNeedUpdateStatCache region flowBytes thr none kind now =
      some (false, some
        { RegionID := region.ID, FlowBytes := flowBytes, HotDegree := 0,
          LastUpdateTime := now, StoreID := region.LeaderStoreID, AntiCount := 1,
          Stats := none }) := by
  have h2 : ¬ flowBytes ≥ thr := by omega
  simp only [isNeedUpdateStatCache, h2, if_false]
  rfl

theorem isNeedUpdateStatCache_cold_evict (region : RegionInfo) (flowBytes thr : Nat)
    (old : RegionStat) (kind : FlowKind) (now : Int)
    (h : flowBytes < thr) (hac : old.AntiCount ≤ 0) :
    isNeedUpdateStatCache region flowBytes thr (some old) kind now = some (true, none) := by
  have h2 : ¬ flowBytes ≥ thr := by omega
  simp only [isNeedUpdateStatCache, h2, if_false, hac, if_true]

theorem isNeedUpdateStatCache_cold_some (region : RegionInfo) (flowBytes thr : Nat)
    (old : RegionStat) (st : RollingStats) (kind : FlowKind) (now : Int)
    (h : flowBytes < thr) (hac : 0 < old.AntiCount) (hst : old.Stats = some st) :
    isNeedUpdateStatCache region flowBytes thr (some old) kind now =
      some (true, some
        { RegionID := region.ID, FlowBytes := flowBytes,
          HotDegree := Go.wrapInt (old.HotDegree - 1),
          LastUpdateTime := now, StoreID := region.LeaderStoreID,
          AntiCount := Go.wrapInt (old.AntiCount - 1),
          Stats := some (st.Add (F64.ofUint64 flowBytes)) }) := by
  have h2 : ¬ flowBytes ≥ thr := by omega
  have h3 : ¬ old.AntiCount ≤ 0 := by omega
  simp only [isNeedUpdateStatCache, h2, if_false, h3, hst]
  rfl

theorem isNeedUpdateStatCache_cold_nil (region : RegionInfo) (flowBytes thr : Nat)
    (old : RegionStat) (kind : FlowKind) (now : Int)
    (h : flowBytes < thr) (hac : 0 < old.AntiCount) (hst : old.Stats = none) :
    isNeedUpdateStatCache region flowBytes thr (some old) kind now = none := by
  have h2 : ¬ flowBytes ≥ thr := by omega
  have h3 : ¬ old.AntiCount ≤ 0 := by omega
  simp only [isNeedUpdateStatCache, h2, if_false, h3, hst]

/-- The check never answers `(false, nil)`: when it does not ask for an update
it still hands back the new item. -/
theorem isNeedUpdateStatCache_ne_false_nil (region : RegionInfo) (flowBytes thr : Nat)
    (oldItem : Option RegionStat) (kind : FlowKind) (now : Int) :
    isNeedUpdateStatCache region flowBytes thr oldItem kind now ≠ some (false, none) := by
  by_cases h : flowBytes ≥ thr
  · cases oldItem with
    | none => rw [isNeedUpdateStatCache_hot_none _ _ _ _ _ h]; simp
    | some old =>
      cases hst : old.Stats with
      | none => rw [isNeedUpdateStatCache_hot_nil _ _ _ _ _ _ h hst]; simp
      | some st => rw [isNeedUpdateStatCache_hot_some _ _ _ _ _ _ _ h hst]; simp
  · have h2 : flowBytes < thr := by omega
    cases oldItem with
    | none => rw [isNeedUpdateStatCache_cold_none _ _ _ _ _ h2]; simp
    | some old =>
      by_cases hac : old.AntiCount ≤ 0
      · rw [isNeedUpdateStatCache_cold_evict _ _ _ _ _ _ h2 hac]; simp
      · have hac2 : 0 < old.AntiCount := by omega
        cases hst : old.Stats with
        | none => rw [isNeedUpdateStatCache_cold_nil _ _ _ _ _ _ h2 hac2 hst]; simp
        | some st => rw [isNeedUpdateStatCache_cold_some _ _ _ _ _ _ _ h2 hac2 hst]; simp

/-- When the check does not ask for an update, there was no prior item and the
item handed back is the fresh one, with hot degree 0. -/
theorem isNeedUpdateStatCache_false_item (region : RegionInfo) (flowBytes thr : Nat)
    (oldItem : Option RegionStat) (kind : FlowKind) (now : Int) (item : Option RegionStat)
    (h : isNeedUpdateStatCache region flowBytes thr oldItem kind now = some (false, item)) :
    oldItem = none ∧ ∃ it, item = some it ∧ it.HotDegree = 0 := by
  by_cases hhot : flowBytes ≥ thr
  · cases oldItem with
    | none => rw [isNeedUpdateStatCache_hot_none _ _ _ _ _ hhot] at h; simp at h
    | some old =>
      cases hst : old.Stats with
      | none => rw [isNeedUpdateStatCache_hot_nil _ _ _ _ _ _ hhot hst] at h; simp at h
      | some st => rw [isNeedUpdateStatCache_hot_some _ _ _ _ _ _ _ hhot hst] at h; simp at h
  · have h2 : flowBytes < thr := by omega
    cases oldItem with
    | none =>
      rw [isNeedUpdateStatCache_cold_none _ _ _ _ _ h2] at h
      simp only [Option.some.injEq, Prod.mk.injEq, true_and] at h
      exact ⟨rfl, _, h.symm, rfl⟩
    | some old =>
      by_cases hac : old.AntiCount ≤ 0
      · rw [isNeedUpdateStatCache_cold_evict _ _ _ _ _ _ h2 hac] at h; simp at h
      · have hac2 : 0 < old.AntiCount := by omega
        cases hst : old.Stats with
        | none => rw [isNeedUpdateStatCache_cold_nil _ _ _ _ _ _ h2 hac2 hst] at h; simp at h
        | some st =>
          rw [isNeedUpdateStatCache_cold_some _ _ _ _ _ _ _ h2 hac2 hst] at h; simp at h

/-- From a settled prior record, or none, the check returns, and what it hands
to `Update` is settled. -/
theorem isNeedUpdateStatCache_settled (region : RegionInfo) (flowBytes thr : Nat)
    (oldItem : Option RegionStat) (kind : FlowKind) (now : Int) (n : Int)
    (hn0 : 0 ≤ n) (hn : n + 1 < 2 ^ 63)
    (hold : ∀ s, oldItem = some s → RegionStat.Settled n s) :
    ∃ b item, isNeedUpdateStatCache region flowBytes thr oldItem kind now = some (b, item) ∧
      (b = true → ∀ it, item = some it → RegionStat.Settled (n + 1) it) := by
  cases oldItem with
  | none =>
    by_cases hhot : flowBytes ≥ thr
    · refine ⟨true, _, isNeedUpdateStatCache_hot_none _ _ _ _ _ hhot, ?_⟩
      intro _ it hit
      simp only [Option.some.injEq] at hit
      subst hit
      exact ⟨by simp, by simp only; omega, Or.inl ⟨rfl, le_refl _⟩⟩
    · refine ⟨false, _, isNeedUpdateStatCache_cold_none _ _ _ _ _ (by omega), ?_⟩
      intro hb
      cases hb
  | some old =>
    obtain ⟨hst, hle, hcase⟩ := hold old rfl
    obtain ⟨st, hst2⟩ := Option.ne_none_iff_exists'.1 hst
    by_cases hhot : flowBytes ≥ thr
    · refine ⟨true, _, isNeedUpdateStatCache_hot_some _ _ _ _ _ _ _ hhot hst2, ?_⟩
      intro _ it hit
      simp only [Option.some.injEq] at hit
      subst hit
      have hlow : -1 ≤ old.HotDegree := by
        rcases hcase with ⟨_, h⟩ | ⟨_, h⟩ <;> omega
      have hw : Go.wrapInt (old.HotDegree + 1) = old.HotDegree + 1 :=
        Go.wrapInt_of_range _ (by omega) (by omega)
      refine ⟨by simp, ?_, Or.inl ⟨rfl, ?_⟩⟩
      · simp only [hw]; omega
      · simp only [hw]; omega
    · by_cases hac : old.AntiCount ≤ 0
      · refine ⟨true, none, isNeedUpdateStatCache_cold_evict _ _ _ _ _ _ (by omega) hac, ?_⟩
        intro _ it hit
        cases hit
      · refine ⟨true, _,
          isNeedUpdateStatCache_cold_some _ _ _ _ _ _ _ (by omega) (by omega) hst2, ?_⟩
        intro _ it hit
        simp only [Option.some.injEq] at hit
        subst hit
        have hac1 : old.AntiCount = 1 ∧ 0 ≤ old.HotDegree := by
          rcases hcase with h | ⟨h, _⟩
          · exact h
          · omega
        have hw : Go.wrapInt (old.HotDegree - 1) = old.HotDegree - 1 :=
          Go.wrapInt_of_range _ (by omega) (by omega)
        have hw2 : Go.wrapInt (old.AntiCount - 1) = 0 := by
          rw [hac1.1]
          exact Go.wrapInt_of_range _ (by omega) (by omega)
        refine ⟨by simp, ?_, Or.inr ⟨hw2, ?_⟩⟩
        · simp only [hw]; omega
        · simp only [hw]; omega

theorem HotSpotCache.mem_Update (w : HotSpotCache) (key : Nat) (item : Option RegionStat)
    (kind k : FlowKind) (e : Nat × RegionStat)
    (h : e ∈ ((w.Update key item kind).flow k).elems) :
    (∃ it, item = some it ∧ e = (key, it)) ∨ e ∈ (w.flow k).elems := by
  cases kind <;> cases k <;> cases item <;>
    simp only [HotSpotCache.Update, HotSpotCache.flow] at h ⊢
  all_goals first
    | exact Or.inr h
    | exact Or.inr (Cache.mem_Remove _ _ _ h)
    | (rcases Cache.mem_Put _ _ _ _ h with h1 | h1
       · exact Or.inl ⟨_, rfl, h1⟩
       · exact Or.inr h1)

theorem HotSpotCache.Peek_Update_some (w : HotSpotCache) (key : Nat) (it : RegionStat)
    (kind : FlowKind) : ((w.Update key (some it) kind).flow kind).Peek key = some it := by
  cases kind <;> simp only [HotSpotCache.Update, HotSpotCache.flow, Cache.Peek_Put]

theorem HotSpotCache.Peek_Update_none (w : HotSpotCache) (key : Nat) (kind : FlowKind) :
    ((w.Update key none kind).flow kind).Peek key = none := by
  cases kind <;> simp only [HotSpotCache.Update, HotSpotCache.flow, Cache.Peek_Remove]

theorem HotSpotCache.settled_cache_of_le {n m : Int} {w : HotSpotCache} (h : HotSpotCache.Settled n w)
    (hnm : n ≤ m) : HotSpotCache.Settled m w :=
  fun kind e he => RegionStat.settled_of_le (h kind e he) hnm

/-- One observation on a settled cache returns and leaves a settled cache. -/
theorem HotSpotCache.observe_settled (w : HotSpotCache) (ob : Observation) (n : Int)
    (hn0 : 0 ≤ n) (hn : n + 1 < 2 ^ 63) (hw : HotSpotCache.Settled n w) :
    ∃ r w1, w.observe ob = some (r, w1) ∧ HotSpotCache.Settled (n + 1) w1 := by
  have hold : ∀ s, (w.flow ob.kind).Peek ob.region.ID = some s → RegionStat.Settled n s :=
    fun s hs => hw ob.kind _ (Cache.Peek_mem _ _ _ hs)
  obtain ⟨b, item, hr, hitem⟩ :=
    isNeedUpdateStatCache_settled ob.region ob.flowBytes ob.hotRegionThreshold
      ((w.flow ob.kind).Peek ob.region.ID) ob.kind ob.now n hn0 hn hold
  cases b with
  | false =>
    refine ⟨(false, item), w, ?_, HotSpotCache.settled_cache_of_le hw (by omega)⟩
    simp only [HotSpotCache.observe, hr]
  | true =>
    refine ⟨(true, item), w.Update ob.region.ID item ob.kind, ?_, ?_⟩
    · simp only [HotSpotCache.observe, hr]
    · intro k e he
      rcases HotSpotCache.mem_Update _ _ _ _ _ _ he with ⟨it, hit, he2⟩ | he2
      · rw [he2]
        exact hitem rfl it hit
      · exact RegionStat.settled_of_le (hw k e he2) (by omega)

theorem HotSpotCache.run_settled :
    ∀ (obs : List Observation) (w : HotSpotCache) (n : Int), 0 ≤ n →
      n + (obs.length : Int) < 2 ^ 63 → HotSpotCache.Settled n w →
      ∃ w1, w.run obs = some w1 ∧ HotSpotCache.Settled (n + (obs.length : Int)) w1 := by
  intro obs
  induction obs with
  | nil =>
    intro w n _ _ hw
    exact ⟨w, rfl, by simpa using hw⟩
  | cons ob rest ih =>
    intro w n hn0 hn hw
    simp only [List.length_cons, Nat.cast_add, Nat.cast_one] at hn ⊢
    obtain ⟨r, w1, hr, hw1⟩ := HotSpotCache.observe_settled w ob n hn0 (by omega) hw
    obtain ⟨w2, hrun, hw2⟩ := ih w1 (n + 1) (by omega) (by omega) hw1
    refine ⟨w2, ?_, ?_⟩
    · simp only [HotSpotCache.run, hr, hrun]
    · have : n + 1 + (rest.length : Int) = n + ((rest.length : Int) + 1) := by omega
      rw [← this]
      exact hw2

theorem NewHotSpotCache_settled : HotSpotCache.Settled 0 NewHotSpotCache := by
  intro kind e he
  cases kind <;> simp [NewHotSpotCache, NewCache, HotSpotCache.flow] at he

/-- C16, corrected.  The claim as stated fails: from the empty cache, one hot
observation of a region followed by one cold observation leaves the region in
the cache with `HotDegree = -1` (and `AntiCount = 0`); the second check is the
one that returns this record, with `shouldUpdate = true`. -/
theorem HotDegree_nonneg_counterexample :
    ((NewHotSpotCache.run
        [{ kind := .WriteFlow, region := RegionInfo.quiet 1 7, flowBytes := 100,
           hotRegionThreshold := 50, now := 0 },
         { kind := .WriteFlow, region := RegionInfo.quiet 1 7, flowBytes := 10,
           hotRegionThreshold := 50, now := 5 }]).bind
      (fun w => w.writeFlow.Peek 1)).map (fun s => (s.HotDegree, s.AntiCount))
      = some (-1, 0) ∧
    ¬ (0 : Int) ≤ -1 := by
  decide

/-- C16, as amended: `HotDegree` is at least -1.  Every record that
`isNeedUpdateStatCache` returns from no prior item or from a prior item as the
cache holds them, and hence every record in either cache when starting from an
empty cache and feeding each check result to `Update`, has `HotDegree >= -1`,
and `HotDegree >= 0` whenever its `AntiCount` is 1, for every sequence of fewer
than 2^63 hot and cold observations; no check of such a sequence fails. -/
theorem HotDegree_lower_bound (obs : List Observation) (hlen : (obs.length : Int) < 2 ^ 63) :
    (∀ (n : Int) (region : RegionInfo) (flowBytes thr : Nat) (oldItem : Option RegionStat)
        (kind : FlowKind) (now : Int) (b : Bool) (it : RegionStat),
      0 ≤ n → n + 1 < 2 ^ 63 → (∀ s, oldItem = some s → RegionStat.Settled n s) →
      isNeedUpdateStatCache region flowBytes thr oldItem kind now = some (b, some it) →
        -1 ≤ it.HotDegree) ∧
    ∃ w, NewHotSpotCache.run obs = some w ∧
      ∀ kind, ∀ e ∈ (w.flow kind).elems,
        -1 ≤ e.2.HotDegree ∧ (e.2.AntiCount = 1 → 0 ≤ e.2.HotDegree) ∧
          (e.2.AntiCount = 0 ∨ e.2.AntiCount = 1) := by
  constructor
  · intro n region flowBytes thr oldItem kind now b it hn0 hn hold h
    cases b with
    | false =>
      obtain ⟨_, it2, hit, hd⟩ := isNeedUpdateStatCache_false_item _ _ _ _ _ _ _ h
      simp only [Option.some.injEq] at hit
      rw [hit, hd]
      decide
    | true =>
      obtain ⟨b2, item2, hr, hitem⟩ :=
        isNeedUpdateStatCache_settled region flowBytes thr oldItem kind now n hn0 hn hold
      rw [hr] at h
      simp only [Option.some.injEq, Prod.mk.injEq] at h
      obtain ⟨_, _, hcase⟩ := hitem h.1 it h.2
      rcases hcase with ⟨_, h2⟩ | ⟨_, h2⟩ <;> omega
  · obtain ⟨w, hrun, hw⟩ :=
      HotSpotCache.run_settled obs NewHotSpotCache 0 (le_refl _) (by omega)
        NewHotSpotCache_settled
    refine ⟨w, hrun, ?_⟩
    intro kind e he
    obtain ⟨_, _, hcase⟩ := hw kind e he
    rcases hcase with ⟨h1, h2⟩ | ⟨h1, h2⟩
    · exact ⟨by omega, fun _ => h2, Or.inr h1⟩
    · exact ⟨h2, fun h => by omega, Or.inl h1⟩

/-- Witness of C16 as amended: the sequence of the counterexample, one hot and
one cold observation of region 1. -/
theorem HotDegree_lower_bound_witness :
    ∃ w, NewHotSpotCache.run
        [{ kind := .WriteFlow, region := RegionInfo.quiet 1 7, flowBytes := 100,
           hotRegionThreshold := 50, now := 0 },
         { kind := .WriteFlow, region := RegionInfo.quiet 1 7, flowBytes := 10,
           hotRegionThreshold := 50, now := 5 }] = some w ∧
      ∀ kind, ∀ e ∈ (w.flow kind).elems,
        -1 ≤ e.2.HotDegree ∧ (e.2.AntiCount = 1 → 0 ≤ e.2.HotDegree) ∧
          (e.2.AntiCount = 0 ∨ e.2.AntiCount = 1) :=
  (HotDegree_lower_bound _ (by decide)).2

/-- A cold observation of a cached region whose anti-count is positive and whose
window is present: the record is replaced by one with the anti-count lowered by
one, still with a window. -/
theorem HotSpotCache.observe_cold_keep (w : HotSpotCache) (ob : Observation) (s : RegionStat)
    (st : RollingStats) (hpeek : (w.flow ob.kind).Peek ob.region.ID = some s)
    (hcold : ob.flowBytes < ob.hotRegionThreshold) (hac : 0 < s.AntiCount)
    (hrange : s.AntiCount < 2 ^ 63) (hst : s.Stats = some st) :
    ∃ it, w.observe ob = some ((true, some it), w.Update ob.region.ID (some it) ob.kind) ∧
      it.AntiCount = s.AntiCount - 1 ∧ it.Stats ≠ none := by
  refine ⟨{ RegionID := ob.region.ID, FlowBytes := ob.flowBytes,
            HotDegree := Go.wrapInt (s.HotDegree - 1), LastUpdateTime := ob.now,
            StoreID := ob.region.LeaderStoreID, AntiCount := Go.wrapInt (s.AntiCount - 1),
            Stats := some (st.Add (F64.ofUint64 ob.flowBytes)) }, ?_, ?_, ?_⟩
  · simp only [HotSpotCache.observe, hpeek,
      isNeedUpdateStatCache_cold_some _ _ _ _ _ _ _ hcold hac hst]
  · exact Go.wrapInt_of_range _ (by omega) (by omega)
  · simp

/-- A cold observation of a cached region whose anti-count is not positive: the
check answers `(true, nil)` and the region is removed. -/
theorem HotSpotCache.observe_cold_evict (w : HotSpotCache) (ob : Observation) (s : RegionStat)
    (hpeek : (w.flow ob.kind).Peek ob.region.ID = some s)
    (hcold : ob.flowBytes < ob.hotRegionThreshold) (hac : s.AntiCount ≤ 0) :
    w.observe ob = some ((true, none), w.Update ob.region.ID none ob.kind) := by
  simp only [HotSpotCache.observe, hpeek,
    isNeedUpdateStatCache_cold_evict _ _ _ _ _ _ hcold hac]

theorem HotSpotCache.trace_cold :
    ∀ (k : Nat) (w : HotSpotCache) (kind : FlowKind) (id : Nat) (s : RegionStat)
      (obs : List Observation),
      (w.flow kind).Peek id = some s → s.AntiCount = (k : Int) → s.AntiCount < 2 ^ 63 →
      (0 < k → s.Stats ≠ none) → obs.length = k + 1 →
      (∀ ob ∈ obs, ob.kind = kind ∧ ob.region.ID = id ∧
        ob.flowBytes < ob.hotRegionThreshold) →
      ∃ (items : List RegionStat) (w1 : HotSpotCache),
        w.trace obs = some (items.map (fun it => (true, some it)) ++ [(true, none)], w1) ∧
        items.length = k ∧ (w1.flow kind).Peek id = none := by
  intro k
  induction k with
  | zero =>
    intro w kind id s obs hpeek hk _ _ hlen hobs
    match obs, hlen with
    | [ob], _ =>
      obtain ⟨hkind, hid, hcold⟩ := hobs ob (List.mem_singleton.2 rfl)
      subst hkind; subst hid
      have hac : s.AntiCount ≤ 0 := by rw [hk]; simp
      refine ⟨[], w.Update ob.region.ID none ob.kind, ?_, rfl,
        HotSpotCache.Peek_Update_none _ _ _⟩
      simp only [HotSpotCache.trace, HotSpotCache.observe_cold_evict w ob s hpeek hcold hac,
        List.map_nil, List.nil_append]
  | succ k ih =>
    intro w kind id s obs hpeek hk hrange hst hlen hobs
    match obs, hlen with
    | ob :: rest, hlen =>
      obtain ⟨hkind, hid, hcold⟩ := hobs ob (List.mem_cons_self _ _)
      subst hkind; subst hid
      have hac : 0 < s.AntiCount := by rw [hk]; push_cast; omega
      obtain ⟨st, hst2⟩ := Option.ne_none_iff_exists'.1 (hst (Nat.succ_pos k))
      obtain ⟨it, hob, hitac, hitst⟩ :=
        HotSpotCache.observe_cold_keep w ob s st hpeek hcold hac hrange hst2
      have hitk : it.AntiCount = (k : Int) := by
        rw [hitac, hk]; push_cast; omega
      obtain ⟨items, w1, htr, hlen1, hpeek1⟩ :=
        ih (w.Update ob.region.ID (some it) ob.kind) ob.kind ob.region.ID it rest
          (HotSpotCache.Peek_Update_some _ _ _ _) hitk (by omega) (fun _ => hitst)
          (by simpa using hlen)
          (fun o ho => hobs o (List.mem_cons_of_mem _ ho))
      refine ⟨it :: items, w1, ?_, by simp [hlen1], hpeek1⟩
      simp only [HotSpotCache.trace, hob, htr, List.map_cons, List.cons_append]

/-! Records of a cache filled from check results. -/

/-- From a well-formed prior record, or none, the check returns, and what it
hands to `Update` is well formed. -/
theorem isNeedUpdateStatCache_wellFormed (region : RegionInfo) (flowBytes thr : Nat)
    (oldItem : Option RegionStat) (kind : FlowKind) (now : Int)
    (hold : ∀ s, oldItem = some s → RegionStat.WellFormed s) :
    ∃ b item, isNeedUpdateStatCache region flowBytes thr oldItem kind now = some (b, item) ∧
      (b = true → ∀ it, item = some it → RegionStat.WellFormed it) := by
  cases oldItem with
  | none =>
    by_cases hhot : flowBytes ≥ thr
    · refine ⟨true, _, isNeedUpdateStatCache_hot_none _ _ _ _ _ hhot, ?_⟩
      intro _ it hit
      simp only [Option.some.injEq] at hit
      subst hit
      exact ⟨by simp, Or.inr rfl⟩
    · refine ⟨false, _, isNeedUpdateStatCache_cold_none _ _ _ _ _ (by omega), ?_⟩
      intro hb
      cases hb
  | some old =>
    obtain ⟨hst0, hac01⟩ := hold old rfl
    obtain ⟨st, hst⟩ := Option.ne_none_iff_exists'.1 hst0
    by_cases hhot : flowBytes ≥ thr
    · refine ⟨true, _, isNeedUpdateStatCache_hot_some _ _ _ _ _ _ _ hhot hst, ?_⟩
      intro _ it hit
      simp only [Option.some.injEq] at hit
      subst hit
      exact ⟨by simp, Or.inr rfl⟩
    · by_cases hac : old.AntiCount ≤ 0
      · refine ⟨true, none, isNeedUpdateStatCache_cold_evict _ _ _ _ _ _ (by omega) hac, ?_⟩
        intro _ it hit
        cases hit
      · refine ⟨true, _,
          isNeedUpdateStatCache_cold_some _ _ _ _ _ _ _ (by omega) (by omega) hst, ?_⟩
        intro _ it hit
        simp only [Option.some.injEq] at hit
        subst hit
        have h1 : old.AntiCount = 1 := by omega
        have hw : Go.wrapInt (old.AntiCount - 1) = 0 := by
          rw [h1]
          exact Go.wrapInt_of_range _ (by omega) (by omega)
        exact ⟨by simp, Or.inl hw⟩

theorem HotSpotCache.observe_wellFormed (w : HotSpotCache) (ob : Observation)
    (hw : HotSpotCache.WellFormed w) :
    ∃ r w1, w.observe ob = some (r, w1) ∧ HotSpotCache.WellFormed w1 := by
  have hold : ∀ s, (w.flow ob.kind).Peek ob.region.ID = some s → RegionStat.WellFormed s :=
    fun s hs => hw ob.kind _ (Cache.Peek_mem _ _ _ hs)
  obtain ⟨b, item, hr, hitem⟩ :=
    isNeedUpdateStatCache_wellFormed ob.region ob.flowBytes ob.hotRegionThreshold
      ((w.flow ob.kind).Peek ob.region.ID) ob.kind ob.now hold
  cases b with
  | false =>
    refine ⟨(false, item), w, ?_, hw⟩
    simp only [HotSpotCache.observe, hr]
  | true =>
    refine ⟨(true, item), w.Update ob.region.ID item ob.kind, ?_, ?_⟩
    · simp only [HotSpotCache.observe, hr]
    · intro k e he
      rcases HotSpotCache.mem_Update _ _ _ _ _ _ he with ⟨it, hit, he2⟩ | he2
      · rw [he2]
        exact hitem rfl it hit
      · exact hw k e he2

theorem HotSpotCache.run_wellFormed :
    ∀ (obs : List Observation) (w : HotSpotCache), HotSpotCache.WellFormed w →
      ∃ w1, w.run obs = some w1 ∧ HotSpotCache.WellFormed w1 := by
  intro obs
  induction obs with
  | nil =>
    intro w hw
    exact ⟨w, rfl, hw⟩
  | cons ob rest ih =>
    intro w hw
    obtain ⟨r, w1, hr, hw1⟩ := HotSpotCache.observe_wellFormed w ob hw
    obtain ⟨w2, hrun, hw2⟩ := ih w1 hw1
    exact ⟨w2, by simp only [HotSpotCache.run, hr, hrun], hw2⟩

theorem NewHotSpotCache_wellFormed : HotSpotCache.WellFormed NewHotSpotCache := by
  intro kind e he
  cases kind <;> simp [NewHotSpotCache, NewCache, HotSpotCache.flow] at he

/-- Every record of a cache reached from the empty cache is well formed. -/
theorem HotSpotCache.wellFormed_of_run (obs0 : List Observation) (w : HotSpotCache)
    (hreach : NewHotSpotCache.run obs0 = some w) : HotSpotCache.WellFormed w := by
  obtain ⟨w2, hrun, hwf⟩ :=
    HotSpotCache.run_wellFormed obs0 NewHotSpotCache NewHotSpotCache_wellFormed
  rw [hreach] at hrun
  simp only [Option.some.injEq] at hrun
  rw [hrun]
  exact hwf

/-- Every record of a cache reached from the empty cache by `obs0` is settled
at the length of `obs0`. -/
theorem HotSpotCache.settled_of_run (obs0 : List Observation) (w : HotSpotCache)
    (hlen : (obs0.length : Int) < 2 ^ 63)
    (hreach : NewHotSpotCache.run obs0 = some w) :
    HotSpotCache.Settled (obs0.length : Int) w := by
  obtain ⟨w2, hrun, hs⟩ :=
    HotSpotCache.run_settled obs0 NewHotSpotCache 0 (le_refl _) (by omega)
      NewHotSpotCache_settled
  rw [hreach] at hrun
  simp only [Option.some.injEq] at hrun
  rw [hrun]
  simpa using hs

/-- The first hot observation of region 1 puts the record `firstHot` into the
empty cache. -/
theorem NewHotSpotCache_run_firstHot :
    NewHotSpotCache.run [Observation.sample 1 100 0]
      = some (HotSpotCache.ofWrite (RegionStat.firstHot 1 100 0)) :=
  rfl

/-- C17: eviction after `AntiCount + 1` cold observations.  For a region whose
cached record has `AntiCount = k >= 0`, in a cache filled from the empty cache
by passing check results to `Update`: if the next `k + 1` unsuppressed
observations of the region all have `flowBytes < threshold` and each result is
passed to `Update`, then each of the first `k` observations returns
`(true, item)` with a non-nil item and the last returns `(true, nil)`, so
`Update` removes the region from the cache.  The same holds in any cache for a
record that has a window when `k > 0`. -/
theorem cold_eviction (kind : FlowKind) (id : Nat) (k : Nat) (obs : List Observation)
    (hlen : obs.length = k + 1)
    (hobs : ∀ ob ∈ obs, ob.kind = kind ∧ ob.region.ID = id ∧
      ob.flowBytes < ob.hotRegionThreshold) :
    (∀ (obs0 : List Observation) (w : HotSpotCache) (s : RegionStat),
      NewHotSpotCache.run obs0 = some w → (w.flow kind).Peek id = some s →
      s.AntiCount = (k : Int) →
      ∃ (items : List RegionStat) (w1 : HotSpotCache),
        w.trace obs = some (items.map (fun it => (true, some it)) ++ [(true, none)], w1) ∧
        items.length = k ∧ (w1.flow kind).Peek id = none) ∧
    (∀ (w : HotSpotCache) (s : RegionStat),
      (w.flow kind).Peek id = some s → s.AntiCount = (k : Int) → s.AntiCount < 2 ^ 63 →
      (0 < k → s.Stats ≠ none) →
      ∃ (items : List RegionStat) (w1 : HotSpotCache),
        w.trace obs = some (items.map (fun it => (true, some it)) ++ [(true, none)], w1) ∧
        items.length = k ∧ (w1.flow kind).Peek id = none) := by
  constructor
  · intro obs0 w s hreach hpeek hk
    obtain ⟨hst, hac⟩ :=
      HotSpotCache.wellFormed_of_run obs0 w hreach kind _ (Cache.Peek_mem _ _ _ hpeek)
    simp only at hst hac
    exact HotSpotCache.trace_cold k w kind id s obs hpeek hk (by omega) (fun _ => hst) hlen hobs
  · intro w s hpeek hk hrange hst
    exact HotSpotCache.trace_cold k w kind id s obs hpeek hk hrange hst hlen hobs

/-- Witness of C17: the record cached by a first hot observation has
`AntiCount = 1`; it is kept by the first cold observation and removed by the
second. -/
theorem cold_eviction_witness :
    ∃ (items : List RegionStat) (w1 : HotSpotCache),
      (HotSpotCache.ofWrite (RegionStat.firstHot 1 100 0)).trace
        [Observation.sample 1 10 5, Observation.sample 1 10 10]
        = some (items.map (fun it => (true, some it)) ++ [(true, none)], w1) ∧
      items.length = 1 ∧ (w1.flow .WriteFlow).Peek 1 = none :=
  (cold_eviction .WriteFlow 1 1 [Observation.sample 1 10 5, Observation.sample 1 10 10] rfl
    (by
      intro ob hob
      simp only [List.mem_cons, List.mem_singleton, List.not_mem_nil, or_false] at hob
      rcases hob with rfl | rfl <;> exact ⟨rfl, rfl, by decide⟩)).1
    [Observation.sample 1 100 0] (HotSpotCache.ofWrite (RegionStat.firstHot 1 100 0))
    (RegionStat.firstHot 1 100 0) NewHotSpotCache_run_firstHot rfl rfl

/-- C18: hot branch.  For every region and every `flowBytes >= threshold`: with
no prior item, `isNeedUpdateStatCache` returns `(true, item)` with
`item.AntiCount = 1`, `item.FlowBytes = flowBytes` and `item.HotDegree = 0`; with
a prior item, which is a record of a cache filled from the empty cache by fewer
than 2^63 - 1 observations, it returns `(true, item)` with `item.AntiCount = 1`,
`item.FlowBytes = flowBytes` and `item.HotDegree = old.HotDegree + 1`, so
`HotDegree` strictly increases over consecutive hot observations.  The same
holds of any prior item that has a window and a `HotDegree` below the largest
`int`. -/
theorem hot_branch (region : RegionInfo) (flowBytes thr : Nat) (kind : FlowKind) (now : Int)
    (h : flowBytes ≥ thr) :
    (∃ it, isNeedUpdateStatCache region flowBytes thr none kind now = some (true, some it) ∧
      it.AntiCount = 1 ∧ it.FlowBytes = flowBytes ∧ it.HotDegree = 0) ∧
    (∀ (obs0 : List Observation) (w : HotSpotCache) (k : FlowKind) (e : Nat × RegionStat),
      (obs0.length : Int) + 1 < 2 ^ 63 → NewHotSpotCache.run obs0 = some w →
      e ∈ (w.flow k).elems →
      ∃ it, isNeedUpdateStatCache region flowBytes thr (some e.2) kind now
          = some (true, some it) ∧
        it.AntiCount = 1 ∧ it.FlowBytes = flowBytes ∧
        it.HotDegree = e.2.HotDegree + 1 ∧ e.2.HotDegree < it.HotDegree) ∧
    (∀ old : RegionStat, old.Stats ≠ none → -(2 ^ 63) ≤ old.HotDegree →
      old.HotDegree < 2 ^ 63 - 1 →
      ∃ it, isNeedUpdateStatCache region flowBytes thr (some old) kind now
          = some (true, some it) ∧
        it.AntiCount = 1 ∧ it.FlowBytes = flowBytes ∧
        it.HotDegree = old.HotDegree + 1 ∧ old.HotDegree < it.HotDegree) := by
  have hgen : ∀ old : RegionStat, old.Stats ≠ none → -(2 ^ 63) ≤ old.HotDegree →
      old.HotDegree < 2 ^ 63 - 1 →
      ∃ it, isNeedUpdateStatCache region flowBytes thr (some old) kind now
          = some (true, some it) ∧
        it.AntiCount = 1 ∧ it.FlowBytes = flowBytes ∧
        it.HotDegree = old.HotDegree + 1 ∧ old.HotDegree < it.HotDegree := by
    intro old hst hlo hhi
    obtain ⟨st, hst2⟩ := Option.ne_none_iff_exists'.1 hst
    have hw : Go.wrapInt (old.HotDegree + 1) = old.HotDegree + 1 :=
      Go.wrapInt_of_range _ (by omega) (by omega)
    refine ⟨_, isNeedUpdateStatCache_hot_some _ _ _ _ _ _ _ h hst2, rfl, rfl, hw, ?_⟩
    simp only [hw]
    omega
  refine ⟨⟨_, isNeedUpdateStatCache_hot_none _ _ _ _ _ h, rfl, rfl, rfl⟩, ?_, hgen⟩
  intro obs0 w k e hlen hreach he
  obtain ⟨hst, hle, hcase⟩ := HotSpotCache.settled_of_run obs0 w (by omega) hreach k e he
  exact hgen e.2 hst (by rcases hcase with ⟨_, h1⟩ | ⟨_, h1⟩ <;> omega) (by omega)

/-- Witness of C18: a region writing 2 MiB/s against the threshold of 16 KiB/s;
the first check, on the empty cache, gives `HotDegree = 0` and `AntiCount = 1`,
and the check on the record that a first hot observation has cached gives
`HotDegree = 1`. -/
theorem hot_branch_witness :
    (∃ it, isNeedUpdateStatCache (RegionInfo.quiet 1 7) 2097152 16384 none .WriteFlow 0
        = some (true, some it) ∧
      it.AntiCount = 1 ∧ it.FlowBytes = 2097152 ∧ it.HotDegree = 0) ∧
    (∃ it, isNeedUpdateStatCache (RegionInfo.quiet 1 7) 2097152 16384
        (some (RegionStat.firstHot 1 100 0)) .WriteFlow 3000000000 = some (true, some it) ∧
      it.AntiCount = 1 ∧ it.FlowBytes = 2097152 ∧ it.HotDegree = 0 + 1 ∧ 0 < it.HotDegree) :=
  ⟨(hot_branch (RegionInfo.quiet 1 7) 2097152 16384 .WriteFlow 0 (by decide)).1,
    (hot_branch (RegionInfo.quiet 1 7) 2097152 16384 .WriteFlow 3000000000 (by decide)).2.1
      [Observation.sample 1 100 0] (HotSpotCache.ofWrite (RegionStat.firstHot 1 100 0))
      .WriteFlow (1, RegionStat.firstHot 1 100 0) (by decide) NewHotSpotCache_run_firstHot
      (List.Mem.head _)⟩

/-- C19: cold branch.  For every `flowBytes < threshold`,
`isNeedUpdateStatCache` returns `(false, item)` when there is no prior item;
returns `(true, nil)` when the prior item has `AntiCount <= 0`; and otherwise,
the prior item being a record of a cache filled from the empty cache by fewer
than 2^63 observations, returns `(true, item)` with
`item.HotDegree = old.HotDegree - 1` and `item.AntiCount = old.AntiCount - 1`.
The same holds of any prior item with a positive `AntiCount` that has a window
and a `HotDegree` above the smallest `int`. -/
theorem cold_branch (region : RegionInfo) (flowBytes thr : Nat) (kind : FlowKind) (now : Int)
    (h : flowBytes < thr) :
    (∃ it, isNeedUpdateStatCache region flowBytes thr none kind now
      = some (false, some it)) ∧
    (∀ old : RegionStat, old.AntiCount ≤ 0 →
      isNeedUpdateStatCache region flowBytes thr (some old) kind now = some (true, none)) ∧
    (∀ (obs0 : List Observation) (w : HotSpotCache) (k : FlowKind) (e : Nat × RegionStat),
      (obs0.length : Int) < 2 ^ 63 → NewHotSpotCache.run obs0 = some w →
      e ∈ (w.flow k).elems → 0 < e.2.AntiCount →
      ∃ it, isNeedUpdateStatCache region flowBytes thr (some e.2) kind now
          = some (true, some it) ∧
        it.HotDegree = e.2.HotDegree - 1 ∧ it.AntiCount = e.2.AntiCount - 1) ∧
    (∀ old : RegionStat, 0 < old.AntiCount → old.AntiCount < 2 ^ 63 → old.Stats ≠ none →
      -(2 ^ 63) < old.HotDegree → old.HotDegree < 2 ^ 63 →
      ∃ it, isNeedUpdateStatCache region flowBytes thr (some old) kind now
          = some (true, some it) ∧
        it.HotDegree = old.HotDegree - 1 ∧ it.AntiCount = old.AntiCount - 1) := by
  have hgen : ∀ old : RegionStat, 0 < old.AntiCount → old.AntiCount < 2 ^ 63 →
      old.Stats ≠ none → -(2 ^ 63) < old.HotDegree → old.HotDegree < 2 ^ 63 →
      ∃ it, isNeedUpdateStatCache region flowBytes thr (some old) kind now
          = some (true, some it) ∧
        it.HotDegree = old.HotDegree - 1 ∧ it.AntiCount = old.AntiCount - 1 := by
    intro old hac hacr hst hlo hhi
    obtain ⟨st, hst2⟩ := Option.ne_none_iff_exists'.1 hst
    exact ⟨_, isNeedUpdateStatCache_cold_some _ _ _ _ _ _ _ h hac hst2,
      Go.wrapInt_of_range _ (by omega) (by omega), Go.wrapInt_of_range _ (by omega) (by omega)⟩
  refine ⟨⟨_, isNeedUpdateStatCache_cold_none _ _ _ _ _ h⟩,
    fun old hac => isNeedUpdateStatCache_cold_evict _ _ _ _ _ _ h hac, ?_, hgen⟩
  intro obs0 w k e hlen hreach he hac
  obtain ⟨hst, hle, hcase⟩ := HotSpotCache.settled_of_run obs0 w hlen hreach k e he
  exact hgen e.2 hac (by rcases hcase with ⟨h1, _⟩ | ⟨h1, _⟩ <;> omega) hst
    (by rcases hcase with ⟨_, h1⟩ | ⟨_, h1⟩ <;> omega) (by omega)

/-- Witness of C19: a cold check on the record that a first hot observation has
cached (`HotDegree = 0`, `AntiCount = 1`) gives `HotDegree = -1`,
`AntiCount = 0` with `shouldUpdate = true`; a record with `HotDegree = 5`,
`AntiCount = 1` gives `HotDegree = 4`, `AntiCount = 0`; and the next cold check,
on a record with `AntiCount = 0`, gives `(true, nil)`. -/
theorem cold_branch_witness :
    (∃ it, isNeedUpdateStatCache (RegionInfo.quiet 1 7) 10 50
        (some (RegionStat.firstHot 1 100 0)) .WriteFlow 0 = some (true, some it) ∧
      it.HotDegree = 0 - 1 ∧ it.AntiCount = 1 - 1) ∧
    (∃ it, isNeedUpdateStatCache (RegionInfo.quiet 1 7) 10 50
        (some (RegionStat.sample 1 5 1 (some (NewRollingStats rollingWindowsSize))))
        .WriteFlow 0 = some (true, some it) ∧
      it.HotDegree = 5 - 1 ∧ it.AntiCount = 1 - 1) ∧
    isNeedUpdateStatCache (RegionInfo.quiet 1 7) 10 50
        (some (RegionStat.sample 1 4 0 (some (NewRollingStats rollingWindowsSize))))
        .WriteFlow 0 = some (true, none) :=
  ⟨(cold_branch (RegionInfo.quiet 1 7) 10 50 .WriteFlow 0 (by decide)).2.2.1
      [Observation.sample 1 100 0] (HotSpotCache.ofWrite (RegionStat.firstHot 1 100 0))
      .WriteFlow (1, RegionStat.firstHot 1 100 0) (by decide) NewHotSpotCache_run_firstHot
      (List.Mem.head _) (by decide),
    (cold_branch (RegionInfo.quiet 1 7) 10 50 .WriteFlow 0 (by decide)).2.2.2
      (RegionStat.sample 1 5 1 (some (NewRollingStats rollingWindowsSize)))
      (by decide) (by decide) (by simp [RegionStat.sample]) (by decide) (by decide),
    (cold_branch (RegionInfo.quiet 1 7) 10 50 .WriteFlow 0 (by decide)).2.1
      (RegionStat.sample 1 4 0 (some (NewRollingStats rollingWindowsSize))) (by decide)⟩

/-! The checks. -/

theorem RegionHeartBeatReportInterval_cast :
    ((RegionHeartBeatReportInterval : Nat) : ℚ) = 60 := by
  unfold RegionHeartBeatReportInterval
  norm_num

/-- Below 2^53 bytes the flow rate over the report interval is the integer
quotient of the byte count by 60. -/
theorem F64.flow_of_lt (b : Nat) (hb : b < 2 ^ 53) :
    F64.toUint64 (F64.div (F64.ofUint64 b) 60) = b / 60 := by
  rw [F64.ofUint64_of_le b hb.le]
  unfold F64.div
  have hbq : (b : ℚ) < 9007199254740992 := by
    have : (b : ℚ) < ((2 ^ 53 : Nat) : ℚ) := by exact_mod_cast hb
    refine lt_of_lt_of_le this ?_
    norm_num
  have := F64.toUint64_round_div b 60 48 (by norm_num) (by norm_num) (by norm_num)
    (by
      rw [div_lt_iff₀ (by norm_num)]
      have h2 : (2 : ℚ) ^ (48 : Int) * ((60 : Nat) : ℚ) = 16888498602639360 := by norm_num
      rw [h2]
      linarith)
    (by norm_num)
  simpa using this

/-- The three ways `CheckWrite` goes. -/
theorem CheckWrite_cases (w : HotSpotCache) (Simulating : Bool) (now now1 : Int)
    (region : RegionInfo) (stats : StoresStats) :
    (∀ value, w.writeFlow.Peek region.ID = some value → Simulating = false →
      now - value.LastUpdateTime < 3000000000 →
      w.CheckWrite Simulating now now1 region stats = some (false, none)) ∧
    (∀ value, w.writeFlow.Peek region.ID = some value → Simulating = false →
      ¬ now - value.LastUpdateTime < 3000000000 →
      w.CheckWrite Simulating now now1 region stats =
        isNeedUpdateStatCache region
          (F64.toUint64 (F64.div (F64.ofUint64 region.BytesWritten)
            (Duration.Seconds (now - value.LastUpdateTime))))
          (calculateWriteHotThreshold stats) (some value) .WriteFlow now1) ∧
    ((Simulating = true ∨ w.writeFlow.Peek region.ID = none) →
      w.CheckWrite Simulating now now1 region stats =
        isNeedUpdateStatCache region
          (F64.toUint64 (F64.div (F64.ofUint64 region.BytesWritten) 60))
          (calculateWriteHotThreshold stats) (w.writeFlow.Peek region.ID) .WriteFlow now1) := by
  refine ⟨?_, ?_, ?_⟩
  · intro value hpeek hsim hlt
    have := (Duration.Seconds_lt_iff (now - value.LastUpdateTime)).2 hlt
    simp only [HotSpotCache.CheckWrite, hpeek, hsim, Bool.not_false, if_true, this]
  · intro value hpeek hsim hlt
    have : ¬ Duration.Seconds (now - value.LastUpdateTime) < (minHotRegionReportInterval : ℚ) :=
      fun hc => hlt ((Duration.Seconds_lt_iff _).1 hc)
    simp only [HotSpotCache.CheckWrite, hpeek, hsim, Bool.not_false, if_true, this, if_false]
  · intro h
    cases hpeek : w.writeFlow.Peek region.ID with
    | none =>
      simp only [HotSpotCache.CheckWrite, hpeek, RegionHeartBeatReportInterval_cast]
    | some value =>
      rcases h with hsim | hnone
      · simp only [HotSpotCache.CheckWrite, hpeek, hsim, Bool.not_true, Bool.false_eq_true,
          if_false, RegionHeartBeatReportInterval_cast]
      · rw [hpeek] at hnone
        cases hnone

/-- The three ways `CheckRead` goes. -/
theorem CheckRead_cases (w : HotSpotCache) (Simulating : Bool) (now now1 : Int)
    (region : RegionInfo) (stats : StoresStats) :
    (∀ value, w.readFlow.Peek region.ID = some value → Simulating = false →
      now - value.LastUpdateTime < 3000000000 →
      w.CheckRead Simulating now now1 region stats = some (false, none)) ∧
    (∀ value, w.readFlow.Peek region.ID = some value → Simulating = false →
      ¬ now - value.LastUpdateTime < 3000000000 →
      w.CheckRead Simulating now now1 region stats =
        isNeedUpdateStatCache region
          (F64.toUint64 (F64.div (F64.ofUint64 region.BytesRead)
            (Duration.Seconds (now - value.LastUpdateTime))))
          (calculateReadHotThreshold stats) (some value) .ReadFlow now1) ∧
    ((Simulating = true ∨ w.readFlow.Peek region.ID = none) →
      w.CheckRead Simulating now now1 region stats =
        isNeedUpdateStatCache region
          (F64.toUint64 (F64.div (F64.ofUint64 region.BytesRead) 60))
          (calculateReadHotThreshold stats) (w.readFlow.Peek region.ID) .ReadFlow now1) := by
  refine ⟨?_, ?_, ?_⟩
  · intro value hpeek hsim hlt
    have := (Duration.Seconds_lt_iff (now - value.LastUpdateTime)).2 hlt
    simp only [HotSpotCache.CheckRead, hpeek, hsim, Bool.not_false, if_true, this]
  · intro value hpeek hsim hlt
    have : ¬ Duration.Seconds (now - value.LastUpdateTime) < (minHotRegionReportInterval : ℚ) :=
      fun hc => hlt ((Duration.Seconds_lt_iff _).1 hc)
    simp only [HotSpotCache.CheckRead, hpeek, hsim, Bool.not_false, if_true, this, if_false]
  · intro h
    cases hpeek : w.readFlow.Peek region.ID with
    | none =>
      simp only [HotSpotCache.CheckRead, hpeek, RegionHeartBeatReportInterval_cast]
    | some value =>
      rcases h with hsim | hnone
      · simp only [HotSpotCache.CheckRead, hpeek, hsim, Bool.not_true, Bool.false_eq_true,
          if_false, RegionHeartBeatReportInterval_cast]
      · rw [hpeek] at hnone
        cases hnone

theorem calculateWriteHotThreshold_eq (stats : StoresStats) :
    calculateWriteHotThreshold stats =
      max (16 * 1024) (F64.toUint64 (F64.div stats.TotalBytesWriteRate 2000)) := by
  have hd : ((statCacheMaxLen : Nat) : ℚ) * 2 = 2000 := by
    unfold statCacheMaxLen
    norm_num
  simp only [calculateWriteHotThreshold, hd, hotWriteRegionMinFlowRate]
  split
  · rw [max_eq_left]; omega
  · rw [max_eq_right]; omega

theorem calculateReadHotThreshold_eq (stats : StoresStats) :
    calculateReadHotThreshold stats =
      max (128 * 1024) (F64.toUint64 (F64.div stats.TotalBytesReadRate 1000)) := by
  have hd : ((statCacheMaxLen : Nat) : ℚ) = 1000 := by
    unfold statCacheMaxLen
    norm_num
  simp only [calculateReadHotThreshold, hd, hotReadRegionMinFlowRate]
  split
  · rw [max_eq_left]; omega
  · rw [max_eq_right]; omega

theorem F64.toUint64_div_zero (d : ℚ) : F64.toUint64 (F64.div 0 d) = 0 := by
  unfold F64.div
  rw [zero_div, F64.round_zero]
  exact F64.toUint64_of_floor 0 0 (by norm_num) (by norm_num) (by norm_num)

/-- C20, corrected.  The claim as stated fails in its last part: with no entry
for the region and a byte count of 2^64 - 1, the flow rate that `CheckWrite`
passes on, and stores in the item it returns, is 307445734561825856, not
(2^64 - 1) / 60 = 307445734561825860: the byte count is converted to float64 and
the quotient rounded before it is truncated. -/
theorem jitter_suppression_counterexample :
    NewHotSpotCache.writeFlow.Peek 1 = none ∧
    (NewHotSpotCache.CheckWrite false 0 0
        { ID := 1, LeaderStoreID := 7, BytesWritten := 2 ^ 64 - 1, BytesRead := 0 }
        { TotalBytesWriteRate := 0, TotalBytesReadRate := 0 }).map
      (fun r => (r.1, r.2.map (fun it => it.FlowBytes)))
      = some (true, some 307445734561825856) ∧
    (2 ^ 64 - 1) / 60 = 307445734561825860 := by
  have hp : NewHotSpotCache.writeFlow.Peek 1 = none := rfl
  refine ⟨hp, ?_, by norm_num⟩
  rw [(CheckWrite_cases NewHotSpotCache false 0 0 _ _).2.2 (Or.inr rfl)]
  simp only [F64.div_max_60, calculateWriteHotThreshold_eq, F64.toUint64_div_zero, hp]
  rw [isNeedUpdateStatCache_hot_none _ _ _ _ _ (by norm_num)]
  rfl

/-- C20, as amended: jitter suppression.  For `CheckWrite`, and in the same way
for `CheckRead`: whenever the cache of that flow holds an entry for the region,
`Simulating` is false and the time elapsed since the `LastUpdateTime` of the
entry is less than 3 seconds, the result is `(false, nil)`, for every byte count
and every cluster rate; when `Simulating` is true or no entry exists, the result
is that of `isNeedUpdateStatCache` on the flow rate `uint64(float64(bytes) / 60)`,
whatever the elapsed time, which is bytes / 60 for every byte count below 2^53,
and it is not `(false, nil)`.  So the check answers `(false, nil)` exactly in the
first case. -/
theorem jitter_suppression (w : HotSpotCache) (Simulating : Bool) (now now1 : Int)
    (region : RegionInfo) (stats : StoresStats) :
    ((∀ value, w.writeFlow.Peek region.ID = some value → Simulating = false →
        now - value.LastUpdateTime < 3000000000 →
        w.CheckWrite Simulating now now1 region stats = some (false, none)) ∧
      ((Simulating = true ∨ w.writeFlow.Peek region.ID = none) →
        w.CheckWrite Simulating now now1 region stats =
          isNeedUpdateStatCache region
            (F64.toUint64 (F64.div (F64.ofUint64 region.BytesWritten) 60))
            (calculateWriteHotThreshold stats) (w.writeFlow.Peek region.ID) .WriteFlow now1 ∧
        (region.BytesWritten < 2 ^ 53 →
          w.CheckWrite Simulating now now1 region stats =
            isNeedUpdateStatCache region (region.BytesWritten / 60)
              (calculateWriteHotThreshold stats) (w.writeFlow.Peek region.ID) .WriteFlow
              now1) ∧
        w.CheckWrite Simulating now now1 region stats ≠ some (false, none)) ∧
      (w.CheckWrite Simulating now now1 region stats = some (false, none) ↔
        ∃ value, w.writeFlow.Peek region.ID = some value ∧ Simulating = false ∧
          now - value.LastUpdateTime < 3000000000)) ∧
    ((∀ value, w.readFlow.Peek region.ID = some value → Simulating = false →
        now - value.LastUpdateTime < 3000000000 →
        w.CheckRead Simulating now now1 region stats = some (false, none)) ∧
      ((Simulating = true ∨ w.readFlow.Peek region.ID = none) →
        w.CheckRead Simulating now now1 region stats =
          isNeedUpdateStatCache region
            (F64.toUint64 (F64.div (F64.ofUint64 region.BytesRead) 60))
            (calculateReadHotThreshold stats) (w.readFlow.Peek region.ID) .ReadFlow now1 ∧
        (region.BytesRead < 2 ^ 53 →
          w.CheckRead Simulating now now1 region stats =
            isNeedUpdateStatCache region (region.BytesRead / 60)
              (calculateReadHotThreshold stats) (w.readFlow.Peek region.ID) .ReadFlow
              now1) ∧
        w.CheckRead Simulating now now1 region stats ≠ some (false, none)) ∧
      (w.CheckRead Simulating now now1 region stats = some (false, none) ↔
        ∃ value, w.readFlow.Peek region.ID = some value ∧ Simulating = false ∧
          now - value.LastUpdateTime < 3000000000)) := by
  obtain ⟨hw1, hw2, hw3⟩ := CheckWrite_cases w Simulating now now1 region stats
  obtain ⟨hr1, hr2, hr3⟩ := CheckRead_cases w Simulating now now1 region stats
  refine ⟨⟨hw1, ?_, ?_⟩, ⟨hr1, ?_, ?_⟩⟩
  · intro h
    refine ⟨hw3 h, ?_, ?_⟩
    · intro hb
      rw [hw3 h, F64.flow_of_lt _ hb]
    · rw [hw3 h]
      exact isNeedUpdateStatCache_ne_false_nil _ _ _ _ _ _
  · constructor
    · intro hres
      cases hpeek : w.writeFlow.Peek region.ID with
      | none =>
        rw [hw3 (Or.inr hpeek)] at hres
        exact absurd hres (isNeedUpdateStatCache_ne_false_nil _ _ _ _ _ _)
      | some value =>
        cases hsim : Simulating with
        | true =>
          rw [hw3 (Or.inl hsim)] at hres
          exact absurd hres (isNeedUpdateStatCache_ne_false_nil _ _ _ _ _ _)
        | false =>
          by_cases hlt : now - value.LastUpdateTime < 3000000000
          · exact ⟨value, rfl, rfl, hlt⟩
          · rw [hw2 value hpeek hsim hlt] at hres
            exact absurd hres (isNeedUpdateStatCache_ne_false_nil _ _ _ _ _ _)
    · rintro ⟨value, hpeek, hsim, hlt⟩
      exact hw1 value hpeek hsim hlt
  · intro h
    refine ⟨hr3 h, ?_, ?_⟩
    · intro hb
      rw [hr3 h, F64.flow_of_lt _ hb]
    · rw [hr3 h]
      exact isNeedUpdateStatCache_ne_false_nil _ _ _ _ _ _
  · constructor
    · intro hres
      cases hpeek : w.readFlow.Peek region.ID with
      | none =>
        rw [hr3 (Or.inr hpeek)] at hres
        exact absurd hres (isNeedUpdateStatCache_ne_false_nil _ _ _ _ _ _)
      | some value =>
        cases hsim : Simulating with
        | true =>
          rw [hr3 (Or.inl hsim)] at hres
          exact absurd hres (isNeedUpdateStatCache_ne_false_nil _ _ _ _ _ _)
        | false =>
          by_cases hlt : now - value.LastUpdateTime < 3000000000
          · exact ⟨value, rfl, rfl, hlt⟩
          · rw [hr2 value hpeek hsim hlt] at hres
            exact absurd hres (isNeedUpdateStatCache_ne_false_nil _ _ _ _ _ _)
    · rintro ⟨value, hpeek, hsim, hlt⟩
      exact hr1 value hpeek hsim hlt

/-- Witness of C20 as amended: the write cache holds region 1, last updated at
time 0; a check 2 seconds later, not simulating, is suppressed; the same check
while simulating is the check of the flow rate 120 / 60 against the threshold. -/
theorem jitter_suppression_witness :
    (HotSpotCache.ofWrite (RegionStat.firstHot 1 100 0)).CheckWrite
      false 2000000000 2000000000
      { ID := 1, LeaderStoreID := 7, BytesWritten := 120, BytesRead := 0 }
      { TotalBytesWriteRate := 0, TotalBytesReadRate := 0 } = some (false, none) ∧
    (HotSpotCache.ofWrite (RegionStat.firstHot 1 100 0)).CheckWrite
      true 2000000000 2000000000
      { ID := 1, LeaderStoreID := 7, BytesWritten := 120, BytesRead := 0 }
      { TotalBytesWriteRate := 0, TotalBytesReadRate := 0 }
      = isNeedUpdateStatCache
          { ID := 1, LeaderStoreID := 7, BytesWritten := 120, BytesRead := 0 } (120 / 60)
          (calculateWriteHotThreshold { TotalBytesWriteRate := 0, TotalBytesReadRate := 0 })
          (some (RegionStat.firstHot 1 100 0)) .WriteFlow 2000000000 :=
  ⟨(jitter_suppression (HotSpotCache.ofWrite (RegionStat.firstHot 1 100 0))
      false 2000000000 2000000000
      { ID := 1, LeaderStoreID := 7, BytesWritten := 120, BytesRead := 0 }
      { TotalBytesWriteRate := 0, TotalBytesReadRate := 0 }).1.1
      (RegionStat.firstHot 1 100 0) rfl rfl (by decide),
    ((jitter_suppression (HotSpotCache.ofWrite (RegionStat.firstHot 1 100 0))
      true 2000000000 2000000000
      { ID := 1, LeaderStoreID := 7, BytesWritten := 120, BytesRead := 0 }
      { TotalBytesWriteRate := 0, TotalBytesReadRate := 0 }).1.2.1
      (Or.inl rfl)).2.1 (by decide)⟩

/-! ## Queries on the hot-spot cache -/

theorem IsRegionHot_iff (w : HotSpotCache) (id : Nat) (hotThreshold : Int) :
    w.IsRegionHot id hotThreshold = true ↔
      (∃ s, w.writeFlow.Peek id = some s ∧ s.HotDegree ≥ hotThreshold) ∨
      (∃ s, w.readFlow.Peek id = some s ∧ s.HotDegree ≥ hotThreshold) := by
  unfold HotSpotCache.IsRegionHot
  cases hw : w.writeFlow.Peek id with
  | none =>
    cases hr : w.readFlow.Peek id with
    | none => simp
    | some sr => simp
  | some sw =>
    by_cases hhot : sw.HotDegree ≥ hotThreshold
    · simp [hhot]
    · cases hr : w.readFlow.Peek id with
      | none => simp [hhot]
      | some sr => simp [hhot]

/-- C21, corrected.  The claim as stated fails: when the write cache holds the
region with a hot degree below the threshold and the read cache holds it with a
hot degree at or above the threshold, `IsRegionHot` goes on to the read entry
and answers true, although the write entry is not hot and the write cache does
have an entry. -/
theorem IsRegionHot_counterexample :
    (HotSpotCache.ofBoth (RegionStat.sample 1 0 1 none)
        (RegionStat.sample 1 5 1 none)).IsRegionHot 1 3 = true ∧
    ¬ ((∃ s, (HotSpotCache.ofBoth (RegionStat.sample 1 0 1 none)
            (RegionStat.sample 1 5 1 none)).writeFlow.Peek 1 = some s ∧ s.HotDegree ≥ 3) ∨
        ((HotSpotCache.ofBoth (RegionStat.sample 1 0 1 none)
            (RegionStat.sample 1 5 1 none)).writeFlow.Peek 1 = none ∧
          ∃ s, (HotSpotCache.ofBoth (RegionStat.sample 1 0 1 none)
            (RegionStat.sample 1 5 1 none)).readFlow.Peek 1 = some s ∧ s.HotDegree ≥ 3)) := by
  refine ⟨by decide, ?_⟩
  have hp : (HotSpotCache.ofBoth (RegionStat.sample 1 0 1 none)
      (RegionStat.sample 1 5 1 none)).writeFlow.Peek 1 = some (RegionStat.sample 1 0 1 none) :=
    rfl
  rintro (⟨s, hs, hge⟩ | ⟨hn, _⟩)
  · rw [hp] at hs
    simp only [Option.some.injEq] at hs
    subst hs
    revert hge
    decide
  · rw [hp] at hn
    cases hn

/-- C21, as amended: for every id and `hotThreshold` and every content of the
two caches, `IsRegionHot(id, hotThreshold)` is true if and only if the write
cache has an entry for the id with `HotDegree >= hotThreshold`, or the read
cache has an entry for the id with `HotDegree >= hotThreshold`. -/
theorem IsRegionHot_spec (w : HotSpotCache) (id : Nat) (hotThreshold : Int) :
    w.IsRegionHot id hotThreshold = true ↔
      (∃ s, w.writeFlow.Peek id = some s ∧ s.HotDegree ≥ hotThreshold) ∨
      (∃ s, w.readFlow.Peek id = some s ∧ s.HotDegree ≥ hotThreshold) :=
  IsRegionHot_iff w id hotThreshold

theorem RandHotRegionFromStore.scan_eq_find (stats : List RegionStat) (storeID : Nat)
    (hotThreshold : Int) (perm : List (Fin stats.length)) :
    RandHotRegionFromStore.scan stats storeID hotThreshold perm =
      (perm.find? (fun i =>
        decide ((stats.get i).HotDegree ≥ hotThreshold ∧ (stats.get i).StoreID = storeID))).map
        (fun i => stats.get i) := by
  induction perm with
  | nil => rfl
  | cons i rest ih =>
    by_cases h : (stats.get i).HotDegree ≥ hotThreshold ∧ (stats.get i).StoreID = storeID
    · rw [RandHotRegionFromStore.scan, if_pos h, List.find?_cons_of_pos _ (by simpa using h)]
      rfl
    · rw [RandHotRegionFromStore.scan, if_neg h, List.find?_cons_of_neg _ (by simpa using h), ih]

theorem RandHotRegionFromStore.scan_some (stats : List RegionStat) (storeID : Nat)
    (hotThreshold : Int) (perm : List (Fin stats.length)) (s : RegionStat)
    (h : RandHotRegionFromStore.scan stats storeID hotThreshold perm = some s) :
    s ∈ stats ∧ s.HotDegree ≥ hotThreshold ∧ s.StoreID = storeID := by
  induction perm with
  | nil => cases h
  | cons i rest ih =>
    by_cases hi : (stats.get i).HotDegree ≥ hotThreshold ∧ (stats.get i).StoreID = storeID
    · rw [RandHotRegionFromStore.scan, if_pos hi] at h
      simp only [Option.some.injEq] at h
      subst h
      exact ⟨List.get_mem _ _ _, hi.1, hi.2⟩
    · rw [RandHotRegionFromStore.scan, if_neg hi] at h
      exact ih h

theorem RandHotRegionFromStore.scan_none_iff (stats : List RegionStat) (storeID : Nat)
    (hotThreshold : Int) (perm : List (Fin stats.length)) :
    RandHotRegionFromStore.scan stats storeID hotThreshold perm = none ↔
      ∀ i ∈ perm,
        ¬((stats.get i).HotDegree ≥ hotThreshold ∧ (stats.get i).StoreID = storeID) := by
  induction perm with
  | nil => simp [RandHotRegionFromStore.scan]
  | cons i rest ih =>
    by_cases hi : (stats.get i).HotDegree ≥ hotThreshold ∧ (stats.get i).StoreID = storeID
    · rw [RandHotRegionFromStore.scan, if_pos hi]
      constructor
      · intro h
        cases h
      · intro h
        exact absurd hi (h i (List.mem_cons_self _ _))
    · rw [RandHotRegionFromStore.scan, if_neg hi, ih]
      simp only [List.mem_cons, forall_eq_or_imp]
      exact ⟨fun h => ⟨hi, h⟩, fun h => h.2⟩

/-- The snapshot taken by `RegionStats(kind)` is the content of the cache of
that kind, in order. -/
theorem HotSpotCache.RegionStats_eq (w : HotSpotCache) (kind : FlowKind) :
    w.RegionStats kind = (w.flow kind).elems.map (fun e => e.2) := by
  cases kind <;> rfl

/-- C22: for every cache content, store, kind and threshold, and every
permutation of the indices of the snapshot that the random source may produce:
the snapshot is the content of the cache of the given kind;
`RandHotRegionFromStore` returns nil if and only if no record held by the cache
of that kind has both `HotDegree >= hotThreshold` and `StoreID = storeID`;
otherwise it returns a record held by the cache of that kind with both
properties, namely the first such one in the order of the permutation. -/
theorem RandHotRegionFromStore_spec (w : HotSpotCache) (storeID : Nat) (kind : FlowKind)
    (hotThreshold : Int) (perm : List (Fin (w.RegionStats kind).length))
    (hperm : perm.Perm (List.finRange (w.RegionStats kind).length)) :
    w.RegionStats kind = (w.flow kind).elems.map (fun e => e.2) ∧
    (w.RandHotRegionFromStore storeID kind hotThreshold perm = none ↔
      ∀ e ∈ (w.flow kind).elems,
        ¬(e.2.HotDegree ≥ hotThreshold ∧ e.2.StoreID = storeID)) ∧
    (∀ s, w.RandHotRegionFromStore storeID kind hotThreshold perm = some s →
      (∃ e ∈ (w.flow kind).elems, e.2 = s) ∧ s.HotDegree ≥ hotThreshold ∧
        s.StoreID = storeID) ∧
    w.RandHotRegionFromStore storeID kind hotThreshold perm =
      (perm.find? (fun i =>
        decide (((w.RegionStats kind).get i).HotDegree ≥ hotThreshold ∧
          ((w.RegionStats kind).get i).StoreID = storeID))).map
        (fun i => (w.RegionStats kind).get i) := by
  have hmem : ∀ s, s ∈ w.RegionStats kind ↔ ∃ e ∈ (w.flow kind).elems, e.2 = s := by
    intro s
    rw [HotSpotCache.RegionStats_eq, List.mem_map]
  refine ⟨HotSpotCache.RegionStats_eq w kind, ?_, ?_, ?_⟩
  · unfold HotSpotCache.RandHotRegionFromStore
    rw [RandHotRegionFromStore.scan_none_iff]
    constructor
    · intro h e he
      have hs : e.2 ∈ w.RegionStats kind := (hmem e.2).2 ⟨e, he, rfl⟩
      obtain ⟨i, hi⟩ := List.get_of_mem hs
      rw [← hi]
      exact h i (hperm.mem_iff.2 (List.mem_finRange i))
    · intro h i _
      obtain ⟨e, he, heq⟩ := (hmem _).1 (List.get_mem (w.RegionStats kind) i.1 i.2)
      rw [← heq]
      exact h e he
  · intro s hs
    obtain ⟨h1, h2, h3⟩ := RandHotRegionFromStore.scan_some _ _ _ _ s hs
    exact ⟨(hmem s).1 h1, h2, h3⟩
  · exact RandHotRegionFromStore.scan_eq_find _ _ _ _

/-- Witness of C22: the write cache holds region 1 of store 7 with hot degree 5
and the read cache region 2 of store 7 with hot degree 6; asked for the read
flow with threshold 3, the record of region 2 is returned. -/
theorem RandHotRegionFromStore_spec_witness :
    (HotSpotCache.ofBoth (RegionStat.sample 1 5 1 (some (NewRollingStats rollingWindowsSize)))
        (RegionStat.sample 2 6 1 (some (NewRollingStats rollingWindowsSize)))).RandHotRegionFromStore
        7 .ReadFlow 3 [⟨0, by decide⟩]
      = some (RegionStat.sample 2 6 1 (some (NewRollingStats rollingWindowsSize))) :=
  (RandHotRegionFromStore_spec
    (HotSpotCache.ofBoth (RegionStat.sample 1 5 1 (some (NewRollingStats rollingWindowsSize)))
      (RegionStat.sample 2 6 1 (some (NewRollingStats rollingWindowsSize))))
    7 .ReadFlow 3 [⟨0, by decide⟩] (by decide)).2.2.2

/-! ## Thresholds -/

/-- For a float64 total rate below 2^57 the float64 quotient by 2000 has the
integer part of the exact quotient. -/
theorem F64.write_quotient_exact (x : ℚ) (h0 : 0 ≤ x) (hrep : F64.round x = x)
    (hx : x < 2 ^ 57) : F64.toUint64 (F64.div x 2000) = ⌊x / 2000⌋.toNat := by
  unfold F64.div
  have := F64.toUint64_div_exact x 2000 125 10 4 (by norm_num) (by norm_num) (by norm_num)
    h0 hrep hx
  simpa using this

/-- For a float64 total rate below 2^56 the float64 quotient by 1000 has the
integer part of the exact quotient. -/
theorem F64.read_quotient_exact (x : ℚ) (h0 : 0 ≤ x) (hrep : F64.round x = x)
    (hx : x < 2 ^ 56) : F64.toUint64 (F64.div x 1000) = ⌊x / 1000⌋.toNat := by
  unfold F64.div
  have := F64.toUint64_div_exact x 1000 125 9 3 (by norm_num) (by norm_num) (by norm_num)
    h0 hrep hx
  simpa using this

/-- C23, corrected.  The claim as stated fails: the quotient is a float64
division, rounded to the nearest float64 before it is truncated.  The total
write rate 281474976710661984 is a float64 value, not below 2^57; the exact
quotient by 2000 is 140737488355330.992, the claimed threshold is
140737488355330, and the code returns 140737488355331.  The same happens for
the total read rate 140737488355330992, not below 2^56, and the divisor 1000.
For the total write rate 2000 * 2^64 the claimed value is 2^64 and the
conversion to `uint64` gives 2^63. -/
theorem hot_threshold_formulas_counterexample :
    (0 : ℚ) ≤ 281474976710661984 ∧ (0 : ℚ) ≤ 140737488355330992 ∧
    F64.round 281474976710661984 = 281474976710661984 ∧
    calculateWriteHotThreshold
      { TotalBytesWriteRate := 281474976710661984, TotalBytesReadRate := 140737488355330992 }
      = 140737488355331 ∧
    max (16 * 1024) ⌊(281474976710661984 : ℚ) / 2000⌋.toNat = 140737488355330 ∧
    F64.round 140737488355330992 = 140737488355330992 ∧
    calculateReadHotThreshold
      { TotalBytesWriteRate := 281474976710661984, TotalBytesReadRate := 140737488355330992 }
      = 140737488355331 ∧
    max (128 * 1024) ⌊(140737488355330992 : ℚ) / 1000⌋.toNat = 140737488355330 ∧
    calculateWriteHotThreshold
      { TotalBytesWriteRate := 2000 * 2 ^ 64, TotalBytesReadRate := 0 } = 2 ^ 63 ∧
    max (16 * 1024) ⌊(2000 * 2 ^ 64 : ℚ) / 2000⌋.toNat = 2 ^ 64 := by
  have hw : ⌊(281474976710661984 : ℚ) / 2000⌋ = 140737488355330 :=
    Int.floor_eq_iff.2 ⟨by norm_num, by norm_num⟩
  have hr : ⌊(140737488355330992 : ℚ) / 1000⌋ = 140737488355330 :=
    Int.floor_eq_iff.2 ⟨by norm_num, by norm_num⟩
  have ho : ⌊(2000 * 2 ^ 64 : ℚ) / 2000⌋ = 2 ^ 64 := by
    have : (2000 * 2 ^ 64 : ℚ) / 2000 = ((2 ^ 64 : Int) : ℚ) := by norm_num
    rw [this, Int.floor_intCast]
  refine ⟨by norm_num, by norm_num, ?_, ?_, ?_, ?_, ?_, ?_, ?_, ?_⟩
  · rw [F64.round_eq _ 57 8796093022208187 (by norm_num) (by norm_num) (by norm_num)
      (by norm_num) (by norm_num)]
    norm_num
  · rw [calculateWriteHotThreshold_eq]
    simp only [F64.div_write_example]
    norm_num
  · rw [hw]
    norm_num
    rfl
  · rw [F64.round_eq _ 56 8796093022208187 (by norm_num) (by norm_num) (by norm_num)
      (by norm_num) (by norm_num)]
    norm_num
  · rw [calculateReadHotThreshold_eq]
    simp only [F64.div_read_example]
    norm_num
  · rw [hr]
    norm_num
    rfl
  · rw [calculateWriteHotThreshold_eq]
    simp only [F64.div_overflow_example]
    norm_num
  · rw [ho]
    norm_num
    rfl

/-- C23, as amended: threshold formulas.  For every non-negative total write
rate below 2^57, a float64 value, `calculateWriteHotThreshold` returns
`max(16*1024, floor(totalWriteRate / 2000))`, and for every non-negative total
read rate below 2^56, `calculateReadHotThreshold` returns
`max(128*1024, floor(totalReadRate / 1000))`.  In general the thresholds are
`max(16*1024, t)` and `max(128*1024, t)` where `t` is the float64 quotient,
rounded to the nearest float64 and truncated to `uint64`; for a non-negative
rate whose quotient is below 2^53 this is at least the claimed value and at most
the same with the floor raised by one.  For every rate the write threshold is
never below 16384 and the read threshold never below 131072, and with a total
rate of 0 they are exactly those minimums. -/
theorem hot_threshold_formulas (stats : StoresStats) :
    (0 ≤ stats.TotalBytesWriteRate →
      F64.round stats.TotalBytesWriteRate = stats.TotalBytesWriteRate →
      stats.TotalBytesWriteRate < 2 ^ 57 →
      calculateWriteHotThreshold stats =
        max (16 * 1024) ⌊stats.TotalBytesWriteRate / 2000⌋.toNat) ∧
    (0 ≤ stats.TotalBytesReadRate →
      F64.round stats.TotalBytesReadRate = stats.TotalBytesReadRate →
      stats.TotalBytesReadRate < 2 ^ 56 →
      calculateReadHotThreshold stats =
        max (128 * 1024) ⌊stats.TotalBytesReadRate / 1000⌋.toNat) ∧
    (calculateWriteHotThreshold stats =
        max (16 * 1024) (F64.toUint64 (F64.div stats.TotalBytesWriteRate 2000)) ∧
      calculateReadHotThreshold stats =
        max (128 * 1024) (F64.toUint64 (F64.div stats.TotalBytesReadRate 1000))) ∧
    (0 ≤ stats.TotalBytesWriteRate → stats.TotalBytesWriteRate / 2000 < 2 ^ 53 →
      max (16 * 1024) ⌊stats.TotalBytesWriteRate / 2000⌋.toNat
          ≤ calculateWriteHotThreshold stats ∧
        calculateWriteHotThreshold stats
          ≤ max (16 * 1024) (⌊stats.TotalBytesWriteRate / 2000⌋.toNat + 1)) ∧
    (0 ≤ stats.TotalBytesReadRate → stats.TotalBytesReadRate / 1000 < 2 ^ 53 →
      max (128 * 1024) ⌊stats.TotalBytesReadRate / 1000⌋.toNat
          ≤ calculateReadHotThreshold stats ∧
        calculateReadHotThreshold stats
          ≤ max (128 * 1024) (⌊stats.TotalBytesReadRate / 1000⌋.toNat + 1)) ∧
    16384 ≤ calculateWriteHotThreshold stats ∧
    131072 ≤ calculateReadHotThreshold stats ∧
    (stats.TotalBytesWriteRate = 0 → calculateWriteHotThreshold stats = 16384) ∧
    (stats.TotalBytesReadRate = 0 → calculateReadHotThreshold stats = 131072) := by
  have h53 : (2 : ℚ) ^ (53 : Int) = 2 ^ 53 := by norm_num
  refine ⟨?_, ?_, ⟨calculateWriteHotThreshold_eq stats, calculateReadHotThreshold_eq stats⟩,
    ?_, ?_, ?_, ?_, ?_, ?_⟩
  · intro h0 hrep hlt
    rw [calculateWriteHotThreshold_eq, F64.write_quotient_exact _ h0 hrep hlt]
  · intro h0 hrep hlt
    rw [calculateReadHotThreshold_eq, F64.read_quotient_exact _ h0 hrep hlt]
  · intro h0 h1
    obtain ⟨hlo, hhi⟩ := F64.toUint64_round_bounds (stats.TotalBytesWriteRate / 2000)
      (div_nonneg h0 (by norm_num)) (by rw [h53]; exact h1)
    rw [calculateWriteHotThreshold_eq]
    exact ⟨max_le_max le_rfl hlo, max_le_max le_rfl hhi⟩
  · intro h0 h1
    obtain ⟨hlo, hhi⟩ := F64.toUint64_round_bounds (stats.TotalBytesReadRate / 1000)
      (div_nonneg h0 (by norm_num)) (by rw [h53]; exact h1)
    rw [calculateReadHotThreshold_eq]
    exact ⟨max_le_max le_rfl hlo, max_le_max le_rfl hhi⟩
  · rw [calculateWriteHotThreshold_eq]
    exact le_trans (by norm_num) (le_max_left _ _)
  · rw [calculateReadHotThreshold_eq]
    exact le_trans (by norm_num) (le_max_left _ _)
  · intro h
    rw [calculateWriteHotThreshold_eq, h, F64.toUint64_div_zero]
    norm_num
  · intro h
    rw [calculateReadHotThreshold_eq, h, F64.toUint64_div_zero]
    norm_num

/-- Witness of C23 as amended: a cluster writing 40960000 bytes per second has
the write threshold 20480, the floor of the rate over 2000; an idle cluster has
the two minimums. -/
theorem hot_threshold_formulas_witness :
    calculateWriteHotThreshold { TotalBytesWriteRate := 40960000, TotalBytesReadRate := 0 }
      = max (16 * 1024) ⌊(40960000 : ℚ) / 2000⌋.toNat ∧
    calculateWriteHotThreshold { TotalBytesWriteRate := 0, TotalBytesReadRate := 0 } = 16384 ∧
    calculateReadHotThreshold { TotalBytesWriteRate := 0, TotalBytesReadRate := 0 } = 131072 :=
  ⟨(hot_threshold_formulas { TotalBytesWriteRate := 40960000, TotalBytesReadRate := 0 }).1
      (by norm_num) (by simpa using F64.round_int 40960000 (by norm_num) (by norm_num))
      (by norm_num),
    (hot_threshold_formulas
      { TotalBytesWriteRate := 0, TotalBytesReadRate := 0 }).2.2.2.2.2.2.2.1 rfl,
    (hot_threshold_formulas
      { TotalBytesWriteRate := 0, TotalBytesReadRate := 0 }).2.2.2.2.2.2.2.2 rfl⟩

/-! ## The scheduler list stays free of duplicates -/

theorem NoDupKey_iff_nodup (L : List SchedulerConfig) :
    NoDupKey L ↔ (L.map SchedulerConfig.key).Nodup := by
  unfold NoDupKey List.Nodup
  rw [List.pairwise_map]
  apply Iff.of_eq
  congr 1
  funext a b
  simp [SchedulerConfig.key]

theorem NoDupKey_append_singleton {L : List SchedulerConfig} (h : NoDupKey L)
    (n : SchedulerConfig) (hn : ∀ s ∈ L, ¬(s.Typ = n.Typ ∧ s.Args = n.Args)) :
    NoDupKey (L ++ [n]) := by
  unfold NoDupKey
  rw [List.pairwise_append]
  refine ⟨h, List.pairwise_singleton _ _, ?_⟩
  intro a ha b hb
  rw [List.mem_singleton] at hb
  subst hb
  exact hn a ha

theorem NoDupKey_replace {a b : List SchedulerConfig} {s n : SchedulerConfig}
    (h : NoDupKey (a ++ s :: b)) (ht : n.Typ = s.Typ) (hargs : n.Args = s.Args) :
    NoDupKey (a ++ n :: b) := by
  rw [NoDupKey_iff_nodup] at h ⊢
  have hk : n.key = s.key := by simp [SchedulerConfig.key, ht, hargs]
  simpa [hk] using h

theorem NoDupKey_remove {a b : List SchedulerConfig} {s : SchedulerConfig}
    (h : NoDupKey (a ++ s :: b)) : NoDupKey (a ++ b) :=
  List.Pairwise.sublist ((List.sublist_cons_self s b).append_left a) h

theorem AddSchedulerCfg_NoDupKey (o : scheduleOption) (tp : String)
    (args : Option (List String)) (h : NoDupKey o.GetSchedulers) :
    NoDupKey (o.AddSchedulerCfg tp args).GetSchedulers := by
  rcases AddSchedulerCfg_cases o tp args with ⟨hno, heq⟩ | ⟨a, s, b, hL, _, ht, hargs, heq⟩
  · rw [heq]
    exact NoDupKey_append_singleton h _ hno
  · rw [heq]
    rw [hL] at h
    exact NoDupKey_replace h ht.symm hargs.symm

theorem RemoveSchedulerCfg_NoDupKey (C : Factory) (D : String → Bool) (o : scheduleOption)
    (name : String) (h : NoDupKey o.GetSchedulers) :
    NoDupKey (o.RemoveSchedulerCfg C D name).1.GetSchedulers := by
  rcases RemoveSchedulerCfg_cases C D o name with ⟨_, hr⟩ | ⟨_, _, _, _, _, _, _, hr⟩ |
    ⟨pre, c, post, tmp, hL, _, _, _, hr⟩
  · rw [hr]; exact h
  · rw [hr]; exact h
  · rw [hr]
    rw [hL] at h
    simp only [scheduleOption.store_GetSchedulers, ScheduleConfig.setSchedulers_Schedulers]
    split
    · exact NoDupKey_replace h rfl rfl
    · exact NoDupKey_remove h

/-- The scheduler list that `reload` leaves: the list as it was when the load
fails, else the merge of the list with the saved list, or with itself when
nothing is saved. -/
theorem reload_GetSchedulers (o : scheduleOption) (kv : KV) :
    (o.reload kv).1.GetSchedulers = o.GetSchedulers ∨
    (o.reload kv).1.GetSchedulers = mergedSchedulers o.GetSchedulers o.GetSchedulers ∨
    ∃ c, kv.config = some c ∧
      (o.reload kv).1.GetSchedulers = mergedSchedulers o.GetSchedulers c.Schedule.Schedulers := by
  cases he : kv.loadErr with
  | some e =>
    left
    simp only [scheduleOption.reload, KV.LoadConfig, he]
  | none =>
    right
    cases hc : kv.config with
    | none =>
      left
      simp only [scheduleOption.reload, KV.LoadConfig, he, hc, adjustScheduleCfg_fst,
        Bool.false_eq_true, if_false]
      rfl
    | some c =>
      right
      refine ⟨c, rfl, ?_⟩
      simp only [scheduleOption.reload, KV.LoadConfig, he, hc, adjustScheduleCfg_snd,
        if_true]
      rfl

/-- C24: no-duplicate invariant of the scheduler list.  If the published list
has no two entries with equal `(Type, Args)`, then the list published by
`AddSchedulerCfg(t, a)` for any `(t, a)`, by `RemoveSchedulerCfg(name)` for any
name, and by `adjustScheduleCfg`, hence by `reload`, against any persisted list
that itself has no two entries with equal `(Type, Args)`, again has no two
entries with equal `(Type, Args)`; so has the list written back into the
persisted config. -/
theorem NoDupKey_preserved (C : Factory) (D : String → Bool) (o : scheduleOption)
    (h : NoDupKey o.GetSchedulers) :
    (∀ tp args, NoDupKey (o.AddSchedulerCfg tp args).GetSchedulers) ∧
    (∀ name, NoDupKey (o.RemoveSchedulerCfg C D name).1.GetSchedulers) ∧
    (∀ cfg : Config, NoDupKey cfg.Schedule.Schedulers →
      NoDupKey (o.adjustScheduleCfg cfg).1.GetSchedulers ∧
      NoDupKey (o.adjustScheduleCfg cfg).2.Schedule.Schedulers) ∧
    (∀ kv : KV, (∀ c, kv.config = some c → NoDupKey c.Schedule.Schedulers) →
      NoDupKey (o.reload kv).1.GetSchedulers) := by
  refine ⟨fun tp args => AddSchedulerCfg_NoDupKey o tp args h,
    fun name => RemoveSchedulerCfg_NoDupKey C D o name h, ?_, ?_⟩
  · intro cfg hcfg
    rw [(adjustScheduleCfg_lists o cfg).1, (adjustScheduleCfg_lists o cfg).2]
    exact ⟨NoDupKey_mergedSchedulers h hcfg, NoDupKey_mergedSchedulers h hcfg⟩
  · intro kv hkv
    rcases reload_GetSchedulers o kv with hr | hr | ⟨c, hc, hr⟩
    · rw [hr]; exact h
    · rw [hr]; exact NoDupKey_mergedSchedulers h h
    · rw [hr]; exact NoDupKey_mergedSchedulers h (hkv c hc)

/-- Witness of C24: a list with balance-leader and one evict-leader; adding a
second evict-leader, removing the first, and reloading from a store that holds
balance-leader disabled and a label scheduler all leave lists without
duplicates. -/
theorem NoDupKey_preserved_witness :
    NoDupKey (scheduleOption.example
        [{ Typ := "balance-leader", Args := none, Disable := false },
         { Typ := "evict-leader", Args := some ["1"], Disable := false }]
        (fun _ => none)).GetSchedulers ∧
    NoDupKey ((scheduleOption.example
        [{ Typ := "balance-leader", Args := none, Disable := false },
         { Typ := "evict-leader", Args := some ["1"], Disable := false }]
        (fun _ => none)).AddSchedulerCfg "evict-leader" (some ["2"])).GetSchedulers ∧
    NoDupKey ((scheduleOption.example
        [{ Typ := "balance-leader", Args := none, Disable := false },
         { Typ := "evict-leader", Args := some ["1"], Disable := false }]
        (fun _ => none)).RemoveSchedulerCfg sampleFactory sampleIsDefault
        "evict-leader-scheduler-1").1.GetSchedulers ∧
    NoDupKey ((scheduleOption.example
        [{ Typ := "balance-leader", Args := none, Disable := false },
         { Typ := "evict-leader", Args := some ["1"], Disable := false }]
        (fun _ => none)).reload
        { config := some (Config.example
            [{ Typ := "balance-leader", Args := none, Disable := true },
             { Typ := "label", Args := none, Disable := false }]),
          saveErr := none, loadErr := none }).1.GetSchedulers :=
  ⟨by decide,
    (NoDupKey_preserved sampleFactory sampleIsDefault _ (by decide)).1 "evict-leader"
      (some ["2"]),
    (NoDupKey_preserved sampleFactory sampleIsDefault _ (by decide)).2.1
      "evict-leader-scheduler-1",
    (NoDupKey_preserved sampleFactory sampleIsDefault _ (by decide)).2.2.2
      { config := some (Config.example
          [{ Typ := "balance-leader", Args := none, Disable := true },
           { Typ := "label", Args := none, Disable := false }]),
        saveErr := none, loadErr := none }
      (by
        intro c hc
        simp only [Option.some.injEq] at hc
        subst hc
        decide)⟩

/-! ## Presence of the rolling window -/

/-- From a prior item with a window, or none, the check returns, and the item it
hands to `Update` has a window. -/
theorem isNeedUpdateStatCache_windowed (region : RegionInfo) (flowBytes thr : Nat)
    (oldItem : Option RegionStat) (kind : FlowKind) (now : Int)
    (hold : ∀ s, oldItem = some s → s.Stats ≠ none) :
    ∃ b item, isNeedUpdateStatCache region flowBytes thr oldItem kind now = some (b, item) ∧
      (b = true → ∀ it, item = some it → it.Stats ≠ none) := by
  cases oldItem with
  | none =>
    by_cases hhot : flowBytes ≥ thr
    · refine ⟨true, _, isNeedUpdateStatCache_hot_none _ _ _ _ _ hhot, ?_⟩
      intro _ it hit
      simp only [Option.some.injEq] at hit
      subst hit
      simp
    · refine ⟨false, _, isNeedUpdateStatCache_cold_none _ _ _ _ _ (by omega), ?_⟩
      intro hb
      cases hb
  | some old =>
    obtain ⟨st, hst⟩ := Option.ne_none_iff_exists'.1 (hold old rfl)
    by_cases hhot : flowBytes ≥ thr
    · refine ⟨true, _, isNeedUpdateStatCache_hot_some _ _ _ _ _ _ _ hhot hst, ?_⟩
      intro _ it hit
      simp only [Option.some.injEq] at hit
      subst hit
      simp
    · by_cases hac : old.AntiCount ≤ 0
      · refine ⟨true, none, isNeedUpdateStatCache_cold_evict _ _ _ _ _ _ (by omega) hac, ?_⟩
        intro _ it hit
        cases hit
      · refine ⟨true, _,
          isNeedUpdateStatCache_cold_some _ _ _ _ _ _ _ (by omega) (by omega) hst, ?_⟩
        intro _ it hit
        simp only [Option.some.injEq] at hit
        subst hit
        simp

theorem HotSpotCache.observe_windowed (w : HotSpotCache) (ob : Observation)
    (hw : HotSpotCache.Windowed w) :
    ∃ r w1, w.observe ob = some (r, w1) ∧ HotSpotCache.Windowed w1 := by
  have hold : ∀ s, (w.flow ob.kind).Peek ob.region.ID = some s → s.Stats ≠ none :=
    fun s hs => hw ob.kind _ (Cache.Peek_mem _ _ _ hs)
  obtain ⟨b, item, hr, hitem⟩ :=
    isNeedUpdateStatCache_windowed ob.region ob.flowBytes ob.hotRegionThreshold
      ((w.flow ob.kind).Peek ob.region.ID) ob.kind ob.now hold
  cases b with
  | false =>
    refine ⟨(false, item), w, ?_, hw⟩
    simp only [HotSpotCache.observe, hr]
  | true =>
    refine ⟨(true, item), w.Update ob.region.ID item ob.kind, ?_, ?_⟩
    · simp only [HotSpotCache.observe, hr]
    · intro k e he
      rcases HotSpotCache.mem_Update _ _ _ _ _ _ he with ⟨it, hit, he2⟩ | he2
      · rw [he2]
        exact hitem rfl it hit
      · exact hw k e he2

theorem HotSpotCache.run_windowed :
    ∀ (obs : List Observation) (w : HotSpotCache), HotSpotCache.Windowed w →
      ∃ w1, w.run obs = some w1 ∧ HotSpotCache.Windowed w1 := by
  intro obs
  induction obs with
  | nil =>
    intro w hw
    exact ⟨w, rfl, hw⟩
  | cons ob rest ih =>
    intro w hw
    obtain ⟨r, w1, hr, hw1⟩ := HotSpotCache.observe_windowed w ob hw
    obtain ⟨w2, hrun, hw2⟩ := ih w1 hw1
    exact ⟨w2, by simp only [HotSpotCache.run, hr, hrun], hw2⟩

theorem NewHotSpotCache_windowed : HotSpotCache.Windowed NewHotSpotCache := by
  intro kind e he
  cases kind <;> simp [NewHotSpotCache, NewCache, HotSpotCache.flow] at he

/-- C25: presence of the rolling window rules out the nil dereference.  If the
prior item passed to `isNeedUpdateStatCache` is absent or has a non-nil `Stats`
window, the call returns (it never invokes `Add` on a nil window), and every
non-nil item it returns together with `shouldUpdate = true` has a non-nil
`Stats` window; consequently, starting from an empty cache and inserting only
such results through `Update`, no check fails and every cached record has a
non-nil `Stats` window, for every sequence of observations. -/
theorem window_presence :
    (∀ (region : RegionInfo) (flowBytes thr : Nat) (oldItem : Option RegionStat)
        (kind : FlowKind) (now : Int),
      (∀ s, oldItem = some s → s.Stats ≠ none) →
      ∃ b item, isNeedUpdateStatCache region flowBytes thr oldItem kind now = some (b, item) ∧
        (b = true → ∀ it, item = some it → it.Stats ≠ none)) ∧
    (∀ obs : List Observation, ∃ w, NewHotSpotCache.run obs = some w ∧
      ∀ kind, ∀ e ∈ (w.flow kind).elems, e.2.Stats ≠ none) := by
  refine ⟨isNeedUpdateStatCache_windowed, ?_⟩
  intro obs
  obtain ⟨w, hrun, hw⟩ := HotSpotCache.run_windowed obs NewHotSpotCache NewHotSpotCache_windowed
  exact ⟨w, hrun, hw⟩

/-- Witness of C25: a cold check on a prior item with a window and a positive
anti-count returns, with an item that has a window. -/
theorem window_presence_witness :
    ∃ b item, isNeedUpdateStatCache (RegionInfo.quiet 1 7) 10 50
        (some (RegionStat.sample 1 5 1 (some (NewRollingStats rollingWindowsSize))))
        .WriteFlow 0 = some (b, item) ∧
      (b = true → ∀ it, item = some it → it.Stats ≠ none) :=
  window_presence.1 (RegionInfo.quiet 1 7) 10 50
    (some (RegionStat.sample 1 5 1 (some (NewRollingStats rollingWindowsSize)))) .WriteFlow 0
    (by
      intro s hs
      simp only [Option.some.injEq] at hs
      subst hs
      simp [RegionStat.sample])

end Server
